import Mathlib

/-!
# WeMeet-recorder: session controller

A shallow embedding of `pkg/controllers/recorder_start.go` and
`pkg/controllers/recorder_end.go`.

* The controller's `sync.Map` is a function from key strings to stored values.
* A Go `error` is an `Option String`: `none` is `nil`, `some t` is an error whose
  `Error()` text is `t`.
* Every call that leaves the controller (recorder, counter, notification, file
  system, goroutine spawn, error log) is appended to `calls`, oldest first.
  `log.Infoln` lines are not recorded.
* Results of the external collaborators are inputs of the functions.
-/

namespace WeMeetRecorder

/-- Modelled from the spec: the protobuf enum `wemeet.RecordingTasks`, whose
declaration is not among the sources; the constructors are the job kinds the
spec lists. -/
inductive RecordingTasks where
  | START_RECORDING
  | STOP_RECORDING
  | START_RTMP
  | STOP_RTMP
  | STOP
  | END_RECORDING
  | END_RTMP
  | RECORDING_PROCEEDED
  deriving DecidableEq, Repr

/-- Modelled from the spec: the wire message `wemeet.WeMeetToRecorder`
(`TaskRequest`), whose declaration is not among the sources. -/
structure WeMeetToRecorder where
  RoomTableId : Int
  RoomId : String
  RoomSid : String
  Task : RecordingTasks
  RecordingId : String
  RecorderId : String
  deriving DecidableEq, Repr

/-- Modelled from the spec: the wire message `wemeet.RecorderToWeMeet`
(`TaskResponse`), whose declaration is not among the sources. -/
structure RecorderToWeMeet where
  From : String
  Status : Bool
  Msg : String
  Task : RecordingTasks
  RecordingId : String
  RecorderId : String
  RoomTableId : Int
  FilePath : String
  FileSize : ℚ
  deriving DecidableEq

/-- A `*recorder.Recorder`: `pid` stands for the identity of the pointer,
`Req` is the request it was constructed with. -/
structure Recorder where
  pid : Nat
  Req : WeMeetToRecorder
  deriving DecidableEq, Repr

/-- What a slot of the `sync.Map` can hold: its values have type `any`, and
`getAndDeleteRecorderInProgress` distinguishes a non-nil `*recorder.Recorder`,
a nil one, and a value of another dynamic type. -/
inductive Stored where
  | recorder (r : Recorder)
  | nilRecorder
  | foreign
  deriving DecidableEq

/-- Calls leaving the controller. -/
inductive Call where
  | recorderNew (r : Recorder)
  | recorderStart (r : Recorder) (err : Option String)
  | recorderClose (r : Recorder) (err : Option String)
  | goRecorderClose (r : Recorder) (err : Option String)
  | updateCurrentProgress (inc : Bool)
  | notifyToWeMeet (toSend : RecorderToWeMeet)
  | osStat (name : String)
  | goPostProcessRecording (req : WeMeetToRecorder) (filePath fileName : String)
  | logError (msg : String)
  | osRemove (name : String)
  | osRename (oldpath newpath : String)
  | execCommand (name : String) (args : List String)
  deriving DecidableEq

/-- The fields of `RecorderController` the two files use: the registry
`recordersInProgress`, the counter behind `c.ns`, and the calls issued. -/
structure RecorderController where
  recordersInProgress : String → Option Stored
  progress : Int
  calls : List Call

namespace RecorderController

/-- Append one call to the trace. -/
def log (c : RecorderController) (x : Call) : RecorderController :=
  { c with calls := c.calls ++ [x] }

/-- The `sync.Map` method `Store`. -/
def Store (c : RecorderController) (id : String) (v : Stored) : RecorderController :=
  { c with recordersInProgress := fun k => if k = id then some v else c.recordersInProgress k }

/-- The `sync.Map` method `Delete`. -/
def Delete (c : RecorderController) (id : String) : RecorderController :=
  { c with recordersInProgress := fun k => if k = id then none else c.recordersInProgress k }

/-- The controller with an empty trace. -/
def withoutCalls (c : RecorderController) : RecorderController :=
  { c with calls := [] }

end RecorderController

/-- The registry key `fmt.Sprintf("%d-%d", roomTableId, task)`; `num` is the
wire number of each job kind (the enum declaration is not among the sources). -/
def recorderId (num : RecordingTasks → Int) (roomTableId : Int) (task : RecordingTasks) : String :=
  toString roomTableId ++ "-" ++ toString (num task)

/-- Modelled from the spec: `c.ns.UpdateCurrentProgress`, the Progress Counter
of the message-bus collaborator, which is not among the sources: `true` adds
one, `false` subtracts one, and a failing call returns its error and leaves the
counter as it was. -/
def UpdateCurrentProgress (fails : Option String) (c : RecorderController) (inc : Bool) :
    RecorderController × Option String :=
  let c1 := c.log (.updateCurrentProgress inc)
  match fails with
  | some e => (c1, some e)
  | none => ({ c1 with progress := if inc then c1.progress + 1 else c1.progress - 1 }, none)

/-- Result of `os.Stat`. -/
inductive StatResult where
  | notExist (msg : String)
  | failed (msg : String)
  | info (size : Int)
  deriving DecidableEq

/-- What the collaborators answer during one run of `onAfterClose`. -/
structure CloseEnv where
  progressErr : Option String
  notifyErr : Option String
  pathJoin : String → String → String
  stat : String → StatResult

/-- The function `onAfterClose` of recorder_end.go. -/
def onAfterClose (num : RecordingTasks → Int) (env : CloseEnv) (c : RecorderController)
    (req : WeMeetToRecorder) (filePath fileName : String) (processErr : Option String) :
    RecorderController :=
  let c := c.Delete (recorderId num req.RoomTableId req.Task)
  let (c, err) := UpdateCurrentProgress env.progressErr c false
  let c := match err with
    | some e => c.log (.logError e)
    | none => c
  let toSend : RecorderToWeMeet :=
    { From := "recorder", Status := true, Msg := "success",
      Task := RecordingTasks.END_RECORDING,
      RecordingId := req.RecordingId, RecorderId := req.RecorderId,
      RoomTableId := req.RoomTableId, FilePath := "", FileSize := 0 }
  let toSend := if req.Task = RecordingTasks.START_RTMP
    then { toSend with Task := RecordingTasks.END_RTMP } else toSend
  let toSend := match processErr with
    | some e => { toSend with Status := false, Msg := e }
    | none => toSend
  let c := c.log (.notifyToWeMeet toSend)
  let c := match env.notifyErr with
    | some e => c.log (.logError e)
    | none => c
  if req.Task = RecordingTasks.START_RECORDING then
    let c := c.log (.osStat (env.pathJoin filePath fileName))
    match env.stat (env.pathJoin filePath fileName) with
    | .notExist msg => if processErr.isSome then c else c.log (.logError msg)
    | .failed msg => c.log (.logError msg)
    | .info size =>
      if size > 0 then c.log (.goPostProcessRecording req filePath fileName)
      else c.log (.logError ("avoiding postProcessRecording of  " ++
        env.pathJoin filePath fileName ++ " file because of 0 size"))
  else c

/-- The function `getAndDeleteRecorderInProgress` of recorder_end.go. -/
def getAndDeleteRecorderInProgress (num : RecordingTasks → Int) (c : RecorderController)
    (tableId : Int) (task : RecordingTasks) : (Option Recorder × Bool) × RecorderController :=
  match c.recordersInProgress (recorderId num tableId task) with
  | none => ((none, false), c)
  | some (.recorder r) => ((some r, true), c.Delete (recorderId num tableId task))
  | some .nilRecorder => ((none, true), c.Delete (recorderId num tableId task))
  | some .foreign =>
    ((none, false), (c.Delete (recorderId num tableId task)).log
      (.logError ("invalid type in recordersInProgress for id " ++ recorderId num tableId task)))

/-- The `switch` of `handleStopTask` that fills `tasksToCheck`. -/
def tasksToCheck (task : RecordingTasks) : List RecordingTasks :=
  match task with
  | .STOP_RECORDING => [.START_RECORDING]
  | .STOP_RTMP => [.START_RTMP]
  | .STOP => [.START_RECORDING, .START_RTMP]
  | _ => []

/-- One iteration of the loop of `handleStopTask`. -/
def stopOne (num : RecordingTasks → Int) (tableId : Int) (st : Bool × RecorderController)
    (task : RecordingTasks) : Bool × RecorderController :=
  match getAndDeleteRecorderInProgress num st.2 tableId task with
  | ((some process, true), c) => (true, c.log (.goRecorderClose process none))
  | (_, c) => (st.1, c)

/-- The function `handleStopTask` of recorder_end.go. -/
def handleStopTask (num : RecordingTasks → Int) (c : RecorderController)
    (req : WeMeetToRecorder) : Bool × RecorderController :=
  (tasksToCheck req.Task).foldl (stopOne num req.RoomTableId) (false, c)

/-- What the collaborators answer during one run of `handleStartTask`: the
identity of the recorder `recorder.New` returns, and the results of `r.Start()`
and of `UpdateCurrentProgress(true)`. -/
structure StartEnv where
  pid : Nat
  startErr : Option String
  progressErr : Option String

/-- The call `r.Close(err)`: the call is recorded, and `afterClose` is what the
recorder does to the controller before `Close` returns. -/
def recorderClose (afterClose : Recorder → Option String → RecorderController → RecorderController)
    (c : RecorderController) (r : Recorder) (err : Option String) : RecorderController :=
  afterClose r err (c.log (.recorderClose r err))

/-- The function `handleStartTask` of recorder_start.go. The deferred closure
runs at both `return err`. -/
def handleStartTask (num : RecordingTasks → Int)
    (afterClose : Recorder → Option String → RecorderController → RecorderController)
    (env : StartEnv) (c : RecorderController) (req : WeMeetToRecorder) :
    Option String × RecorderController :=
  match c.recordersInProgress (recorderId num req.RoomTableId req.Task) with
  | some _ => (some "this request in progress", c)
  | none =>
    let r : Recorder := { pid := env.pid, Req := req }
    let c := c.log (.recorderNew r)
    let c := c.Store (recorderId num req.RoomTableId req.Task) (.recorder r)
    let c := c.log (.recorderStart r env.startErr)
    match env.startErr with
    | some e => (some e, recorderClose afterClose (c.log (.logError e)) r (some e))
    | none =>
      match UpdateCurrentProgress env.progressErr c true with
      | (c, some e) => (some e, recorderClose afterClose (c.log (.logError e)) r (some e))
      | (c, none) => (none, c)

/-- A `Close` that only takes the request: the close callback fires later. -/
def closeLater : Recorder → Option String → RecorderController → RecorderController :=
  fun _ _ c => c

/-- A `Close` that fires the close callback before it returns; `file` is the
output directory and file name the recorder reports. -/
def closeNow (num : RecordingTasks → Int) (env : CloseEnv) (file : Recorder → String × String) :
    Recorder → Option String → RecorderController → RecorderController :=
  fun r err c => onAfterClose num env c r.Req (file r).1 (file r).2 err

/-- Controller together with the bookkeeping of a run in which `Close` only
takes the request: the identity the next recorder gets, the recorders whose
`Start` returned nil, the close requests whose callback has not fired yet (with
the error handed to `Close`), and the recorders whose close callback has fired. -/
structure Sys where
  ctl : RecorderController
  nextPid : Nat
  launched : List Recorder
  pending : List (Recorder × Option String)
  closed : List Recorder

/-- What can happen to the controller: a start request with the results of
`Start` and of the counter increment, a stop request, and the close callback of
a recorder with a requested close firing. -/
inductive Event where
  | start (req : WeMeetToRecorder) (startErr progressErr : Option String)
  | stop (req : WeMeetToRecorder)
  | closeFired (r : Recorder) (env : CloseEnv) (filePath fileName : String)

/-- Recorders a trace constructed. -/
def constructedBy : List Call → List Recorder
  | [] => []
  | .recorderNew r :: cs => r :: constructedBy cs
  | _ :: cs => constructedBy cs

/-- Recorders whose `Start` returned nil in a trace. -/
def launchedBy : List Call → List Recorder
  | [] => []
  | .recorderStart r none :: cs => r :: launchedBy cs
  | _ :: cs => launchedBy cs

/-- The `Close` calls of a trace, direct or spawned. -/
def closeRequests : List Call → List (Recorder × Option String)
  | [] => []
  | .recorderClose r e :: cs => (r, e) :: closeRequests cs
  | .goRecorderClose r e :: cs => (r, e) :: closeRequests cs
  | _ :: cs => closeRequests cs

/-- Modelled from the spec: `Close` of the capture process, which is not among
the sources, is idempotent and its close callback fires once: a request for a
recorder that is already closing or closed adds nothing. -/
def requestClose (s : Sys) (x : Recorder × Option String) : Sys :=
  if x.1 ∈ s.closed ∨ x.1 ∈ s.pending.map Prod.fst then s
  else { s with pending := s.pending ++ [x] }

/-- Take over the result of a controller function that ran on the controller of
`s` with an empty trace. -/
def Sys.absorb (s : Sys) (res : RecorderController) : Sys :=
  (closeRequests res.calls).foldl requestClose
    { s with
      ctl := { res with calls := s.ctl.calls ++ res.calls }
      nextPid := s.nextPid + (constructedBy res.calls).length
      launched := s.launched ++ launchedBy res.calls }

/-- One event. A stop request is taken target by target (`stopOne` is the loop
body of `handleStopTask`); `closeFired` of a recorder without a requested close
does nothing. -/
def step (num : RecordingTasks → Int) (s : Sys) : Event → Sys
  | .start req startErr progressErr =>
    s.absorb (handleStartTask num closeLater
      { pid := s.nextPid, startErr := startErr, progressErr := progressErr }
      s.ctl.withoutCalls req).2
  | .stop req =>
    (tasksToCheck req.Task).foldl
      (fun s task => s.absorb (stopOne num req.RoomTableId (false, s.ctl.withoutCalls) task).2) s
  | .closeFired r env filePath fileName =>
    match s.pending.find? (fun x => x.1 = r) with
    | none => s
    | some x =>
      let res := onAfterClose num env s.ctl.withoutCalls x.1.Req filePath fileName x.2
      { s with
        ctl := { res with calls := s.ctl.calls ++ res.calls }
        pending := s.pending.filter (fun y => y.1 ≠ r)
        closed := r :: s.closed }

/-- A sequence of events. -/
def run (num : RecordingTasks → Int) (s : Sys) (evs : List Event) : Sys :=
  evs.foldl (step num) s

/-- The empty registry. -/
def init : Sys :=
  { ctl := { recordersInProgress := fun _ => none, progress := 0, calls := [] }
    nextPid := 0, launched := [], pending := [], closed := [] }

/-- Capture processes launched successfully whose close callback has not fired. -/
def live (s : Sys) : List Recorder :=
  s.launched.filter (fun r => r ∉ s.closed)

/-- The key of the request a recorder was constructed with. -/
def Recorder.key (num : RecordingTasks → Int) (r : Recorder) : String :=
  recorderId num r.Req.RoomTableId r.Req.Task

/-- A start request is admitted when its key is in the registry (it will be
rejected) or no close is pending for its key; other events always are. -/
def startAllowed (num : RecordingTasks → Int) (s : Sys) : Event → Bool
  | .start req _ _ =>
    (s.ctl.recordersInProgress (recorderId num req.RoomTableId req.Task)).isSome ||
      s.pending.all fun x => decide (x.1.key num ≠ recorderId num req.RoomTableId req.Task)
  | _ => true

/-- Schedules in which every start request is admitted when it arrives: no
start is accepted for a key while a close for that key is pending. -/
def Quiet (num : RecordingTasks → Int) : Sys → List Event → Bool
  | _, [] => true
  | s, e :: es => startAllowed num s e && Quiet num (step num s e) es

/-- A recorder still occupies its key: it was launched and its close callback
has not fired, or a close is pending for it. -/
def InFlight (s : Sys) (r : Recorder) : Prop :=
  (r ∈ s.launched ∧ r ∉ s.closed) ∨ r ∈ s.pending.map Prod.fst

/-- What holds in every state of a quiet schedule. -/
structure Inv (num : RecordingTasks → Int) (s : Sys) : Prop where
  nodup : s.launched.Nodup
  boundLaunched : ∀ r ∈ s.launched, r.pid < s.nextPid
  boundClosed : ∀ r ∈ s.closed, r.pid < s.nextPid
  boundPending : ∀ x ∈ s.pending, x.1.pid < s.nextPid
  uniq : ∀ r1 r2, InFlight s r1 → InFlight s r2 → r1.key num = r2.key num → r1 = r2
  reg : ∀ k v, s.ctl.recordersInProgress k = some v →
    ∃ r, v = .recorder r ∧ r.key num = k ∧ InFlight s r
  tracked : ∀ r, InFlight s r → r ∉ s.pending.map Prod.fst →
    s.ctl.recordersInProgress (r.key num) = some (.recorder r)
  pend : ∀ x ∈ s.pending, x.1 ∉ s.closed

/-- The responses a trace handed to the Notification Channel. -/
def notifications : List Call → List RecorderToWeMeet
  | [] => []
  | .notifyToWeMeet t :: cs => t :: notifications cs
  | _ :: cs => notifications cs

/-- The Post-Processing Pipeline runs a trace spawned. -/
def postProcessRuns : List Call → List (WeMeetToRecorder × String × String)
  | [] => []
  | .goPostProcessRecording req filePath fileName :: cs => (req, filePath, fileName) :: postProcessRuns cs
  | _ :: cs => postProcessRuns cs

/-- The expected output file exists and is not empty. -/
def outputReady (env : CloseEnv) (filePath fileName : String) : Bool :=
  match env.stat (env.pathJoin filePath fileName) with
  | .info size => decide (0 < size)
  | _ => false

/-- The handle a registry slot holds, if it holds one. -/
def Stored.handle : Option Stored → Option Recorder
  | some (.recorder r) => some r
  | _ => none

/-- A numbering of the job kinds for the worked examples: the position of each
kind in the list of the spec. -/
def sampleNum : RecordingTasks → Int
  | .START_RECORDING => 0
  | .STOP_RECORDING => 1
  | .START_RTMP => 2
  | .STOP_RTMP => 3
  | .STOP => 4
  | .END_RECORDING => 5
  | .END_RTMP => 6
  | .RECORDING_PROCEEDED => 7

/-- A request of the given kind for room 42, for the worked examples. -/
def sampleReq (task : RecordingTasks) : WeMeetToRecorder :=
  { RoomTableId := 42, RoomId := "room", RoomSid := "sid", Task := task,
    RecordingId := "rec", RecorderId := "node" }

/-- A file system without any file, and collaborators that do not fail. -/
def sampleCloseEnv : CloseEnv :=
  { progressErr := none, notifyErr := none
    pathJoin := fun d f => d ++ "/" ++ f
    stat := fun _ => .notExist "no such file or directory" }

/-- The response `onAfterClose` builds. -/
def closeResponse (req : WeMeetToRecorder) (processErr : Option String) : RecorderToWeMeet :=
  { From := "recorder"
    Status := processErr.isNone
    Msg := processErr.getD "success"
    Task := if req.Task = RecordingTasks.START_RTMP then RecordingTasks.END_RTMP
      else RecordingTasks.END_RECORDING
    RecordingId := req.RecordingId, RecorderId := req.RecorderId
    RoomTableId := req.RoomTableId, FilePath := "", FileSize := 0 }

/-- The controller after an accepted start request of the given kind for room
42 whose launch and counter increment succeed. -/
def sampleStart (c : RecorderController) (pid : Nat) (task : RecordingTasks) :
    RecorderController :=
  (handleStartTask sampleNum closeLater { pid := pid, startErr := none, progressErr := none } c
    (sampleReq task)).2

/-- Room 42 with a recording job and an RTMP job active. -/
def bothActive : RecorderController :=
  sampleStart (sampleStart init.ctl 0 .START_RECORDING) 1 .START_RTMP

/-- The registry key of a room and a job-kind number: `fmt.Sprintf("%d-%d", a, b)`. -/
def registryKey (a b : Int) : String :=
  toString a ++ "-" ++ toString b

/-- The number a decimal digit character stands for. -/
def digitValue (c : Char) : Nat := c.toNat - 48

/-- The number a list of decimal digits stands for, most significant digit first. -/
def decodeDigits (ds : List Char) : Nat :=
  ds.foldl (fun acc c => 10 * acc + digitValue c) 0

/-- The function `onAfterStart` of recorder_start.go; `notifyErr` is what
`NotifyToWeMeet` returns. -/
def onAfterStart (notifyErr : Option String) (c : RecorderController) (req : WeMeetToRecorder) :
    RecorderController :=
  let toSend : RecorderToWeMeet :=
    { From := "recorder", Status := true, Task := req.Task, Msg := "success",
      RecordingId := req.RecordingId, RecorderId := req.RecorderId,
      RoomTableId := req.RoomTableId, FilePath := "", FileSize := 0 }
  let c := c.log (.notifyToWeMeet toSend)
  match notifyErr with
  | some e => c.log (.logError e)
  | none => c

/-! ### float32 -/

/-- A finite float32 value, `num / den` with a sign. Infinities and NaN are left
out: the sizes of files stay far below the largest float32. -/
structure F32 where
  neg : Bool
  num : Nat
  den : Nat
  deriving DecidableEq, Repr

namespace F32

/-- The position of the highest bit of `n`, for `n` below `2 ^ 2 ^ k`. -/
def highBit : Nat → Nat → Nat
  | 0, _ => 0
  | k + 1, n => if 2 ^ 2 ^ k ≤ n then 2 ^ k + highBit k (n / 2 ^ 2 ^ k) else highBit k n

/-- The float32 nearest to `n / d`, ties to the even significand: 24 bits of
significand, least exponent -149 (all values are counted in units of `2 ^ -149`).
The result is `(num, den)`, in lowest terms. The quotients of float32 values stay
below `2 ^ 363`, where nine steps find the highest bit. -/
def roundNat (n d : Nat) : Nat × Nat :=
  if d = 0 then (0, 1) else
  let x := n * 2 ^ 149
  let drop := highBit 9 (x / d) - 23
  let unit := d * 2 ^ drop
  let m := x / unit
  let r := x % unit
  let m := if unit < 2 * r ∨ (2 * r = unit ∧ m % 2 = 1) then m + 1 else m
  let g := Nat.gcd (m * 2 ^ drop) (2 ^ 149)
  (m * 2 ^ drop / g, 2 ^ 149 / g)

/-- The conversion `float32(z)` of an integer. -/
def ofInt (z : Int) : F32 :=
  { neg := decide (z < 0), num := (roundNat z.natAbs 1).1, den := (roundNat z.natAbs 1).2 }

/-- The float32 quotient `x / y`, for `y` other than 0. -/
def div (x y : F32) : F32 :=
  { neg := xor x.neg y.neg
    num := (roundNat (x.num * y.den) (x.den * y.num)).1
    den := (roundNat (x.num * y.den) (x.den * y.num)).2 }

/-- The float32 product `x * y`. -/
def mul (x y : F32) : F32 :=
  { neg := xor x.neg y.neg
    num := (roundNat (x.num * y.num) (x.den * y.den)).1
    den := (roundNat (x.num * y.num) (x.den * y.den)).2 }

/-- The conversion `int(x)`: the fraction is dropped. -/
def toInt (x : F32) : Int :=
  if x.neg then -((x.num / x.den : Nat) : Int) else ((x.num / x.den : Nat) : Int)

/-- The number a float32 value stands for. -/
def toRat (x : F32) : ℚ :=
  if x.neg then -((x.num : ℚ) / x.den) else (x.num : ℚ) / x.den

end F32

/-- The line `size := float32(stat.Size()) / 1000000.0` of `postProcessRecording`. -/
def megabytes (bytes : Int) : F32 :=
  F32.div (F32.ofInt bytes) (F32.ofInt 1000000)

/-- The expression `float32(int(size*100)) / 100` of `postProcessRecording`. -/
def twoDecimals (size : F32) : F32 :=
  F32.div (F32.ofInt (F32.toInt (F32.mul size (F32.ofInt 100)))) (F32.ofInt 100)

/-! ### Files and paths -/

/-- The file system: a map from paths to contents. -/
abbrev FileSystem := String → Option (List UInt8)

/-- The call `os.Remove` on the map. -/
def osRemove (fs : FileSystem) (name : String) : FileSystem × Option String :=
  match fs name with
  | some _ => (fun p => if p = name then none else fs p, none)
  | none => (fs, some ("remove " ++ name ++ ": no such file or directory"))

/-- The call `os.Rename` on the map. -/
def osRename (fs : FileSystem) (oldpath newpath : String) : FileSystem × Option String :=
  match fs oldpath with
  | some content =>
    (fun p => if p = newpath then some content else if p = oldpath then none else fs p, none)
  | none => (fs, some ("rename " ++ oldpath ++ " " ++ newpath ++ ": no such file or directory"))

/-- The call `os.Stat` on the map. -/
def osStat (fs : FileSystem) (name : String) : StatResult :=
  match fs name with
  | some content => .info content.length
  | none => .notExist ("stat " ++ name ++ ": no such file or directory")

/-- The characters left of `s` after the leading `pre`, if `s` starts with `pre`. -/
def dropLeading : List Char → List Char → Option (List Char)
  | s, [] => some s
  | [], _ :: _ => none
  | c :: s, p :: pre => if c = p then dropLeading s pre else none

/-- The function `strings.TrimPrefix`. -/
def TrimPrefix (s pre : String) : String :=
  match dropLeading s.data pre.data with
  | some rest => String.mk rest
  | none => s

/-- Modelled from the spec: the settings `postProcessRecording` reads from the
configuration `c.cnf`, whose declaration is not among the sources. -/
structure AppConfig where
  PostMp4Convert : Bool
  PreInput : String
  PostInput : String
  MainPath : String
  PostProcessingScripts : List String

/-- Modelled from the spec: what the external encoder does in one run. It writes
nothing but its output file: a failed run may leave a partial output, a finished
run leaves the converted file. -/
inductive EncoderResult where
  | failed (err : String) (partialOutput : Option (List UInt8))
  | done (output : List UInt8)

/-- The file system after a run of the encoder with the given output path. -/
def EncoderResult.apply (res : EncoderResult) (fs : FileSystem) (output : String) :
    FileSystem × Option String :=
  match res with
  | .failed err (some content) => (fun p => if p = output then some content else fs p, some err)
  | .failed err none => (fs, some err)
  | .done content => (fun p => if p = output then some content else fs p, none)

/-- The map `data` that `postProcessRecording` hands to `json.Marshal`. -/
structure HookPayload where
  recording_id : String
  room_table_id : Int
  room_id : String
  room_sid : String
  file_name : String
  file_path : String
  file_size : F32
  recorder_id : String
  deriving DecidableEq

/-- What the collaborators answer during one run of `postProcessRecording`:
`path.Join`, the encoder, `filepath.Abs`, `filepath.Rel`, `NotifyToWeMeet`,
`json.Marshal` and each hook script. -/
structure PostEnv where
  pathJoin : String → String → String
  encoder : EncoderResult
  filepathAbs : String → Except String String
  filepathRel : String → String → Except String String
  notifyErr : Option String
  jsonMarshal : HookPayload → Except String String
  scriptErr : String → Option String

/-- The pieces of a list of characters between the occurrences of `sep`: one more
piece than there are occurrences. -/
def splitChars (sep : Char) : List Char → List (List Char)
  | [] => [[]]
  | c :: cs =>
    if c = sep then [] :: splitChars sep cs
    else
      match splitChars sep cs with
      | [] => [[c]]
      | piece :: pieces => (c :: piece) :: pieces

/-- The call `strings.Split(s, " ")`. -/
def splitOnSpace (s : String) : List String :=
  (splitChars ' ' s.data).map String.mk

/-- The argument list `postProcessRecording` builds for the encoder. -/
def ffmpegArgs (cnf : AppConfig) (env : PostEnv) (req : WeMeetToRecorder)
    (filePath currentFileName : String) : List String :=
  splitOnSpace cnf.PreInput ++ ["-i", env.pathJoin filePath currentFileName] ++
    splitOnSpace cnf.PostInput ++ [env.pathJoin filePath (req.RecordingId ++ ".mp4")]

/-- First part of `postProcessRecording`: convert or rename the raw file; the
result carries the final file name. -/
def finalizeFile (cnf : AppConfig) (env : PostEnv) (c : RecorderController) (fs : FileSystem)
    (req : WeMeetToRecorder) (filePath currentFileName : String) :
    RecorderController × FileSystem × String :=
  let finalFileName := req.RecordingId ++ ".mp4"
  if cnf.PostMp4Convert then
    let c := c.log (.execCommand "ffmpeg" (ffmpegArgs cnf env req filePath currentFileName))
    match env.encoder.apply fs (env.pathJoin filePath finalFileName) with
    | (fs, some err) =>
      let c := c.log (.logError ("keeping the raw file: " ++ currentFileName ++
        " as output because of error from ffmpeg: " ++ err))
      let c := c.log (.osRemove (env.pathJoin filePath finalFileName))
      ((c, (osRemove fs (env.pathJoin filePath finalFileName)).1, currentFileName))
    | (fs, none) =>
      let c := c.log (.osRemove (env.pathJoin filePath currentFileName))
      match osRemove fs (env.pathJoin filePath currentFileName) with
      | (fs, some err) => (c.log (.logError err), fs, finalFileName)
      | (fs, none) => (c, fs, finalFileName)
  else
    let c := c.log (.osRename (env.pathJoin filePath currentFileName)
      (env.pathJoin filePath finalFileName))
    match osRename fs (env.pathJoin filePath currentFileName)
        (env.pathJoin filePath finalFileName) with
    | (fs, some err) =>
      (c.log (.logError ("keeping the raw file: " ++ currentFileName ++
        " as output because of error during rename: " ++ err)), fs, currentFileName)
    | (fs, none) => (c, fs, finalFileName)

/-- The part of `postProcessRecording` that computes `relativePath`. -/
def relativePath (cnf : AppConfig) (env : PostEnv) (c : RecorderController)
    (outputFilePath : String) : RecorderController × String :=
  match env.filepathAbs cnf.MainPath with
  | .error err =>
    (c.log (.logError ("could not determine absolute path for main_path '" ++ cnf.MainPath ++
      "', falling back to string trimming: " ++ err)),
      TrimPrefix outputFilePath cnf.MainPath)
  | .ok basePath =>
    match env.filepathRel basePath outputFilePath with
    | .error err =>
      (c.log (.logError ("could not make path relative for " ++ outputFilePath ++ ": " ++ err)),
        TrimPrefix outputFilePath basePath)
    | .ok rel => (c, rel)

/-- The `data` of the hook scripts. -/
def hookPayload (env : PostEnv) (req : WeMeetToRecorder) (filePath finalFileName : String)
    (size : F32) : HookPayload :=
  { recording_id := req.RecordingId, room_table_id := req.RoomTableId, room_id := req.RoomId,
    room_sid := req.RoomSid, file_name := finalFileName,
    file_path := env.pathJoin filePath finalFileName, file_size := size,
    recorder_id := req.RecorderId }

/-- The loop of `postProcessRecording` over the hook scripts; `scriptErr` is the
error each script ends with, if any. -/
def runScripts (scriptErr : String → Option String) (marshal : String) :
    List String → RecorderController → RecorderController
  | [], c => c
  | script :: rest, c =>
    let c := c.log (.execCommand "/bin/sh" [script, marshal])
    match scriptErr script with
    | some err => runScripts scriptErr marshal rest (c.log (.logError err))
    | none => runScripts scriptErr marshal rest c

/-- The response `postProcessRecording` builds. -/
def proceededResponse (req : WeMeetToRecorder) (rel : String) (size : F32) : RecorderToWeMeet :=
  { From := "recorder", Status := true, Task := RecordingTasks.RECORDING_PROCEEDED,
    Msg := "success", RecordingId := req.RecordingId, RecorderId := req.RecorderId,
    RoomTableId := req.RoomTableId, FilePath := rel, FileSize := (twoDecimals size).toRat }

/-- Second part of `postProcessRecording`, from the stat of the final file on:
the response and the hook scripts. -/
def reportFile (cnf : AppConfig) (env : PostEnv) (c : RecorderController) (fs : FileSystem)
    (req : WeMeetToRecorder) (filePath finalFileName : String) : RecorderController :=
  let outputFilePath := env.pathJoin filePath finalFileName
  let c := c.log (.osStat outputFilePath)
  match osStat fs outputFilePath with
  | .notExist msg => c.log (.logError msg)
  | .failed msg => c.log (.logError msg)
  | .info bytes =>
    let size := megabytes bytes
    match relativePath cnf env c outputFilePath with
    | (c, rel) =>
      let c := c.log (.notifyToWeMeet (proceededResponse req rel size))
      let c := match env.notifyErr with
        | some e => c.log (.logError e)
        | none => c
      if cnf.PostProcessingScripts.length = 0 then c
      else
        match env.jsonMarshal (hookPayload env req filePath finalFileName size) with
        | .error err => c.log (.logError err)
        | .ok marshal => runScripts env.scriptErr marshal cnf.PostProcessingScripts c

/-- The function `postProcessRecording` of recorder_end.go. The hook scripts are
recorded as calls; what they do to files is outside the model. -/
def postProcessRecording (cnf : AppConfig) (env : PostEnv) (c : RecorderController)
    (fs : FileSystem) (req : WeMeetToRecorder) (filePath currentFileName : String) :
    RecorderController × FileSystem :=
  match finalizeFile cnf env c fs req filePath currentFileName with
  | (c, fs, finalFileName) => (reportFile cnf env c fs req filePath finalFileName, fs)

/-- The calls of a trace other than error logs. -/
def withoutLogs : List Call → List Call
  | [] => []
  | .logError _ :: cs => withoutLogs cs
  | x :: cs => x :: withoutLogs cs

/-- The external commands a trace ran: program and argument list. -/
def commands : List Call → List (String × List String)
  | [] => []
  | .execCommand name args :: cs => (name, args) :: commands cs
  | _ :: cs => commands cs

/-! ### The Notification Channel -/

/-- An HTTP request: method, address, body and header fields. -/
structure HttpRequest where
  method : String
  url : String
  body : List UInt8
  header : List (String × String)
  deriving DecidableEq

/-- The method `Header.Set`: the field gets this one value. The names are kept
as the source writes them. -/
def HttpRequest.Set (r : HttpRequest) (name value : String) : HttpRequest :=
  { r with header := r.header.filter (fun h => h.1 ≠ name) ++ [(name, value)] }

/-- The value of a header field. -/
def HttpRequest.Get (r : HttpRequest) (name : String) : Option String :=
  (r.header.find? fun h => h.1 = name).map Prod.snd

/-- Modelled from the spec: HMAC-SHA256 of the Go library, a function of key and
message whose result has 32 bytes. -/
structure HmacSHA256 where
  sum : List UInt8 → List UInt8 → List UInt8
  size : ∀ key message, (sum key message).length = 32

/-- The function `hex.EncodeToString`: two lowercase hexadecimal digits a byte. -/
def hexEncodeToString (bytes : List UInt8) : String :=
  String.mk (bytes.map fun v => [Nat.digitChar (v.toNat / 16), Nat.digitChar (v.toNat % 16)]).flatten

/-- What the collaborators answer during one run of `NotifyToWeMeet`:
`proto.Marshal`, `retryablehttp.NewRequest` (its error for a method and an
address), HMAC-SHA256, and `client.Do` for a retry limit and a request (the
status code of the response, or the error). -/
structure NotifyEnv where
  marshal : RecorderToWeMeet → Except String (List UInt8)
  newRequestErr : String → String → Option String
  hmac : HmacSHA256
  clientDo : Option Nat → HttpRequest → Except String Int

/-- Lines 25 to 41 of `NotifyToWeMeet`: the request handed to `client.Do`. -/
def notifyRequest (env : NotifyEnv) (host apiKey apiSecret : String) (req : RecorderToWeMeet) :
    Except String HttpRequest :=
  match env.marshal req with
  | .error err => .error err
  | .ok body =>
    match env.newRequestErr "POST" (host ++ "/auth/recorder/notify") with
    | some err => .error err
    | none =>
      let r : HttpRequest :=
        { method := "POST", url := host ++ "/auth/recorder/notify", body := body, header := [] }
      let signature := hexEncodeToString (env.hmac.sum apiSecret.toUTF8.toList body)
      let r := r.Set "API-KEY" apiKey
      let r := r.Set "HASH-SIGNATURE" signature
      .ok (r.Set "content-type" "application/protobuf")

/-- The function `NotifyToWeMeet` of http_request.go. -/
def NotifyToWeMeet (env : NotifyEnv) (host apiKey apiSecret : String) (req : RecorderToWeMeet)
    (retryMax : Option Nat) : Int × Option String :=
  match notifyRequest env host apiKey apiSecret req with
  | .error err => (0, some err)
  | .ok r =>
    match env.clientDo retryMax r with
    | .error err => (0, some err)
    | .ok statusCode => (statusCode, none)

/-- A 32-byte stand-in for HMAC-SHA256, for the worked examples. -/
def sampleHmac : HmacSHA256 :=
  { sum := fun _ _ => List.replicate 32 171
    size := fun _ _ => List.length_replicate 32 171 }

/-- Collaborators of `NotifyToWeMeet` that do not fail: the body is three bytes
and every exchange ends with status 200. -/
def sampleNotifyEnv : NotifyEnv :=
  { marshal := fun _ => .ok [8, 1, 18]
    newRequestErr := fun _ _ => none
    hmac := sampleHmac
    clientDo := fun _ _ => .ok 200 }

/-- Collaborators of `NotifyToWeMeet` whose serialization fails while every
exchange would end with status 200. -/
def failingMarshalEnv : NotifyEnv :=
  { sampleNotifyEnv with marshal := fun _ => .error "proto: cannot marshal" }

/-- The request `NotifyToWeMeet` builds for host "http://wemeet", key "key",
secret "secret" under `sampleNotifyEnv`. -/
def sampleRequest : HttpRequest :=
  { method := "POST", url := "http://wemeet/auth/recorder/notify", body := [8, 1, 18]
    header := [("API-KEY", "key"),
      ("HASH-SIGNATURE", hexEncodeToString (List.replicate 32 171)),
      ("content-type", "application/protobuf")] }

/-- Settings for the worked examples: conversion enabled, storage root
/data/recordings, one hook script. -/
def sampleConfig : AppConfig :=
  { PostMp4Convert := true, PreInput := "-y", PostInput := "-c copy",
    MainPath := "/data/recordings", PostProcessingScripts := ["hook.sh"] }

/-- A relative-path computation for the worked examples, right for a clean target
below a clean base: the target without the base and the separator. -/
def sampleRel (base target : String) : Except String String :=
  match dropLeading target.data (base.data ++ ['/']) with
  | some rest => .ok (String.mk rest)
  | none => .error "Rel: can't make the target relative to the base"

/-- Collaborators of `postProcessRecording` for the worked examples: the encoder
fails and leaves no output, the root resolves to itself, nothing else fails. -/
def samplePostEnv : PostEnv :=
  { pathJoin := fun d f => d ++ "/" ++ f
    encoder := .failed "exit status 1" none
    filepathAbs := fun p => .ok p
    filepathRel := sampleRel
    notifyErr := none
    jsonMarshal := fun p => .ok ("\x7b\"file_name\":\"" ++ p.file_name ++ "\"\x7d")
    scriptErr := fun _ => none }

/-- A file system with one raw recording of three bytes, named like the final file
of recording "rec". -/
def sampleFiles : FileSystem :=
  fun p => if p = "/data/recordings/room1/rec.mp4" then some [1, 2, 3] else none

/-- A file system with one raw recording of three bytes, named raw.mkv. -/
def sampleRawFiles : FileSystem :=
  fun p => if p = "/data/recordings/room1/raw.mkv" then some [1, 2, 3] else none

/-- Two controllers agree on everything but error logs: same registry, same
Progress Counter, same calls other than error logs, in the same order. -/
def SameEffects (c1 c2 : RecorderController) : Prop :=
  c1.recordersInProgress = c2.recordersInProgress ∧ c1.progress = c2.progress ∧
    withoutLogs c1.calls = withoutLogs c2.calls

/-! ### The iterator library (vendor/github.com/dennwc/iters) -/

namespace iters

/-- An `error` of the iterators: `io.EOF` or another error with its text. -/
inductive IterError where
  | EOF
  | failure (msg : String)
  deriving DecidableEq, Repr

/-- The type `sliceIter` of slice.go. -/
structure sliceIter (α : Type) where
  buf : List α

/-- The function `Slice` of slice.go. -/
def Slice {α : Type} (s : List α) : sliceIter α :=
  { buf := s }

/-- The method `Next` of `sliceIter`. -/
def sliceIter.Next {α : Type} (it : sliceIter α) : Except IterError α × sliceIter α :=
  match it.buf with
  | [] => (.error .EOF, it)
  | cur :: rest => (.ok cur, { buf := rest })

/-- The method `Close` of `sliceIter`. -/
def sliceIter.Close {α : Type} (_ : sliceIter α) : sliceIter α :=
  { buf := [] }

/-- A value of the interface `Iter`: a `sliceIter`; a `limitIter` of limit.go,
with its fields `it` and `limit`; any other implementation, given by the
results its `Next` returns one after the other (`io.EOF` after the last of
them); or an iterator that hands the calls on to `it` and counts the calls of
its `Next`. -/
inductive Iter (α : Type) where
  | slice (it : sliceIter α)
  | scripted (results : List (Except IterError α))
  | limitIter (it : Iter α) (limit : Int)
  | counted (calls : Nat) (it : Iter α)

/-- The method `Next` of the interface. -/
def Iter.Next {α : Type} : Iter α → Except IterError α × Iter α
  | .slice it => ((it.Next).1, .slice (it.Next).2)
  | .scripted [] => (.error .EOF, .scripted [])
  | .scripted (r :: rest) => (r, .scripted rest)
  | .limitIter it limit =>
    if limit ≤ 0 then (.error .EOF, .limitIter it limit)
    else ((it.Next).1, .limitIter (it.Next).2 (limit - 1))
  | .counted calls it => ((it.Next).1, .counted (calls + 1) (it.Next).2)

/-- The method `Close` of the interface. The interface does not say what an
implementation returns after `Close`; the scripted one has no results left. -/
def Iter.Close {α : Type} : Iter α → Iter α
  | .slice it => .slice it.Close
  | .scripted _ => .scripted []
  | .limitIter it _ => .limitIter it.Close 0
  | .counted calls it => .counted calls it.Close

/-- The function `Limit` of limit.go. -/
def Limit {α : Type} (it : Iter α) (limit : Int) : Iter α :=
  if limit < 0 then it else .limitIter it limit

/-- The calls of `Next` a counting iterator has seen, also below a `limitIter`. -/
def Iter.callsSeen {α : Type} : Iter α → Nat
  | .counted calls _ => calls
  | .limitIter it _ => it.callsSeen
  | _ => 0

/-- Draining an iterator: `Next` until it returns an error; the result is the
items, the error that ended the loop (none when `fuel` calls were not enough)
and the iterator as the loop left it. -/
def Iter.drain {α : Type} : Nat → Iter α → (List α × Option IterError) × Iter α
  | 0, it => (([], none), it)
  | fuel + 1, it =>
    match it.Next with
    | (.ok v, it') => ((v :: (Iter.drain fuel it').1.1, (Iter.drain fuel it').1.2),
        (Iter.drain fuel it').2)
    | (.error e, it') => (([], some e), it')

/-- The type `multiIter` of multi.go. -/
structure multiIter (α : Type) where
  sub : List (Iter α)
  ind : Nat
  last : Option IterError
  strict : Bool

/-- The function `MultiIter` of multi.go. -/
def MultiIter {α : Type} (strict : Bool) (sub : List (Iter α)) : multiIter α :=
  { sub := sub, ind := 0, last := none, strict := strict }

/-- The `for` loop of the method `Next` of `multiIter`; `fuel` bounds the number
of rounds of the loop. An index out of range, on which Go panics, is reported
as an error. The sub-iterator that failed is closed and removed; after that
nothing reads it, so `Close` leaves no trace in the state. -/
def multiIter.nextLoop {α : Type} : Nat → multiIter α → Except IterError α × multiIter α
  | 0, it => (.error (.failure "out of fuel"), it)
  | fuel + 1, it =>
    if it.sub.length = 0 then
      match it.last with
      | some e => (.error e, it)
      | none => (.error .EOF, it)
    else
      match it.sub[it.ind]? with
      | none => (.error (.failure "index out of range"), it)
      | some s =>
        match s.Next with
        | (.ok cur, s') =>
          (.ok cur, { it with sub := it.sub.set it.ind s', ind := (it.ind + 1) % it.sub.length })
        | (.error err, _) =>
          let sub := it.sub.eraseIdx it.ind
          let ind := if sub.length ≠ 0 then it.ind % sub.length else it.ind
          if err ≠ .EOF then
            if it.strict then (.error err, { it with sub := sub, ind := ind })
            else nextLoop fuel { it with sub := sub, ind := ind, last := some err }
          else nextLoop fuel { it with sub := sub, ind := ind }

/-- The method `Next` of `multiIter`: every round of the loop that does not
return removes a sub-iterator, so one round more than there are sub-iterators
is enough. -/
def multiIter.Next {α : Type} (it : multiIter α) : Except IterError α × multiIter α :=
  it.nextLoop (it.sub.length + 1)

/-- Draining: `Next` until it returns an error; the result is the items and the
error that ended the loop, or no error when `fuel` calls were not enough. -/
def drain {α : Type} : Nat → multiIter α → List α × Option IterError
  | 0, _ => ([], none)
  | fuel + 1, it =>
    match it.Next with
    | (.ok v, it') => (v :: (drain fuel it').1, (drain fuel it').2)
    | (.error e, _) => ([], some e)

/-- The first elements of the lists that have one, in the order of the lists. -/
def heads {α : Type} : List (List α) → List α
  | [] => []
  | [] :: ls => heads ls
  | (a :: _) :: ls => a :: heads ls

/-- The lists that have a first element, without it. -/
def tails {α : Type} : List (List α) → List (List α)
  | [] => []
  | [] :: ls => tails ls
  | (_ :: l) :: ls => l :: tails ls

/-- The number of elements of all the lists. -/
def total {α : Type} (ls : List (List α)) : Nat :=
  (ls.map List.length).sum

/-- Round robin over lists with a bound on the number of rounds: a round takes
one element from each list that still has one, in the order of the lists, and
the next round does the same on what is left. -/
def roundRobinRounds {α : Type} : Nat → List (List α) → List α
  | 0, _ => []
  | n + 1, ls => heads ls ++ roundRobinRounds n (tails ls)

/-- Round robin over lists, in the words of the claim; no list is longer than
`total ls`, so that many rounds take every element. -/
def roundRobin {α : Type} (ls : List (List α)) : List α :=
  roundRobinRounds (total ls) ls

/-- The state of a `multiIter` that reads the lists `ls` through `Slice`, at the
sub-iterator number `ind`. -/
def multiIter.ofLists {α : Type} (strict : Bool) (ls : List (List α)) (ind : Nat) :
    multiIter α :=
  { sub := ls.map fun l => Iter.slice (Slice l), ind := ind, last := none, strict := strict }

/-- The type `joinIter` of join.go. -/
structure joinIter (α : Type) where
  sub : List (Iter α)

/-- The function `Join` of join.go. -/
def Join {α : Type} (sub : List (Iter α)) : joinIter α :=
  { sub := sub }

/-- The `for` loop of the method `Next` of `joinIter`; `fuel` bounds the number
of rounds of the loop. -/
def joinIter.nextLoop {α : Type} : Nat → joinIter α → Except IterError α × joinIter α
  | 0, it => (.error (.failure "out of fuel"), it)
  | fuel + 1, it =>
    match it.sub with
    | [] => (.error .EOF, it)
    | s :: rest =>
      match s.Next with
      | (.ok v, s') => (.ok v, { sub := s' :: rest })
      | (.error err, s') =>
        if err ≠ .EOF then (.error err, { sub := s'.Close :: rest })
        else nextLoop fuel { sub := rest }

/-- The method `Next` of `joinIter`: every round of the loop that does not
return drops a sub-iterator, so one round more than there are sub-iterators is
enough. -/
def joinIter.Next {α : Type} (it : joinIter α) : Except IterError α × joinIter α :=
  it.nextLoop (it.sub.length + 1)

/-- Draining a `joinIter`: `Next` until it returns an error. -/
def joinIter.drain {α : Type} : Nat → joinIter α → List α × Option IterError
  | 0, _ => ([], none)
  | fuel + 1, it =>
    match it.Next with
    | (.ok v, it') => (v :: (joinIter.drain fuel it').1, (joinIter.drain fuel it').2)
    | (.error e, _) => ([], some e)

/-- The type `pageIter` of page.go; `cap` is the capacity of the slice `buf`. -/
structure pageIter (α : Type) where
  it : Iter α
  buf : List α
  cap : Nat
  err : Option IterError

/-- The method `NextPage` of `sliceIter`. -/
def sliceIter.NextPage {α : Type} (it : sliceIter α) :
    Except IterError (List α) × sliceIter α :=
  if it.buf.length = 0 then (.error .EOF, it) else (.ok it.buf, { buf := [] })

/-- The `for` loop of the method `NextPage` of `pageIter` with what follows it;
`fuel` bounds the number of rounds of the loop. -/
def pageIter.fill {α : Type} : Nat → pageIter α → Except IterError (List α) × pageIter α
  | 0, it => (.error (.failure "out of fuel"), it)
  | fuel + 1, it =>
    if it.buf.length < it.cap then
      match it.it.Next with
      | (.error err, s) =>
        if it.buf.length ≠ 0 then (.ok it.buf, { it with it := s, err := some err })
        else (.error err, { it with it := s })
      | (.ok cur, s) => fill fuel { it with it := s, buf := it.buf ++ [cur] }
    else (.ok it.buf, it)

/-- The method `NextPage` of `pageIter`: every round of the loop appends to
`buf`, so one round more than its capacity is enough. -/
def pageIter.NextPage {α : Type} (it : pageIter α) :
    Except IterError (List α) × pageIter α :=
  match it.err with
  | some e => (.error e, { it with buf := [] })
  | none => pageIter.fill (it.cap + 1) { it with buf := [] }

/-- A value of the interface `PageIter`: a `sliceIter` or a `pageIter`. -/
inductive PageIter (α : Type) where
  | slice (it : sliceIter α)
  | pageIter (it : pageIter α)

/-- The method `NextPage` of the interface. -/
def PageIter.NextPage {α : Type} : PageIter α → Except IterError (List α) × PageIter α
  | .slice it => ((it.NextPage).1, .slice (it.NextPage).2)
  | .pageIter it => ((it.NextPage).1, .pageIter (it.NextPage).2)

/-- The function `IterWithPage` of page.go; the error stands for the panic. -/
def IterWithPage {α : Type} (it : Iter α) (page : Int) : Except String (PageIter α) :=
  if page ≤ 0 then .error "page size must be set"
  else .ok (.pageIter { it := it, buf := [], cap := page.toNat, err := none })

/-- The `for` loop of `AllPages`; `fuel` bounds the number of rounds. -/
def allPagesLoop {α : Type} : Nat → PageIter α → List α → List α × Option IterError
  | 0, _, out => (out, some (.failure "out of fuel"))
  | fuel + 1, it, out =>
    match it.NextPage with
    | (.error err, _) => if err = .EOF then (out, none) else (out, some err)
    | (.ok v, it') => allPagesLoop fuel it' (out ++ v)

/-- The function `AllPages` of slice.go. -/
def AllPages {α : Type} (fuel : Nat) (it : PageIter α) : List α × Option IterError :=
  match it with
  | .slice s => (s.buf, none)
  | _ => allPagesLoop fuel it []

/-- Successive calls of `NextPage` until one returns an error: the pages and the
error that ended the loop, or no error when `fuel` calls were not enough. -/
def PageIter.drain {α : Type} : Nat → PageIter α → List (List α) × Option IterError
  | 0, _ => ([], none)
  | fuel + 1, it =>
    match it.NextPage with
    | (.ok v, it') => (v :: (PageIter.drain fuel it').1, (PageIter.drain fuel it').2)
    | (.error e, _) => ([], some e)

/-- Consecutive chunks of `n` elements with a bound on their number: the first
`n` elements, then the chunks of the rest, until nothing is left. -/
def chunksRounds {α : Type} : Nat → Nat → List α → List (List α)
  | 0, _, _ => []
  | k + 1, n, s => if s.isEmpty then [] else s.take n :: chunksRounds k n (s.drop n)

/-- The consecutive chunks of `n` elements of `s`, in the words of the claim;
there are no more chunks than elements. -/
def chunks {α : Type} (n : Nat) (s : List α) : List (List α) :=
  chunksRounds s.length n s

/-- The state of a `pageIter` of page size `cap` that reads `Slice(rest)`. -/
def pageIter.ofList {α : Type} (cap : Nat) (rest buf : List α) (err : Option IterError) :
    pageIter α :=
  { it := .slice (Slice rest), buf := buf, cap := cap, err := err }

/-- The results of the calls of `Next` on a sub-iterator that is read until its
first error: of the results `rs` it would return, the items before the first
error and that error, `io.EOF` when the results run out. -/
def callResults {α : Type} : List (Except IterError α) → List (Except IterError α)
  | [] => [.error .EOF]
  | .ok a :: rs => .ok a :: callResults rs
  | .error e :: _ => [.error e]

/-- The items a sub-iterator produces before failing or ending. -/
def produced {α : Type} : List (Except IterError α) → List α
  | .ok a :: rs => a :: produced rs
  | _ => []

/-- The items among results. -/
def oks {α : Type} (rs : List (Except IterError α)) : List α :=
  rs.filterMap fun r =>
    match r with
    | .ok a => some a
    | .error _ => none

/-- The errors other than `io.EOF` among results, in their order. -/
def failures {α : Type} (rs : List (Except IterError α)) : List IterError :=
  rs.filterMap fun r =>
    match r with
    | .ok _ => none
    | .error e => if e ≠ .EOF then some e else none

/-- The results before the first error other than `io.EOF`. -/
def beforeFailure {α : Type} : List (Except IterError α) → List (Except IterError α)
  | [] => []
  | .ok a :: rs => .ok a :: beforeFailure rs
  | .error e :: rs => if e ≠ .EOF then [] else .error e :: beforeFailure rs

/-- What a drained `multiIter` gives when the calls on its sub-iterators return
`rs`, one after the other: the items and the final error, starting from the
field `last`. -/
def policy {α : Type} (strict : Bool) :
    Option IterError → List (Except IterError α) → List α × IterError
  | last, [] => ([], last.getD .EOF)
  | last, .ok a :: rs => (a :: (policy strict last rs).1, (policy strict last rs).2)
  | last, .error e :: rs =>
    if e ≠ .EOF then
      if strict then ([], e) else policy strict (some e) rs
    else policy strict last rs

/-- The state of a `multiIter` whose sub-iterators have the results `scripts`
left, at the sub-iterator number `ind`. -/
def multiIter.ofScripts {α : Type} (strict : Bool) (scripts : List (List (Except IterError α)))
    (ind : Nat) (last : Option IterError) : multiIter α :=
  { sub := scripts.map Iter.scripted, ind := ind, last := last, strict := strict }

end iters

/-! ## Traces -/

theorem closeRequests_append (xs ys : List Call) :
    closeRequests (xs ++ ys) = closeRequests xs ++ closeRequests ys := by
  induction xs with
  | nil => rfl
  | cons x xs ih => cases x <;> simp [closeRequests, ih]

theorem notifications_append (xs ys : List Call) :
    notifications (xs ++ ys) = notifications xs ++ notifications ys := by
  induction xs with
  | nil => rfl
  | cons x xs ih => cases x <;> simp [notifications, ih]

theorem postProcessRuns_append (xs ys : List Call) :
    postProcessRuns (xs ++ ys) = postProcessRuns xs ++ postProcessRuns ys := by
  induction xs with
  | nil => rfl
  | cons x xs ih => cases x <;> simp [postProcessRuns, ih]

/-! ## The close callback -/

theorem onAfterClose_registry (num : RecordingTasks → Int) (env : CloseEnv)
    (c : RecorderController) (req : WeMeetToRecorder) (filePath fileName : String)
    (processErr : Option String) :
    (onAfterClose num env c req filePath fileName processErr).recordersInProgress =
      (c.Delete (recorderId num req.RoomTableId req.Task)).recordersInProgress := by
  unfold onAfterClose UpdateCurrentProgress
  cases env.progressErr <;> cases env.notifyErr <;> simp only [] <;>
    split <;> (try split) <;> (try split) <;> rfl

theorem onAfterClose_progress (num : RecordingTasks → Int) (env : CloseEnv)
    (c : RecorderController) (req : WeMeetToRecorder) (filePath fileName : String)
    (processErr : Option String) :
    (onAfterClose num env c req filePath fileName processErr).progress =
      if env.progressErr = none then c.progress - 1 else c.progress := by
  unfold onAfterClose UpdateCurrentProgress
  cases env.progressErr <;> cases env.notifyErr <;> simp only [] <;>
    split <;> (try split) <;> (try split) <;>
    simp_all [RecorderController.log, RecorderController.Delete]

theorem onAfterClose_notifications (num : RecordingTasks → Int) (env : CloseEnv)
    (c : RecorderController) (req : WeMeetToRecorder) (filePath fileName : String)
    (processErr : Option String) :
    notifications (onAfterClose num env c req filePath fileName processErr).calls =
      notifications c.calls ++ [closeResponse req processErr] := by
  unfold onAfterClose UpdateCurrentProgress closeResponse
  cases env.progressErr <;> cases env.notifyErr <;> cases processErr <;> simp only [] <;>
    split <;> (try split) <;> (try split) <;>
    simp_all [RecorderController.log, RecorderController.Delete, notifications_append,
      notifications]

theorem onAfterClose_postProcessRuns (num : RecordingTasks → Int) (env : CloseEnv)
    (c : RecorderController) (req : WeMeetToRecorder) (filePath fileName : String)
    (processErr : Option String) :
    postProcessRuns (onAfterClose num env c req filePath fileName processErr).calls =
      postProcessRuns c.calls ++
        if req.Task = RecordingTasks.START_RECORDING ∧ outputReady env filePath fileName = true
        then [(req, filePath, fileName)] else [] := by
  unfold onAfterClose UpdateCurrentProgress outputReady
  cases env.progressErr <;> cases env.notifyErr <;> simp only [] <;>
    split <;> (try split) <;> (try split) <;>
    simp_all [RecorderController.log, RecorderController.Delete, postProcessRuns_append,
      postProcessRuns]

/-! ## The stop protocol -/

theorem stopOne_eq (num : RecordingTasks → Int) (tableId : Int)
    (st : Bool × RecorderController) (task : RecordingTasks) :
    stopOne num tableId st task =
      match st.2.recordersInProgress (recorderId num tableId task) with
      | none => st
      | some (.recorder r) =>
        (true, (st.2.Delete (recorderId num tableId task)).log (.goRecorderClose r none))
      | some .nilRecorder => (st.1, st.2.Delete (recorderId num tableId task))
      | some .foreign =>
        (st.1, (st.2.Delete (recorderId num tableId task)).log
          (.logError ("invalid type in recordersInProgress for id " ++
            recorderId num tableId task))) := by
  unfold stopOne getAndDeleteRecorderInProgress
  cases h : st.2.recordersInProgress (recorderId num tableId task) with
  | none => rfl
  | some v => cases v <;> rfl

theorem stopOne_registry (num : RecordingTasks → Int) (tableId : Int)
    (st : Bool × RecorderController) (task : RecordingTasks) (k : String) :
    (stopOne num tableId st task).2.recordersInProgress k =
      if k = recorderId num tableId task then none else st.2.recordersInProgress k := by
  rw [stopOne_eq]
  cases h : st.2.recordersInProgress (recorderId num tableId task) with
  | none => by_cases hk : k = recorderId num tableId task <;> simp [hk, h]
  | some v => cases v <;> simp [RecorderController.log, RecorderController.Delete]

theorem stopOne_absent (num : RecordingTasks → Int) (tableId : Int)
    (st : Bool × RecorderController) (task : RecordingTasks)
    (h : st.2.recordersInProgress (recorderId num tableId task) = none) :
    stopOne num tableId st task = st := by
  unfold stopOne getAndDeleteRecorderInProgress
  rw [h]

theorem stopOne_foldl_registry (num : RecordingTasks → Int) (tableId : Int)
    (tasks : List RecordingTasks) (st : Bool × RecorderController) (k : String) :
    (tasks.foldl (stopOne num tableId) st).2.recordersInProgress k =
      if k ∈ tasks.map (recorderId num tableId) then none else st.2.recordersInProgress k := by
  induction tasks generalizing st with
  | nil => simp
  | cons t ts ih =>
    rw [List.foldl_cons, ih, stopOne_registry]
    by_cases h1 : k ∈ ts.map (recorderId num tableId) <;>
      by_cases h2 : k = recorderId num tableId t <;> simp [h1, h2]

theorem stopOne_foldl_absent (num : RecordingTasks → Int) (tableId : Int)
    (tasks : List RecordingTasks) (st : Bool × RecorderController)
    (h : ∀ t ∈ tasks, st.2.recordersInProgress (recorderId num tableId t) = none) :
    tasks.foldl (stopOne num tableId) st = st := by
  induction tasks generalizing st with
  | nil => rfl
  | cons t ts ih =>
    rw [List.foldl_cons, stopOne_absent num tableId st t (h t (by simp))]
    exact ih st (fun t' ht' => h t' (by simp [ht']))

theorem handleStopTask_registry (num : RecordingTasks → Int) (c : RecorderController)
    (req : WeMeetToRecorder) (k : String) :
    (handleStopTask num c req).2.recordersInProgress k =
      if k ∈ (tasksToCheck req.Task).map (recorderId num req.RoomTableId) then none
      else c.recordersInProgress k :=
  stopOne_foldl_registry num req.RoomTableId (tasksToCheck req.Task) (false, c) k

theorem stopOne_found (num : RecordingTasks → Int) (tableId : Int)
    (st : Bool × RecorderController) (task : RecordingTasks) :
    (stopOne num tableId st task).1 =
      (st.1 || (Stored.handle (st.2.recordersInProgress (recorderId num tableId task))).isSome) := by
  rw [stopOne_eq]
  cases h : st.2.recordersInProgress (recorderId num tableId task) with
  | none => simp [Stored.handle]
  | some v => cases v <;> simp [Stored.handle]

theorem stopOne_closeRequests (num : RecordingTasks → Int) (tableId : Int)
    (st : Bool × RecorderController) (task : RecordingTasks) :
    closeRequests (stopOne num tableId st task).2.calls =
      closeRequests st.2.calls ++
        ((Stored.handle (st.2.recordersInProgress (recorderId num tableId task))).map
          (fun r => (r, (none : Option String)))).toList := by
  rw [stopOne_eq]
  cases h : st.2.recordersInProgress (recorderId num tableId task) with
  | none => simp [Stored.handle]
  | some v =>
    cases v <;>
      simp [Stored.handle, RecorderController.log, RecorderController.Delete,
        closeRequests_append, closeRequests]

theorem Stored.handle_none : Stored.handle none = none := rfl

theorem Stored.handle_recorder (r : Recorder) :
    Stored.handle (some (Stored.recorder r)) = some r := rfl

theorem stopOne_foldl_found (num : RecordingTasks → Int) (tableId : Int)
    (tasks : List RecordingTasks) (st : Bool × RecorderController) :
    (tasks.foldl (stopOne num tableId) st).1 =
      (st.1 || tasks.any (fun t =>
        (Stored.handle (st.2.recordersInProgress (recorderId num tableId t))).isSome)) := by
  induction tasks generalizing st with
  | nil => simp
  | cons t ts ih =>
    rw [List.foldl_cons, ih, stopOne_found, List.any_cons]
    cases ht : (Stored.handle (st.2.recordersInProgress (recorderId num tableId t))).isSome with
    | true => simp
    | false =>
      have hfun : (fun t' => (Stored.handle ((stopOne num tableId st t).2.recordersInProgress
            (recorderId num tableId t'))).isSome) =
          fun t' => (Stored.handle (st.2.recordersInProgress
            (recorderId num tableId t'))).isSome := by
        funext t'
        rw [stopOne_registry]
        by_cases hk : recorderId num tableId t' = recorderId num tableId t
        · rw [if_pos hk, hk, ht]; rfl
        · rw [if_neg hk]
      rw [hfun]; simp

/-- C5: `handleStopTask` targets START_RECORDING for STOP_RECORDING, START_RTMP
for STOP_RTMP, both for STOP and nothing for any other kind; it returns true
exactly when a targeted key of the request's room held a handle; it issues one
`Close(nil)` for each distinct targeted key that held a handle and no other
`Close`; afterwards no targeted key is in the registry. A STOP with both jobs
active closes both and returns true, with neither active it returns false and
closes nothing. -/
theorem handleStopTask_targets_found_closes (num : RecordingTasks → Int)
    (c : RecorderController) (req : WeMeetToRecorder) :
    (tasksToCheck .STOP_RECORDING = [.START_RECORDING] ∧
      tasksToCheck .STOP_RTMP = [.START_RTMP] ∧
      tasksToCheck .STOP = [.START_RECORDING, .START_RTMP] ∧
      ∀ t, t ≠ .STOP_RECORDING → t ≠ .STOP_RTMP → t ≠ .STOP → tasksToCheck t = []) ∧
    ((handleStopTask num c req).1 = true ↔
      ∃ t ∈ tasksToCheck req.Task, ∃ r,
        c.recordersInProgress (recorderId num req.RoomTableId t) = some (.recorder r)) ∧
    closeRequests (handleStopTask num c req).2.calls =
      closeRequests c.calls ++
        (((tasksToCheck req.Task).map (recorderId num req.RoomTableId)).dedup.filterMap
          fun k => (Stored.handle (c.recordersInProgress k)).map fun r => (r, none)) ∧
    (∀ t ∈ tasksToCheck req.Task,
      (handleStopTask num c req).2.recordersInProgress (recorderId num req.RoomTableId t) = none) ∧
    (∀ r1 r2, req.Task = .STOP →
      c.recordersInProgress (recorderId num req.RoomTableId .START_RECORDING) =
        some (.recorder r1) →
      c.recordersInProgress (recorderId num req.RoomTableId .START_RTMP) =
        some (.recorder r2) →
      (handleStopTask num c req).1 = true ∧
      ∃ closes, closeRequests (handleStopTask num c req).2.calls = closeRequests c.calls ++ closes ∧
        ∀ x, x ∈ closes ↔ x = (r1, none) ∨ x = (r2, none)) ∧
    (req.Task = .STOP →
      Stored.handle (c.recordersInProgress (recorderId num req.RoomTableId .START_RECORDING)) =
        none →
      Stored.handle (c.recordersInProgress (recorderId num req.RoomTableId .START_RTMP)) =
        none →
      (handleStopTask num c req).1 = false ∧
      closeRequests (handleStopTask num c req).2.calls = closeRequests c.calls) := by
  have hfound : (handleStopTask num c req).1 = true ↔
      ∃ t ∈ tasksToCheck req.Task, ∃ r,
        c.recordersInProgress (recorderId num req.RoomTableId t) = some (.recorder r) := by
    unfold handleStopTask
    rw [stopOne_foldl_found]
    simp only [Bool.false_or, List.any_eq_true]
    constructor
    · rintro ⟨t, ht, h⟩
      refine ⟨t, ht, ?_⟩
      cases hreg : c.recordersInProgress (recorderId num req.RoomTableId t) with
      | none => simp [hreg, Stored.handle] at h
      | some v => cases v <;> simp_all [Stored.handle]
    · rintro ⟨t, ht, r, h⟩
      exact ⟨t, ht, by simp [h, Stored.handle]⟩
  have hcloses : closeRequests (handleStopTask num c req).2.calls =
      closeRequests c.calls ++
        (((tasksToCheck req.Task).map (recorderId num req.RoomTableId)).dedup.filterMap
          fun k => (Stored.handle (c.recordersInProgress k)).map fun r => (r, none)) := by
    unfold handleStopTask
    cases hT : req.Task <;>
      simp only [tasksToCheck, List.foldl_cons, List.foldl_nil, stopOne_closeRequests,
        stopOne_registry, List.map_cons, List.map_nil, List.dedup_nil, List.filterMap_nil,
        List.append_nil, List.append_assoc]
    · cases h1 : Stored.handle (c.recordersInProgress
          (recorderId num req.RoomTableId .START_RECORDING)) <;> simp [h1]
    · cases h1 : Stored.handle (c.recordersInProgress
          (recorderId num req.RoomTableId .START_RTMP)) <;> simp [h1]
    · by_cases hk : recorderId num req.RoomTableId .START_RECORDING =
          recorderId num req.RoomTableId .START_RTMP
      · rw [hk]
        cases h2 : Stored.handle (c.recordersInProgress
            (recorderId num req.RoomTableId .START_RTMP)) <;>
          simp [h2, Stored.handle_none]
      · have hk2 : ¬ recorderId num req.RoomTableId .START_RTMP =
            recorderId num req.RoomTableId .START_RECORDING := fun h => hk h.symm
        rw [if_neg hk2, List.dedup_cons_of_not_mem (by simpa using hk)]
        cases h1 : Stored.handle (c.recordersInProgress
            (recorderId num req.RoomTableId .START_RECORDING)) <;>
          cases h2 : Stored.handle (c.recordersInProgress
            (recorderId num req.RoomTableId .START_RTMP)) <;>
          simp [h1, h2]
  refine ⟨⟨rfl, rfl, rfl, ?_⟩, hfound, hcloses, ?_, ?_, ?_⟩
  · intro t h1 h2 h3
    cases t <;> simp_all [tasksToCheck]
  · intro t ht
    rw [handleStopTask_registry, if_pos (List.mem_map_of_mem _ ht)]
  · intro r1 r2 hT h1 h2
    refine ⟨hfound.2 ⟨.START_RECORDING, by simp [hT, tasksToCheck], r1, h1⟩, _, hcloses, ?_⟩
    intro x
    simp only [hT, tasksToCheck, List.map_cons, List.map_nil, List.mem_filterMap,
      List.mem_dedup, List.mem_cons, List.mem_singleton, List.not_mem_nil, or_false]
    constructor
    · rintro ⟨k, hk | hk, hx⟩
      · subst hk; rw [h1] at hx; simp [Stored.handle] at hx; exact Or.inl hx.symm
      · subst hk; rw [h2] at hx; simp [Stored.handle] at hx; exact Or.inr hx.symm
    · rintro (hx | hx)
      · exact ⟨_, Or.inl rfl, by simp [h1, Stored.handle, hx]⟩
      · exact ⟨_, Or.inr rfl, by simp [h2, Stored.handle, hx]⟩
  · intro hT h1 h2
    constructor
    · cases hf : (handleStopTask num c req).1 with
      | false => rfl
      | true =>
        obtain ⟨t, ht, r, hr⟩ := hfound.1 hf
        simp only [hT, tasksToCheck, List.mem_cons, List.mem_singleton, List.not_mem_nil,
          or_false] at ht
        rcases ht with ht | ht <;> subst ht <;> simp [hr, Stored.handle] at h1 h2
    · rw [hcloses]
      have : ∀ k ∈ ((tasksToCheck req.Task).map (recorderId num req.RoomTableId)).dedup,
          ((Stored.handle (c.recordersInProgress k)).map
            fun r => (r, (none : Option String))) = none := by
        intro k hk
        simp only [hT, tasksToCheck, List.map_cons, List.map_nil, List.mem_dedup,
          List.mem_cons, List.mem_singleton, List.not_mem_nil, or_false] at hk
        rcases hk with hk | hk <;> subst hk <;> simp [h1, h2]
      rw [List.filterMap_eq_nil_iff.2 this, List.append_nil]

/-- C5, at room 42 with both jobs active: a STOP returns true and closes the
recording job and the RTMP job, once each. -/
theorem handleStopTask_targets_found_closes_witness :
    (handleStopTask sampleNum bothActive (sampleReq .STOP)).1 = true ∧
    closeRequests (handleStopTask sampleNum bothActive (sampleReq .STOP)).2.calls =
      [(⟨0, sampleReq .START_RECORDING⟩, none), (⟨1, sampleReq .START_RTMP⟩, none)] :=
  ⟨((handleStopTask_targets_found_closes sampleNum bothActive (sampleReq .STOP)).2.2.2.2.1
      ⟨0, sampleReq .START_RECORDING⟩ ⟨1, sampleReq .START_RTMP⟩ rfl (by decide) (by decide)).1,
    by decide⟩

/-- C6: a stop request repeated with no start in between returns false, issues
no call at all (so no `Close`) and leaves the controller, registry included,
exactly as the first call left it; for STOP_RECORDING with the recording job of
the room active, the first call returns true with exactly one `Close` and the
second returns false. -/
theorem handleStopTask_idempotent (num : RecordingTasks → Int) (c : RecorderController)
    (req : WeMeetToRecorder) :
    handleStopTask num (handleStopTask num c req).2 req = (false, (handleStopTask num c req).2) ∧
    ∀ r, req.Task = .STOP_RECORDING →
      c.recordersInProgress (recorderId num req.RoomTableId .START_RECORDING) =
        some (.recorder r) →
      (handleStopTask num c req).1 = true ∧
      closeRequests (handleStopTask num c req).2.calls = closeRequests c.calls ++ [(r, none)] ∧
      (handleStopTask num (handleStopTask num c req).2 req).1 = false := by
  have hsecond : handleStopTask num (handleStopTask num c req).2 req =
      (false, (handleStopTask num c req).2) := by
    conv_lhs => unfold handleStopTask
    apply stopOne_foldl_absent
    intro t ht
    show (handleStopTask num c req).2.recordersInProgress _ = none
    rw [handleStopTask_registry, if_pos (List.mem_map_of_mem _ ht)]
  refine ⟨hsecond, ?_⟩
  intro r hT hr
  refine ⟨?_, ?_, by rw [hsecond]⟩
  · unfold handleStopTask
    rw [stopOne_foldl_found]
    simp [hT, tasksToCheck, hr, Stored.handle_recorder]
  · unfold handleStopTask
    simp [hT, tasksToCheck, stopOne_closeRequests, hr, Stored.handle_recorder]

/-- C6, at room 42 with the recording job active: the first STOP_RECORDING
returns true with one `Close`, the second returns false. -/
theorem handleStopTask_idempotent_witness :
    (handleStopTask sampleNum bothActive (sampleReq .STOP_RECORDING)).1 = true ∧
    closeRequests (handleStopTask sampleNum bothActive (sampleReq .STOP_RECORDING)).2.calls =
      closeRequests bothActive.calls ++ [(⟨0, sampleReq .START_RECORDING⟩, none)] ∧
    (handleStopTask sampleNum
      (handleStopTask sampleNum bothActive (sampleReq .STOP_RECORDING)).2
      (sampleReq .STOP_RECORDING)).1 = false :=
  (handleStopTask_idempotent sampleNum bothActive (sampleReq .STOP_RECORDING)).2
    ⟨0, sampleReq .START_RECORDING⟩ rfl (by decide)

/-! ## The start protocol -/

theorem handleStartTask_launch_failure (num : RecordingTasks → Int)
    (afterClose : Recorder → Option String → RecorderController → RecorderController)
    (env : StartEnv) (c : RecorderController) (req : WeMeetToRecorder) (e : String)
    (hfree : c.recordersInProgress (recorderId num req.RoomTableId req.Task) = none)
    (hstart : env.startErr = some e) :
    handleStartTask num afterClose env c req =
      (some e, afterClose ⟨env.pid, req⟩ (some e)
        { recordersInProgress := fun k =>
            if k = recorderId num req.RoomTableId req.Task
            then some (.recorder ⟨env.pid, req⟩) else c.recordersInProgress k
          progress := c.progress
          calls := c.calls ++ [.recorderNew ⟨env.pid, req⟩, .recorderStart ⟨env.pid, req⟩ (some e),
            .logError e, .recorderClose ⟨env.pid, req⟩ (some e)] }) := by
  unfold handleStartTask recorderClose
  simp [hfree, hstart, RecorderController.log, RecorderController.Store]

theorem handleStartTask_increment_failure_eq (num : RecordingTasks → Int)
    (afterClose : Recorder → Option String → RecorderController → RecorderController)
    (env : StartEnv) (c : RecorderController) (req : WeMeetToRecorder) (e : String)
    (hfree : c.recordersInProgress (recorderId num req.RoomTableId req.Task) = none)
    (hstart : env.startErr = none) (hinc : env.progressErr = some e) :
    handleStartTask num afterClose env c req =
      (some e, afterClose ⟨env.pid, req⟩ (some e)
        { recordersInProgress := fun k =>
            if k = recorderId num req.RoomTableId req.Task
            then some (.recorder ⟨env.pid, req⟩) else c.recordersInProgress k
          progress := c.progress
          calls := c.calls ++ [.recorderNew ⟨env.pid, req⟩, .recorderStart ⟨env.pid, req⟩ none,
            .updateCurrentProgress true, .logError e,
            .recorderClose ⟨env.pid, req⟩ (some e)] }) := by
  unfold handleStartTask recorderClose UpdateCurrentProgress
  simp [hfree, hstart, hinc, RecorderController.log, RecorderController.Store]

theorem handleStartTask_success (num : RecordingTasks → Int)
    (afterClose : Recorder → Option String → RecorderController → RecorderController)
    (env : StartEnv) (c : RecorderController) (req : WeMeetToRecorder)
    (hfree : c.recordersInProgress (recorderId num req.RoomTableId req.Task) = none)
    (hstart : env.startErr = none) (hinc : env.progressErr = none) :
    handleStartTask num afterClose env c req =
      (none,
        { recordersInProgress := fun k =>
            if k = recorderId num req.RoomTableId req.Task
            then some (.recorder ⟨env.pid, req⟩) else c.recordersInProgress k
          progress := c.progress + 1
          calls := c.calls ++ [.recorderNew ⟨env.pid, req⟩, .recorderStart ⟨env.pid, req⟩ none,
            .updateCurrentProgress true] }) := by
  unfold handleStartTask recorderClose UpdateCurrentProgress
  simp [hfree, hstart, hinc, RecorderController.log, RecorderController.Store]

theorem handleStartTask_duplicate (num : RecordingTasks → Int)
    (afterClose : Recorder → Option String → RecorderController → RecorderController)
    (env : StartEnv) (c : RecorderController) (req : WeMeetToRecorder) (v : Stored)
    (h : c.recordersInProgress (recorderId num req.RoomTableId req.Task) = some v) :
    handleStartTask num afterClose env c req = (some "this request in progress", c) := by
  unfold handleStartTask
  simp [h]

/-- C2: a start request whose key is already in the registry returns the error
"this request in progress" and leaves the controller as it was: the registry is
the same and the key still holds the value it held, no call was issued (no
recorder constructed or launched, no counter update) and the counter is the
same. -/
theorem handleStartTask_duplicate_in_progress (num : RecordingTasks → Int)
    (afterClose : Recorder → Option String → RecorderController → RecorderController)
    (env : StartEnv) (c : RecorderController) (req : WeMeetToRecorder) (v : Stored)
    (h : c.recordersInProgress (recorderId num req.RoomTableId req.Task) = some v) :
    (handleStartTask num afterClose env c req).1 = some "this request in progress" ∧
    (handleStartTask num afterClose env c req).2 = c ∧
    (handleStartTask num afterClose env c req).2.recordersInProgress = c.recordersInProgress ∧
    (handleStartTask num afterClose env c req).2.recordersInProgress
      (recorderId num req.RoomTableId req.Task) = some v ∧
    (handleStartTask num afterClose env c req).2.calls = c.calls ∧
    (handleStartTask num afterClose env c req).2.progress = c.progress := by
  rw [handleStartTask_duplicate num afterClose env c req v h]
  exact ⟨rfl, rfl, rfl, h, rfl, rfl⟩

/-- C2, at room 42 with the recording job active: a second START_RECORDING is
rejected and the controller stays as it was. -/
theorem handleStartTask_duplicate_in_progress_witness :
    (handleStartTask sampleNum closeLater { pid := 2, startErr := none, progressErr := none }
      bothActive (sampleReq .START_RECORDING)).1 = some "this request in progress" ∧
    (handleStartTask sampleNum closeLater { pid := 2, startErr := none, progressErr := none }
      bothActive (sampleReq .START_RECORDING)).2 = bothActive :=
  ⟨(handleStartTask_duplicate_in_progress sampleNum closeLater _ bothActive
      (sampleReq .START_RECORDING) (.recorder ⟨0, sampleReq .START_RECORDING⟩) (by decide)).1,
    (handleStartTask_duplicate_in_progress sampleNum closeLater _ bothActive
      (sampleReq .START_RECORDING) (.recorder ⟨0, sampleReq .START_RECORDING⟩) (by decide)).2.1⟩

/-- C4: after `onAfterClose` returns, whatever the registry, the request and the
process error, the registry has no entry under the key of the request; and when
`Close` fires the close callback before it returns, a start request on a free
key whose launch fails returns the launch error with the entry it stored gone. -/
theorem onAfterClose_removes_entry (num : RecordingTasks → Int) (env : CloseEnv)
    (c : RecorderController) (req : WeMeetToRecorder) (filePath fileName : String)
    (processErr : Option String) :
    (onAfterClose num env c req filePath fileName processErr).recordersInProgress
      (recorderId num req.RoomTableId req.Task) = none ∧
    ∀ (senv : StartEnv) (file : Recorder → String × String) (e : String),
      c.recordersInProgress (recorderId num req.RoomTableId req.Task) = none →
      senv.startErr = some e →
      (handleStartTask num (closeNow num env file) senv c req).1 = some e ∧
      (handleStartTask num (closeNow num env file) senv c req).2.recordersInProgress
        (recorderId num req.RoomTableId req.Task) = none := by
  constructor
  · rw [onAfterClose_registry]
    simp [RecorderController.Delete]
  · intro senv file e hfree hstart
    rw [handleStartTask_launch_failure num _ senv c req e hfree hstart]
    refine ⟨rfl, ?_⟩
    show (onAfterClose num env _ req _ _ (some e)).recordersInProgress _ = none
    rw [onAfterClose_registry]
    simp [RecorderController.Delete]

/-- C4, at the empty registry: a START_RECORDING for room 42 whose launch fails,
with the close callback fired by `Close`, returns the launch error and leaves no
entry under its key. -/
theorem onAfterClose_removes_entry_witness :
    (handleStartTask sampleNum (closeNow sampleNum sampleCloseEnv fun _ => ("dir", "raw.mkv"))
      { pid := 0, startErr := some "launch failed", progressErr := none }
      init.ctl (sampleReq .START_RECORDING)).1 = some "launch failed" ∧
    (handleStartTask sampleNum (closeNow sampleNum sampleCloseEnv fun _ => ("dir", "raw.mkv"))
      { pid := 0, startErr := some "launch failed", progressErr := none }
      init.ctl (sampleReq .START_RECORDING)).2.recordersInProgress
        (recorderId sampleNum 42 .START_RECORDING) = none :=
  (onAfterClose_removes_entry sampleNum sampleCloseEnv init.ctl (sampleReq .START_RECORDING)
    "dir" "raw.mkv" none).2 _ _ "launch failed" rfl rfl

/-- C7 as stated fails: at the empty registry, a START_RECORDING for room 42
whose launch succeeds and whose counter increment fails returns the increment
error, and `Close` is called on the job with that error; when `Close` fires the
close callback before it returns, the handle is no longer in the registry. -/
theorem handleStartTask_increment_failure_closes_job :
    (handleStartTask sampleNum closeLater
      { pid := 0, startErr := none, progressErr := some "counter unavailable" }
      init.ctl (sampleReq .START_RECORDING)).1 = some "counter unavailable" ∧
    closeRequests (handleStartTask sampleNum closeLater
      { pid := 0, startErr := none, progressErr := some "counter unavailable" }
      init.ctl (sampleReq .START_RECORDING)).2.calls =
        [(⟨0, sampleReq .START_RECORDING⟩, some "counter unavailable")] ∧
    (handleStartTask sampleNum (closeNow sampleNum sampleCloseEnv fun _ => ("dir", "raw.mkv"))
      { pid := 0, startErr := none, progressErr := some "counter unavailable" }
      init.ctl (sampleReq .START_RECORDING)).2.recordersInProgress
        (recorderId sampleNum 42 .START_RECORDING) = none := by
  refine ⟨by decide, by decide, by decide⟩

/-- C7, amended: a start request on a free key whose launch succeeds and whose
counter increment fails returns the increment error, and the deferred handler
calls `Close` on the job once, with that error, while the handle is in the
registry and the counter is unchanged; so the handle is still in the registry
on return when the close callback fires later, and it is gone when `Close`
fires the callback before it returns. -/
theorem handleStartTask_increment_failure (num : RecordingTasks → Int)
    (afterClose : Recorder → Option String → RecorderController → RecorderController)
    (env : StartEnv) (c : RecorderController) (req : WeMeetToRecorder) (e : String)
    (hfree : c.recordersInProgress (recorderId num req.RoomTableId req.Task) = none)
    (hstart : env.startErr = none) (hinc : env.progressErr = some e) :
    (handleStartTask num afterClose env c req).1 = some e ∧
    (∃ c1, (handleStartTask num afterClose env c req).2 =
        afterClose ⟨env.pid, req⟩ (some e) c1 ∧
      c1.recordersInProgress (recorderId num req.RoomTableId req.Task) =
        some (.recorder ⟨env.pid, req⟩) ∧
      c1.progress = c.progress ∧
      c1.calls = c.calls ++ [.recorderNew ⟨env.pid, req⟩, .recorderStart ⟨env.pid, req⟩ none,
        .updateCurrentProgress true, .logError e, .recorderClose ⟨env.pid, req⟩ (some e)]) ∧
    closeRequests (handleStartTask num closeLater env c req).2.calls =
      closeRequests c.calls ++ [(⟨env.pid, req⟩, some e)] ∧
    (handleStartTask num closeLater env c req).2.recordersInProgress
      (recorderId num req.RoomTableId req.Task) = some (.recorder ⟨env.pid, req⟩) ∧
    ∀ (cenv : CloseEnv) (file : Recorder → String × String),
      (handleStartTask num (closeNow num cenv file) env c req).2.recordersInProgress
        (recorderId num req.RoomTableId req.Task) = none := by
  refine ⟨?_, ?_, ?_, ?_, ?_⟩
  · rw [handleStartTask_increment_failure_eq num afterClose env c req e hfree hstart hinc]
  · rw [handleStartTask_increment_failure_eq num afterClose env c req e hfree hstart hinc]
    exact ⟨_, rfl, by simp, rfl, rfl⟩
  · rw [handleStartTask_increment_failure_eq num closeLater env c req e hfree hstart hinc]
    simp [closeLater, closeRequests_append, closeRequests]
  · rw [handleStartTask_increment_failure_eq num closeLater env c req e hfree hstart hinc]
    simp [closeLater]
  · intro cenv file
    rw [handleStartTask_increment_failure_eq num _ env c req e hfree hstart hinc]
    show (onAfterClose num cenv _ req _ _ (some e)).recordersInProgress _ = none
    rw [onAfterClose_registry]
    simp [RecorderController.Delete]

/-- C7, amended, at the empty registry and a START_RECORDING for room 42: the
increment error is returned and `Close` is called once with it. -/
theorem handleStartTask_increment_failure_witness :
    (handleStartTask sampleNum closeLater
      { pid := 0, startErr := none, progressErr := some "counter unavailable" }
      init.ctl (sampleReq .START_RECORDING)).1 = some "counter unavailable" ∧
    closeRequests (handleStartTask sampleNum closeLater
      { pid := 0, startErr := none, progressErr := some "counter unavailable" }
      init.ctl (sampleReq .START_RECORDING)).2.calls =
        closeRequests init.ctl.calls ++
          [(⟨0, sampleReq .START_RECORDING⟩, some "counter unavailable")] :=
  ⟨(handleStartTask_increment_failure sampleNum closeLater
      { pid := 0, startErr := none, progressErr := some "counter unavailable" }
      init.ctl (sampleReq .START_RECORDING) "counter unavailable" rfl rfl rfl).1,
    (handleStartTask_increment_failure sampleNum closeLater
      { pid := 0, startErr := none, progressErr := some "counter unavailable" }
      init.ctl (sampleReq .START_RECORDING) "counter unavailable" rfl rfl rfl).2.2.1⟩

/-- C9: `onAfterClose` hands exactly one response to the Notification Channel;
its kind is END_RECORDING for a START_RECORDING request and END_RTMP for a
START_RTMP request, its status is false and its message the text of the process
error when there is one, its status is true and its message "success" otherwise,
its origin is "recorder", the recording, recorder and room table identifiers are
those of the request, the file path is empty and the file size 0. -/
theorem onAfterClose_response (num : RecordingTasks → Int) (env : CloseEnv)
    (c : RecorderController) (req : WeMeetToRecorder) (filePath fileName : String)
    (processErr : Option String) :
    ∃ toSend, notifications (onAfterClose num env c req filePath fileName processErr).calls =
        notifications c.calls ++ [toSend] ∧
      (req.Task = .START_RECORDING → toSend.Task = .END_RECORDING) ∧
      (req.Task = .START_RTMP → toSend.Task = .END_RTMP) ∧
      (∀ e, processErr = some e → toSend.Status = false ∧ toSend.Msg = e) ∧
      (processErr = none → toSend.Status = true ∧ toSend.Msg = "success") ∧
      toSend.From = "recorder" ∧
      toSend.RecordingId = req.RecordingId ∧
      toSend.RecorderId = req.RecorderId ∧
      toSend.RoomTableId = req.RoomTableId ∧
      toSend.FilePath = "" ∧
      toSend.FileSize = 0 := by
  refine ⟨closeResponse req processErr, onAfterClose_notifications .., ?_, ?_, ?_, ?_,
    rfl, rfl, rfl, rfl, rfl, rfl⟩
  · intro h; simp [closeResponse, h]
  · intro h; simp [closeResponse, h]
  · intro e h; subst h; exact ⟨rfl, rfl⟩
  · intro h; subst h; exact ⟨rfl, rfl⟩

/-- C9, for a START_RTMP job of room 42 that ended with the error "boom". -/
theorem onAfterClose_response_witness :
    ∃ toSend, notifications (onAfterClose sampleNum sampleCloseEnv init.ctl
        (sampleReq .START_RTMP) "dir" "raw.mkv" (some "boom")).calls =
        notifications init.ctl.calls ++ [toSend] ∧
      toSend.Task = .END_RTMP ∧ toSend.Status = false ∧ toSend.Msg = "boom" :=
  Exists.elim
    (onAfterClose_response sampleNum sampleCloseEnv init.ctl (sampleReq .START_RTMP)
      "dir" "raw.mkv" (some "boom"))
    fun toSend h => ⟨toSend, h.1, h.2.2.1 rfl, h.2.2.2.1 "boom" rfl⟩

/-- C10: `onAfterClose` spawns the Post-Processing Pipeline once, for its own
request and file, when the job kind is START_RECORDING and the expected output
file is ready, and not at all otherwise; the file is ready exactly when its stat
succeeds with a size above 0, so there is no run when the file is absent, the
stat fails, or the size is 0. -/
theorem onAfterClose_postProcess_iff (num : RecordingTasks → Int) (env : CloseEnv)
    (c : RecorderController) (req : WeMeetToRecorder) (filePath fileName : String)
    (processErr : Option String) :
    (postProcessRuns (onAfterClose num env c req filePath fileName processErr).calls =
      postProcessRuns c.calls ++
        if req.Task = .START_RECORDING ∧ outputReady env filePath fileName = true
        then [(req, filePath, fileName)] else []) ∧
    (outputReady env filePath fileName = true ↔
      ∃ size, env.stat (env.pathJoin filePath fileName) = .info size ∧ 0 < size) ∧
    ((∀ size, env.stat (env.pathJoin filePath fileName) = .info size → size = 0) →
      postProcessRuns (onAfterClose num env c req filePath fileName processErr).calls =
        postProcessRuns c.calls) := by
  have hready : outputReady env filePath fileName = true ↔
      ∃ size, env.stat (env.pathJoin filePath fileName) = .info size ∧ 0 < size := by
    unfold outputReady
    cases h : env.stat (env.pathJoin filePath fileName) <;> simp
  have hmain := onAfterClose_postProcessRuns num env c req filePath fileName processErr
  refine ⟨hmain, hready, fun h0 => ?_⟩
  rw [hmain, if_neg, List.append_nil]
  rintro ⟨-, hr⟩
  obtain ⟨size, hs, hpos⟩ := hready.1 hr
  have := h0 size hs
  omega

/-- C10, for a START_RECORDING job of room 42 whose output file is absent: no
pipeline run. -/
theorem onAfterClose_postProcess_iff_witness :
    postProcessRuns (onAfterClose sampleNum sampleCloseEnv init.ctl
      (sampleReq .START_RECORDING) "dir" "raw.mkv" none).calls =
      postProcessRuns init.ctl.calls :=
  (onAfterClose_postProcess_iff sampleNum sampleCloseEnv init.ctl
    (sampleReq .START_RECORDING) "dir" "raw.mkv" none).2.2 (fun _ h => by cases h)

/-! ## Runs with asynchronous close -/

theorem inv_init (num : RecordingTasks → Int) : Inv num init := by
  constructor <;> simp [init, InFlight]

theorem inv_occupy (num : RecordingTasks → Int) (s s' : Sys) (r : Recorder) (e : Option String)
    (hinv : Inv num s)
    (hfree : s.ctl.recordersInProgress (r.key num) = none)
    (hquiet : ∀ x ∈ s.pending, x.1.key num ≠ r.key num)
    (hpid : r.pid = s.nextPid)
    (hreg : s'.ctl.recordersInProgress =
      fun k => if k = r.key num then some (.recorder r) else s.ctl.recordersInProgress k)
    (hnext : s'.nextPid = s.nextPid + 1)
    (hclosed : s'.closed = s.closed)
    (hcases : (s'.launched = s.launched ++ [r] ∧ s'.pending = s.pending) ∨
      (s'.launched = s.launched ++ [r] ∧ s'.pending = s.pending ++ [(r, e)]) ∨
      (s'.launched = s.launched ∧ s'.pending = s.pending ++ [(r, e)])) :
    Inv num s' := by
  have hrc : r ∉ s.closed := fun h => by
    have := hinv.boundClosed r h; omega
  have hrp : r ∉ s.pending.map Prod.fst := fun h => by
    obtain ⟨x, hx, rfl⟩ := List.mem_map.1 h
    have := hinv.boundPending x hx; omega
  -- nobody in flight before the step has the key of `r`
  have hnone : ∀ r', InFlight s r' → r'.key num ≠ r.key num := by
    intro r' hf hk
    by_cases hp : r' ∈ s.pending.map Prod.fst
    · obtain ⟨x, hx, rfl⟩ := List.mem_map.1 hp
      exact hquiet x hx hk
    · have := hinv.tracked r' hf hp
      rw [hk, hfree] at this
      exact absurd this (by simp)
  have hfl : ∀ r', InFlight s' r' ↔ InFlight s r' ∨ r' = r := by
    intro r'
    unfold InFlight
    rw [hclosed]
    rcases hcases with ⟨hl, hp⟩ | ⟨hl, hp⟩ | ⟨hl, hp⟩ <;> rw [hl, hp] <;>
      simp only [List.mem_append, List.mem_singleton, List.map_append, List.map_cons,
        List.map_nil] <;> constructor
    · rintro (⟨h1 | h1, h2⟩ | h)
      · exact Or.inl (Or.inl ⟨h1, h2⟩)
      · exact Or.inr h1
      · exact Or.inl (Or.inr h)
    · rintro ((⟨h1, h2⟩ | h) | h)
      · exact Or.inl ⟨Or.inl h1, h2⟩
      · exact Or.inr h
      · subst h; exact Or.inl ⟨Or.inr rfl, hrc⟩
    · rintro (⟨h1 | h1, h2⟩ | h | h)
      · exact Or.inl (Or.inl ⟨h1, h2⟩)
      · exact Or.inr h1
      · exact Or.inl (Or.inr h)
      · exact Or.inr h
    · rintro ((⟨h1, h2⟩ | h) | h)
      · exact Or.inl ⟨Or.inl h1, h2⟩
      · exact Or.inr (Or.inl h)
      · exact Or.inr (Or.inr h)
    · rintro (⟨h1, h2⟩ | h | h)
      · exact Or.inl (Or.inl ⟨h1, h2⟩)
      · exact Or.inl (Or.inr h)
      · exact Or.inr h
    · rintro ((⟨h1, h2⟩ | h) | h)
      · exact Or.inl ⟨h1, h2⟩
      · exact Or.inr (Or.inl h)
      · exact Or.inr (Or.inr h)
  have hpend : ∀ x, x ∈ s'.pending → x ∈ s.pending ∨ x.1 = r := by
    intro x hx
    rcases hcases with ⟨_, hp⟩ | ⟨_, hp⟩ | ⟨_, hp⟩ <;> rw [hp] at hx
    · exact Or.inl hx
    · rcases List.mem_append.1 hx with h | h
      · exact Or.inl h
      · exact Or.inr (by simp at h; rw [h])
    · rcases List.mem_append.1 hx with h | h
      · exact Or.inl h
      · exact Or.inr (by simp at h; rw [h])
  have hpend' : ∀ r', r' ≠ r → r' ∉ s'.pending.map Prod.fst → r' ∉ s.pending.map Prod.fst := by
    intro r' _ hn hin
    apply hn
    rcases hcases with ⟨_, hp⟩ | ⟨_, hp⟩ | ⟨_, hp⟩ <;> rw [hp] <;> simp at hin ⊢
    · exact hin
    · exact Or.inl hin
    · exact Or.inl hin
  have hrl : r ∉ s.launched := fun h => by
    have := hinv.boundLaunched r h; omega
  constructor
  · rcases hcases with ⟨hl, _⟩ | ⟨hl, _⟩ | ⟨hl, _⟩ <;> rw [hl]
    · exact List.Nodup.append hinv.nodup (List.nodup_singleton r) (by simpa using hrl)
    · exact List.Nodup.append hinv.nodup (List.nodup_singleton r) (by simpa using hrl)
    · exact hinv.nodup
  · intro r' hr'
    rw [hnext]
    rcases hcases with ⟨hl, _⟩ | ⟨hl, _⟩ | ⟨hl, _⟩ <;> rw [hl] at hr'
    · rcases List.mem_append.1 hr' with h | h
      · have := hinv.boundLaunched r' h; omega
      · simp at h; rw [h, hpid]; omega
    · rcases List.mem_append.1 hr' with h | h
      · have := hinv.boundLaunched r' h; omega
      · simp at h; rw [h, hpid]; omega
    · have := hinv.boundLaunched r' hr'; omega
  · intro r' hr'
    rw [hclosed] at hr'
    have := hinv.boundClosed r' hr'
    omega
  · intro x hx
    rcases hpend x hx with h | h
    · have := hinv.boundPending x h; omega
    · rw [h, hpid, hnext]; omega
  · intro r1 r2 h1 h2 hk
    rcases (hfl r1).1 h1 with h1 | h1 <;> rcases (hfl r2).1 h2 with h2 | h2
    · exact hinv.uniq r1 r2 h1 h2 hk
    · subst h2; exact absurd hk (hnone r1 h1)
    · subst h1; exact absurd hk.symm (hnone r2 h2)
    · rw [h1, h2]
  · intro k v hv
    rw [hreg] at hv
    by_cases hk : k = r.key num
    · simp only [hk, if_true, Option.some.injEq] at hv
      exact ⟨r, hv.symm, hk.symm, (hfl r).2 (Or.inr rfl)⟩
    · simp only [hk, if_false] at hv
      obtain ⟨r', hr', hk', hf'⟩ := hinv.reg k v hv
      exact ⟨r', hr', hk', (hfl r').2 (Or.inl hf')⟩
  · intro r' hf' hp'
    rw [hreg]
    rcases (hfl r').1 hf' with h | h
    · have hne : r' ≠ r := fun h' => hnone r' h (by rw [h'])
      simp only [hnone r' h, if_false]
      exact hinv.tracked r' h (hpend' r' hne hp')
    · subst h; simp
  · intro x hx
    rw [hclosed]
    rcases hpend x hx with h | h
    · exact hinv.pend x h
    · rw [h]; exact hrc

theorem inv_release (num : RecordingTasks → Int) (s s' : Sys) (r : Recorder) (k : String)
    (hinv : Inv num s)
    (hheld : s.ctl.recordersInProgress k = some (.recorder r))
    (hreg : s'.ctl.recordersInProgress =
      fun k' => if k' = k then none else s.ctl.recordersInProgress k')
    (hnext : s'.nextPid = s.nextPid)
    (hlaunched : s'.launched = s.launched)
    (hclosed : s'.closed = s.closed)
    (hpending : (r ∈ s.pending.map Prod.fst ∧ s'.pending = s.pending) ∨
      (r ∉ s.pending.map Prod.fst ∧ s'.pending = s.pending ++ [(r, none)])) :
    Inv num s' := by
  obtain ⟨r0, hr0, hkey, hflight⟩ := hinv.reg k _ hheld
  cases hr0
  have hmem : ∀ r', r' ∈ s'.pending.map Prod.fst ↔ r' ∈ s.pending.map Prod.fst ∨ r' = r := by
    intro r'
    rcases hpending with ⟨hin, hp⟩ | ⟨_, hp⟩ <;> rw [hp]
    · constructor
      · exact Or.inl
      · rintro (h | h)
        · exact h
        · rw [h]; exact hin
    · simp
  have hfl : ∀ r', InFlight s' r' ↔ InFlight s r' := by
    intro r'
    unfold InFlight
    rw [hlaunched, hclosed, hmem]
    constructor
    · rintro (h | h | h)
      · exact Or.inl h
      · exact Or.inr h
      · rw [h]; exact hflight
    · rintro (h | h)
      · exact Or.inl h
      · exact Or.inr (Or.inl h)
  have hrc : r ∉ s.closed := by
    rcases hflight with ⟨_, h⟩ | h
    · exact h
    · obtain ⟨x, hx, rfl⟩ := List.mem_map.1 h
      exact hinv.pend x hx
  constructor
  · rw [hlaunched]; exact hinv.nodup
  · intro r' hr'
    rw [hlaunched] at hr'
    rw [hnext]
    exact hinv.boundLaunched r' hr'
  · intro r' hr'
    rw [hclosed] at hr'
    rw [hnext]
    exact hinv.boundClosed r' hr'
  · intro x hx
    rw [hnext]
    rcases hpending with ⟨_, hp⟩ | ⟨_, hp⟩ <;> rw [hp] at hx
    · exact hinv.boundPending x hx
    · rcases List.mem_append.1 hx with h | h
      · exact hinv.boundPending x h
      · simp at h
        rw [h]
        rcases hflight with ⟨hl, _⟩ | hl
        · exact hinv.boundLaunched r hl
        · obtain ⟨y, hy, rfl⟩ := List.mem_map.1 hl
          exact hinv.boundPending y hy
  · intro r1 r2 h1 h2 hk
    exact hinv.uniq r1 r2 ((hfl r1).1 h1) ((hfl r2).1 h2) hk
  · intro k' v hv
    rw [hreg] at hv
    by_cases hk : k' = k
    · simp [hk] at hv
    · simp only [hk, if_false] at hv
      obtain ⟨r', hr', hk', hf'⟩ := hinv.reg k' v hv
      exact ⟨r', hr', hk', (hfl r').2 hf'⟩
  · intro r' hf' hp'
    have hne : r' ≠ r := fun h => hp' ((hmem r').2 (Or.inr h))
    have hp : r' ∉ s.pending.map Prod.fst := fun h => hp' ((hmem r').2 (Or.inl h))
    have hkne : r'.key num ≠ k := by
      intro h
      exact hne (hinv.uniq r' r ((hfl r').1 hf') hflight (by rw [h, hkey]))
    rw [hreg]
    simp only [hkne, if_false]
    exact hinv.tracked r' ((hfl r').1 hf') hp
  · intro x hx
    rw [hclosed]
    rcases hpending with ⟨_, hp⟩ | ⟨_, hp⟩ <;> rw [hp] at hx
    · exact hinv.pend x hx
    · rcases List.mem_append.1 hx with h | h
      · exact hinv.pend x h
      · simp at h; rw [h]; exact hrc

theorem inv_fire (num : RecordingTasks → Int) (s s' : Sys) (x : Recorder × Option String)
    (hinv : Inv num s)
    (hx : x ∈ s.pending)
    (hreg : s'.ctl.recordersInProgress =
      fun k => if k = x.1.key num then none else s.ctl.recordersInProgress k)
    (hnext : s'.nextPid = s.nextPid)
    (hlaunched : s'.launched = s.launched)
    (hpending : s'.pending = s.pending.filter fun y => y.1 ≠ x.1)
    (hclosed : s'.closed = x.1 :: s.closed) :
    Inv num s' := by
  have hxf : InFlight s x.1 := Or.inr (List.mem_map_of_mem _ hx)
  have hmem : ∀ r', r' ∈ s'.pending.map Prod.fst ↔ r' ∈ s.pending.map Prod.fst ∧ r' ≠ x.1 := by
    intro r'
    rw [hpending]
    simp only [List.mem_map, List.mem_filter, decide_eq_true_eq]
    constructor
    · rintro ⟨y, ⟨hy, hne⟩, rfl⟩
      exact ⟨⟨y, hy, rfl⟩, hne⟩
    · rintro ⟨⟨y, hy, rfl⟩, hne⟩
      exact ⟨y, ⟨hy, hne⟩, rfl⟩
  have hfl : ∀ r', InFlight s' r' ↔ InFlight s r' ∧ r' ≠ x.1 := by
    intro r'
    unfold InFlight
    rw [hlaunched, hclosed, hmem]
    simp only [List.mem_cons, not_or]
    constructor
    · rintro (⟨h1, h2, h3⟩ | ⟨h1, h2⟩)
      · exact ⟨Or.inl ⟨h1, h3⟩, h2⟩
      · exact ⟨Or.inr h1, h2⟩
    · rintro ⟨⟨h1, h3⟩ | h1, h2⟩
      · exact Or.inl ⟨h1, h2, h3⟩
      · exact Or.inr ⟨h1, h2⟩
  constructor
  · rw [hlaunched]; exact hinv.nodup
  · intro r' hr'
    rw [hlaunched] at hr'
    rw [hnext]
    exact hinv.boundLaunched r' hr'
  · intro r' hr'
    rw [hclosed] at hr'
    rw [hnext]
    rcases List.mem_cons.1 hr' with h | h
    · rw [h]; exact hinv.boundPending x hx
    · exact hinv.boundClosed r' h
  · intro y hy
    rw [hpending] at hy
    rw [hnext]
    exact hinv.boundPending y (List.mem_filter.1 hy).1
  · intro r1 r2 h1 h2 hk
    exact hinv.uniq r1 r2 ((hfl r1).1 h1).1 ((hfl r2).1 h2).1 hk
  · intro k v hv
    rw [hreg] at hv
    by_cases hk : k = x.1.key num
    · simp [hk] at hv
    · simp only [hk, if_false] at hv
      obtain ⟨r', hr', hk', hf'⟩ := hinv.reg k v hv
      refine ⟨r', hr', hk', (hfl r').2 ⟨hf', ?_⟩⟩
      intro h
      exact hk (by rw [← hk', h])
  · intro r' hf' hp'
    obtain ⟨hf, hne⟩ := (hfl r').1 hf'
    have hp : r' ∉ s.pending.map Prod.fst := fun h => hp' ((hmem r').2 ⟨h, hne⟩)
    have hkne : r'.key num ≠ x.1.key num := fun h => hne (hinv.uniq r' x.1 hf hxf h)
    rw [hreg]
    simp only [hkne, if_false]
    exact hinv.tracked r' hf hp
  · intro y hy
    rw [hpending] at hy
    rw [hclosed]
    obtain ⟨hy1, hy2⟩ := List.mem_filter.1 hy
    simp only [decide_eq_true_eq] at hy2
    simp only [List.mem_cons, not_or]
    exact ⟨hy2, hinv.pend y hy1⟩

theorem requestClose_new (s : Sys) (x : Recorder × Option String)
    (h1 : x.1 ∉ s.closed) (h2 : x.1 ∉ s.pending.map Prod.fst) :
    requestClose s x = { s with pending := s.pending ++ [x] } := by
  unfold requestClose
  rw [if_neg (by simp only [not_or]; exact ⟨h1, h2⟩)]

theorem step_start (num : RecordingTasks → Int) (s : Sys) (req : WeMeetToRecorder)
    (startErr progressErr : Option String) :
    step num s (.start req startErr progressErr) =
      s.absorb (handleStartTask num closeLater
        { pid := s.nextPid, startErr := startErr, progressErr := progressErr }
        s.ctl.withoutCalls req).2 := rfl

theorem step_start_rejected (num : RecordingTasks → Int) (s : Sys) (req : WeMeetToRecorder)
    (startErr progressErr : Option String) (v : Stored)
    (h : s.ctl.recordersInProgress (recorderId num req.RoomTableId req.Task) = some v) :
    step num s (.start req startErr progressErr) = s := by
  rw [step_start, handleStartTask_duplicate num closeLater _ s.ctl.withoutCalls req v h]
  simp [Sys.absorb, closeRequests, constructedBy, launchedBy, RecorderController.withoutCalls]

theorem inv_step_start (num : RecordingTasks → Int) (s : Sys) (req : WeMeetToRecorder)
    (startErr progressErr : Option String) (hinv : Inv num s)
    (hallowed : startAllowed num s (.start req startErr progressErr) = true) :
    Inv num (step num s (.start req startErr progressErr)) := by
  cases hreg : s.ctl.recordersInProgress (recorderId num req.RoomTableId req.Task) with
  | some v => rw [step_start_rejected num s req startErr progressErr v hreg]; exact hinv
  | none =>
    have hquiet : ∀ x ∈ s.pending,
        x.1.key num ≠ Recorder.key num ⟨s.nextPid, req⟩ := by
      simpa [startAllowed, hreg, Recorder.key] using hallowed
    have hrc : (⟨s.nextPid, req⟩ : Recorder) ∉ s.closed := fun h => by
      have := hinv.boundClosed _ h; simp at this
    have hrp : (⟨s.nextPid, req⟩ : Recorder) ∉ s.pending.map Prod.fst := fun h => by
      obtain ⟨x, hx, hx'⟩ := List.mem_map.1 h
      have := hinv.boundPending x hx; rw [hx'] at this; simp at this
    cases hs : startErr with
    | some e =>
      have hstep : step num s (.start req (some e) progressErr) =
          { ctl :=
              { recordersInProgress := fun k =>
                  if k = recorderId num req.RoomTableId req.Task
                  then some (.recorder ⟨s.nextPid, req⟩) else s.ctl.recordersInProgress k
                progress := s.ctl.progress
                calls := s.ctl.calls ++ [.recorderNew ⟨s.nextPid, req⟩,
                  .recorderStart ⟨s.nextPid, req⟩ (some e), .logError e,
                  .recorderClose ⟨s.nextPid, req⟩ (some e)] }
            nextPid := s.nextPid + 1
            launched := s.launched
            pending := s.pending ++ [(⟨s.nextPid, req⟩, some e)]
            closed := s.closed } := by
        rw [step_start, handleStartTask_launch_failure num closeLater _ s.ctl.withoutCalls req e
          hreg rfl]
        simp only [Sys.absorb, closeRequests, constructedBy, launchedBy, closeLater,
          RecorderController.withoutCalls, List.nil_append, List.foldl_cons, List.foldl_nil,
          List.length_cons, List.length_nil, List.append_nil]
        rw [requestClose_new _ _ hrc hrp]
      rw [hstep]
      exact inv_occupy num s _ ⟨s.nextPid, req⟩ (some e) hinv hreg hquiet rfl rfl rfl rfl
        (Or.inr (Or.inr ⟨rfl, rfl⟩))
    | none =>
      cases hp : progressErr with
      | some e =>
        have hstep : step num s (.start req none (some e)) =
            { ctl :=
                { recordersInProgress := fun k =>
                    if k = recorderId num req.RoomTableId req.Task
                    then some (.recorder ⟨s.nextPid, req⟩) else s.ctl.recordersInProgress k
                  progress := s.ctl.progress
                  calls := s.ctl.calls ++ [.recorderNew ⟨s.nextPid, req⟩,
                    .recorderStart ⟨s.nextPid, req⟩ none, .updateCurrentProgress true,
                    .logError e, .recorderClose ⟨s.nextPid, req⟩ (some e)] }
              nextPid := s.nextPid + 1
              launched := s.launched ++ [⟨s.nextPid, req⟩]
              pending := s.pending ++ [(⟨s.nextPid, req⟩, some e)]
              closed := s.closed } := by
          rw [step_start, handleStartTask_increment_failure_eq num closeLater _
            s.ctl.withoutCalls req e hreg rfl rfl]
          simp only [Sys.absorb, closeRequests, constructedBy, launchedBy, closeLater,
            RecorderController.withoutCalls, List.nil_append, List.foldl_cons, List.foldl_nil,
            List.length_cons, List.length_nil, List.append_nil]
          rw [requestClose_new _ _ hrc hrp]
        rw [hstep]
        exact inv_occupy num s _ ⟨s.nextPid, req⟩ (some e) hinv hreg hquiet rfl rfl rfl rfl
          (Or.inr (Or.inl ⟨rfl, rfl⟩))
      | none =>
        have hstep : step num s (.start req none none) =
            { ctl :=
                { recordersInProgress := fun k =>
                    if k = recorderId num req.RoomTableId req.Task
                    then some (.recorder ⟨s.nextPid, req⟩) else s.ctl.recordersInProgress k
                  progress := s.ctl.progress + 1
                  calls := s.ctl.calls ++ [.recorderNew ⟨s.nextPid, req⟩,
                    .recorderStart ⟨s.nextPid, req⟩ none, .updateCurrentProgress true] }
              nextPid := s.nextPid + 1
              launched := s.launched ++ [⟨s.nextPid, req⟩]
              pending := s.pending
              closed := s.closed } := by
          rw [step_start, handleStartTask_success num closeLater _
            s.ctl.withoutCalls req hreg rfl rfl]
          simp only [Sys.absorb, closeRequests, constructedBy, launchedBy, closeLater,
            RecorderController.withoutCalls, List.nil_append, List.foldl_cons, List.foldl_nil,
            List.length_cons, List.length_nil, List.append_nil]
        rw [hstep]
        exact inv_occupy num s _ ⟨s.nextPid, req⟩ none hinv hreg hquiet rfl rfl rfl rfl
          (Or.inl ⟨rfl, rfl⟩)

theorem stopSub_inv (num : RecordingTasks → Int) (tableId : Int) (s : Sys)
    (task : RecordingTasks) (hinv : Inv num s) :
    Inv num (s.absorb (stopOne num tableId (false, s.ctl.withoutCalls) task).2) := by
  rw [stopOne_eq]
  cases hreg : s.ctl.recordersInProgress (recorderId num tableId task) with
  | none =>
    have : s.absorb (false, s.ctl.withoutCalls).2 = s := by
      simp [Sys.absorb, closeRequests, constructedBy, launchedBy,
        RecorderController.withoutCalls]
    simp only [RecorderController.withoutCalls, hreg] at this ⊢
    rw [this]; exact hinv
  | some v =>
    obtain ⟨r, hv, hkey, hfl⟩ := hinv.reg _ v hreg
    subst hv
    simp only [RecorderController.withoutCalls, hreg]
    simp only [Sys.absorb, closeRequests, constructedBy, launchedBy, RecorderController.log,
      RecorderController.Delete, List.nil_append, List.foldl_cons, List.foldl_nil,
      List.length_nil, List.append_nil, Nat.add_zero]
    by_cases hp : r ∈ s.pending.map Prod.fst
    · simp only [requestClose, hp, or_true, if_true]
      exact inv_release num s _ r _ hinv hreg rfl rfl rfl rfl (Or.inl ⟨hp, rfl⟩)
    · have hrc : r ∉ s.closed := by
        rcases hfl with ⟨_, h⟩ | h
        · exact h
        · exact absurd h hp
      simp only [requestClose, hp, hrc, or_self, if_false]
      exact inv_release num s _ r _ hinv hreg rfl rfl rfl rfl (Or.inr ⟨hp, rfl⟩)

theorem inv_step (num : RecordingTasks → Int) (s : Sys) (e : Event) (hinv : Inv num s)
    (hallowed : startAllowed num s e = true) : Inv num (step num s e) := by
  cases e with
  | start req startErr progressErr => exact inv_step_start num s req startErr progressErr hinv hallowed
  | stop req =>
    show Inv num ((tasksToCheck req.Task).foldl
      (fun s task => s.absorb (stopOne num req.RoomTableId (false, s.ctl.withoutCalls) task).2) s)
    generalize tasksToCheck req.Task = tasks
    induction tasks generalizing s with
    | nil => exact hinv
    | cons t ts ih =>
      rw [List.foldl_cons]
      exact ih _ (stopSub_inv num req.RoomTableId s t hinv) rfl
  | closeFired r env filePath fileName =>
    show Inv num (match s.pending.find? (fun x => x.1 = r) with
      | none => s
      | some x =>
        let res := onAfterClose num env s.ctl.withoutCalls x.1.Req filePath fileName x.2
        { s with
          ctl := { res with calls := s.ctl.calls ++ res.calls }
          pending := s.pending.filter (fun y => y.1 ≠ r)
          closed := r :: s.closed })
    cases hfind : s.pending.find? (fun x => x.1 = r) with
    | none => exact hinv
    | some x =>
      have hx : x ∈ s.pending := List.mem_of_find?_eq_some hfind
      have hxr : x.1 = r := by simpa using List.find?_some hfind
      subst hxr
      refine inv_fire num s _ x hinv hx ?_ rfl rfl rfl rfl
      show (onAfterClose num env s.ctl.withoutCalls x.1.Req filePath fileName x.2).recordersInProgress = _
      rw [onAfterClose_registry]
      rfl

theorem inv_run (num : RecordingTasks → Int) (evs : List Event) (s : Sys) (hinv : Inv num s)
    (hquiet : Quiet num s evs = true) : Inv num (run num s evs) := by
  induction evs generalizing s with
  | nil => exact hinv
  | cons e es ih =>
    simp only [Quiet, Bool.and_eq_true] at hquiet
    exact ih _ (inv_step num s e hinv hquiet.1) hquiet.2

theorem requestClose_ctl (s : Sys) (x : Recorder × Option String) :
    (requestClose s x).ctl = s.ctl := by
  unfold requestClose
  split <;> rfl

theorem foldl_requestClose_ctl (xs : List (Recorder × Option String)) (s : Sys) :
    (xs.foldl requestClose s).ctl = s.ctl := by
  induction xs generalizing s with
  | nil => rfl
  | cons x xs ih => rw [List.foldl_cons, ih, requestClose_ctl]

theorem absorb_registry (s : Sys) (res : RecorderController) :
    (s.absorb res).ctl.recordersInProgress = res.recordersInProgress := by
  unfold Sys.absorb
  rw [foldl_requestClose_ctl]

/-- The registry after a stop event is the registry `handleStopTask` leaves. -/
theorem step_stop_registry (num : RecordingTasks → Int) (s : Sys) (req : WeMeetToRecorder) :
    (step num s (.stop req)).ctl.recordersInProgress =
      (handleStopTask num s.ctl req).2.recordersInProgress := by
  show ((tasksToCheck req.Task).foldl
      (fun s task => s.absorb (stopOne num req.RoomTableId (false, s.ctl.withoutCalls) task).2)
      s).ctl.recordersInProgress =
    ((tasksToCheck req.Task).foldl (stopOne num req.RoomTableId)
      (false, s.ctl)).2.recordersInProgress
  generalize tasksToCheck req.Task = tasks
  generalize hst : (false, s.ctl) = st
  have hreg : s.ctl.recordersInProgress = st.2.recordersInProgress := by rw [← hst]
  clear hst
  induction tasks generalizing s st with
  | nil => exact hreg
  | cons t ts ih =>
    rw [List.foldl_cons, List.foldl_cons]
    apply ih
    rw [absorb_registry]
    funext k
    rw [stopOne_registry, stopOne_registry]
    show (if _ then _ else s.ctl.recordersInProgress k) = _
    rw [hreg]

theorem length_le_one_of_nodup {α : Type} (l : List α) (hn : l.Nodup)
    (h : ∀ a ∈ l, ∀ b ∈ l, a = b) : l.length ≤ 1 := by
  match l, hn, h with
  | [], _, _ => simp
  | [_], _, _ => simp
  | a :: b :: t, hn, h =>
    have hab : a = b := h a (by simp) b (by simp)
    subst hab
    simp at hn

/-- C1 as stated fails: after a START_RECORDING for room 42, a STOP_RECORDING
and a second START_RECORDING, with the close of the first job requested and its
callback not yet fired, two capture processes that were launched successfully
and whose close callback has not fired have the same key. -/
theorem two_live_jobs_after_stop_and_restart :
    live (run sampleNum init
      [.start (sampleReq .START_RECORDING) none none,
       .stop (sampleReq .STOP_RECORDING),
       .start (sampleReq .START_RECORDING) none none]) =
      [⟨0, sampleReq .START_RECORDING⟩, ⟨1, sampleReq .START_RECORDING⟩] ∧
    Recorder.key sampleNum ⟨0, sampleReq .START_RECORDING⟩ =
      Recorder.key sampleNum ⟨1, sampleReq .START_RECORDING⟩ ∧
    (run sampleNum init
      [.start (sampleReq .START_RECORDING) none none,
       .stop (sampleReq .STOP_RECORDING),
       .start (sampleReq .START_RECORDING) none none]).closed = [] := by
  refine ⟨by decide, by decide, by decide⟩

/-- C1, amended: in every state reached from the empty registry by start
requests, stop requests and close callbacks firing, where no start request is
accepted for a key while a requested close for that key has not fired its
callback, each key has at most one capture process that was launched
successfully and whose close callback has not fired. -/
theorem at_most_one_live_job_per_key (num : RecordingTasks → Int) (evs : List Event)
    (hquiet : Quiet num init evs = true) (k : String) :
    ((live (run num init evs)).filter fun r => r.key num = k).length ≤ 1 ∧
    ∀ r1 ∈ live (run num init evs), ∀ r2 ∈ live (run num init evs),
      r1.key num = r2.key num → r1 = r2 := by
  have hinv := inv_run num evs init (inv_init num) hquiet
  have hfl : ∀ r ∈ live (run num init evs), InFlight (run num init evs) r := by
    intro r hr
    have := List.mem_filter.1 hr
    exact Or.inl ⟨this.1, by simpa using this.2⟩
  have hpair : ∀ r1 ∈ live (run num init evs), ∀ r2 ∈ live (run num init evs),
      r1.key num = r2.key num → r1 = r2 :=
    fun r1 h1 r2 h2 hk => hinv.uniq r1 r2 (hfl r1 h1) (hfl r2 h2) hk
  refine ⟨?_, hpair⟩
  apply length_le_one_of_nodup
  · exact (hinv.nodup.filter _).filter _
  · intro a ha b hb
    obtain ⟨ha1, ha2⟩ := List.mem_filter.1 ha
    obtain ⟨hb1, hb2⟩ := List.mem_filter.1 hb
    simp only [decide_eq_true_eq] at ha2 hb2
    exact hpair a ha1 b hb1 (by rw [ha2, hb2])

/-- C1, amended, at room 42: start, stop, the close callback of the first job,
then a second start; one recording job is live. -/
theorem at_most_one_live_job_per_key_witness :
    ((live (run sampleNum init
      [.start (sampleReq .START_RECORDING) none none,
       .stop (sampleReq .STOP_RECORDING),
       .closeFired ⟨0, sampleReq .START_RECORDING⟩ sampleCloseEnv "dir" "raw.mkv",
       .start (sampleReq .START_RECORDING) none none])).filter
        fun r => r.key sampleNum = "42-0").length ≤ 1 :=
  (at_most_one_live_job_per_key sampleNum
    [.start (sampleReq .START_RECORDING) none none,
     .stop (sampleReq .STOP_RECORDING),
     .closeFired ⟨0, sampleReq .START_RECORDING⟩ sampleCloseEnv "dir" "raw.mkv",
     .start (sampleReq .START_RECORDING) none none] (by decide) "42-0").1

/-- C3 fails on the code: after a START_RECORDING for room 42, a STOP_RECORDING,
a second START_RECORDING and then the close callback of the first job, the
second job is launched, no stop has removed it, no close was requested for it
and its callback has not fired, yet the registry has no entry under its key and
a STOP_RECORDING for it returns false. -/
theorem close_callback_drops_newer_job :
    live (run sampleNum init
      [.start (sampleReq .START_RECORDING) none none,
       .stop (sampleReq .STOP_RECORDING),
       .start (sampleReq .START_RECORDING) none none,
       .closeFired ⟨0, sampleReq .START_RECORDING⟩ sampleCloseEnv "dir" "raw.mkv"]) =
      [⟨1, sampleReq .START_RECORDING⟩] ∧
    (run sampleNum init
      [.start (sampleReq .START_RECORDING) none none,
       .stop (sampleReq .STOP_RECORDING),
       .start (sampleReq .START_RECORDING) none none,
       .closeFired ⟨0, sampleReq .START_RECORDING⟩ sampleCloseEnv "dir" "raw.mkv"]).pending = [] ∧
    closeRequests (run sampleNum init
      [.start (sampleReq .START_RECORDING) none none,
       .stop (sampleReq .STOP_RECORDING),
       .start (sampleReq .START_RECORDING) none none,
       .closeFired ⟨0, sampleReq .START_RECORDING⟩ sampleCloseEnv "dir" "raw.mkv"]).ctl.calls =
      [(⟨0, sampleReq .START_RECORDING⟩, none)] ∧
    (run sampleNum init
      [.start (sampleReq .START_RECORDING) none none,
       .stop (sampleReq .STOP_RECORDING),
       .start (sampleReq .START_RECORDING) none none,
       .closeFired ⟨0, sampleReq .START_RECORDING⟩ sampleCloseEnv "dir" "raw.mkv"]).ctl.recordersInProgress
        (Recorder.key sampleNum ⟨1, sampleReq .START_RECORDING⟩) = none ∧
    (handleStopTask sampleNum (run sampleNum init
      [.start (sampleReq .START_RECORDING) none none,
       .stop (sampleReq .STOP_RECORDING),
       .start (sampleReq .START_RECORDING) none none,
       .closeFired ⟨0, sampleReq .START_RECORDING⟩ sampleCloseEnv "dir" "raw.mkv"]).ctl
      (sampleReq .STOP_RECORDING)).1 = false := by
  refine ⟨by decide, by decide, by decide, by decide, by decide⟩

/-- C8 fails on the code: with `Close` firing the close callback before it
returns and the decrement succeeding, a start request on a free key whose launch
fails leaves the Progress Counter one below its value before the request: the
callback subtracts one and nothing was added. -/
theorem launch_failure_decrements_counter (num : RecordingTasks → Int) (cenv : CloseEnv)
    (file : Recorder → String × String) (env : StartEnv) (c : RecorderController)
    (req : WeMeetToRecorder) (e : String)
    (hfree : c.recordersInProgress (recorderId num req.RoomTableId req.Task) = none)
    (hstart : env.startErr = some e) (hdec : cenv.progressErr = none) :
    (handleStartTask num (closeNow num cenv file) env c req).1 = some e ∧
    (handleStartTask num (closeNow num cenv file) env c req).2.progress = c.progress - 1 := by
  rw [handleStartTask_launch_failure num _ env c req e hfree hstart]
  refine ⟨rfl, ?_⟩
  show (onAfterClose num cenv _ req _ _ (some e)).progress = _
  rw [onAfterClose_progress, if_pos hdec]

/-- C8 at the empty registry with counter 0: a START_RECORDING for room 42 whose
launch fails ends with the counter at -1; and in the run where the callback
fires as an event of its own, the counter is -1 with no job live. -/
theorem launch_failure_decrements_counter_witness :
    (handleStartTask sampleNum (closeNow sampleNum sampleCloseEnv fun _ => ("dir", "raw.mkv"))
      { pid := 0, startErr := some "launch failed", progressErr := none }
      init.ctl (sampleReq .START_RECORDING)).2.progress = init.ctl.progress - 1 ∧
    (run sampleNum init
      [.start (sampleReq .START_RECORDING) (some "launch failed") none,
       .closeFired ⟨0, sampleReq .START_RECORDING⟩ sampleCloseEnv "dir" "raw.mkv"]).ctl.progress =
      -1 ∧
    live (run sampleNum init
      [.start (sampleReq .START_RECORDING) (some "launch failed") none,
       .closeFired ⟨0, sampleReq .START_RECORDING⟩ sampleCloseEnv "dir" "raw.mkv"]) = [] :=
  ⟨(launch_failure_decrements_counter sampleNum sampleCloseEnv (fun _ => ("dir", "raw.mkv"))
      { pid := 0, startErr := some "launch failed", progressErr := none }
      init.ctl (sampleReq .START_RECORDING) "launch failed" rfl rfl rfl).2,
    by decide, by decide⟩

/-! ## The registry key -/

theorem digitValue_digitChar (d : Nat) (h : d < 10) : digitValue (Nat.digitChar d) = d := by
  interval_cases d <;> rfl

theorem digitChar_ne_minus (d : Nat) (h : d < 10) : Nat.digitChar d ≠ '-' := by
  interval_cases d <;> decide

theorem decodeDigits_append_singleton (l : List Char) (c : Char) :
    decodeDigits (l ++ [c]) = 10 * decodeDigits l + digitValue c := by
  simp [decodeDigits, List.foldl_append]

theorem toDigitsCore_decode (fuel : Nat) : ∀ (n : Nat) (ds : List Char), n < fuel →
    ∃ l, Nat.toDigitsCore 10 fuel n ds = l ++ ds ∧ decodeDigits l = n ∧ l ≠ [] ∧
      ∀ c ∈ l, c ≠ '-' := by
  induction fuel with
  | zero => intro n ds h; omega
  | succ fuel ih =>
    intro n ds h
    unfold Nat.toDigitsCore
    by_cases h0 : n / 10 = 0
    · simp only [h0, if_true]
      refine ⟨[Nat.digitChar (n % 10)], rfl, ?_, by simp, ?_⟩
      · have : n < 10 := by omega
        simp [decodeDigits, Nat.mod_eq_of_lt this, digitValue_digitChar _ this]
      · intro c hc
        simp only [List.mem_singleton] at hc
        rw [hc]; exact digitChar_ne_minus _ (Nat.mod_lt n (by decide))
    · simp only [h0, if_false]
      obtain ⟨l, hl, hdec, hne, hminus⟩ := ih (n / 10) (Nat.digitChar (n % 10) :: ds) (by omega)
      refine ⟨l ++ [Nat.digitChar (n % 10)], by rw [hl]; simp, ?_, by simp, ?_⟩
      · rw [decodeDigits_append_singleton, hdec,
          digitValue_digitChar _ (Nat.mod_lt n (by decide))]
        omega
      · intro c hc
        rcases List.mem_append.1 hc with h1 | h1
        · exact hminus c h1
        · simp only [List.mem_singleton] at h1
          rw [h1]; exact digitChar_ne_minus _ (Nat.mod_lt n (by decide))

theorem natRepr_data (n : Nat) :
    decodeDigits (Nat.repr n).data = n ∧ (Nat.repr n).data ≠ [] ∧
      ∀ c ∈ (Nat.repr n).data, c ≠ '-' := by
  obtain ⟨l, hl, hdec, hne, hminus⟩ := toDigitsCore_decode (n + 1) n [] (by omega)
  have : (Nat.repr n).data = l := by
    simp [Nat.repr, Nat.toDigits, hl, List.asString]
  rw [this]
  exact ⟨hdec, hne, hminus⟩

theorem natRepr_injective (m n : Nat) (h : Nat.repr m = Nat.repr n) : m = n := by
  rw [← (natRepr_data m).1, ← (natRepr_data n).1, h]

theorem split_at_minus : ∀ (l1 l2 r1 r2 : List Char), (∀ c ∈ l1, c ≠ '-') → (∀ c ∈ l2, c ≠ '-') →
    l1 ++ '-' :: r1 = l2 ++ '-' :: r2 → l1 = l2 ∧ r1 = r2
  | [], [], _, _, _, _, h => by simpa using h
  | [], c :: l2, _, _, _, h2, h => by
    simp only [List.nil_append, List.cons_append, List.cons.injEq] at h
    exact absurd h.1.symm (h2 c (by simp))
  | c :: l1, [], _, _, h1, _, h => by
    simp only [List.nil_append, List.cons_append, List.cons.injEq] at h
    exact absurd h.1 (h1 c (by simp))
  | c :: l1, d :: l2, r1, r2, h1, h2, h => by
    simp only [List.cons_append, List.cons.injEq] at h
    obtain ⟨hl, hr⟩ := split_at_minus l1 l2 r1 r2 (fun x hx => h1 x (by simp [hx]))
      (fun x hx => h2 x (by simp [hx])) h.2
    exact ⟨by rw [h.1, hl], hr⟩

theorem intToString_ofNat (m : Nat) : (toString (Int.ofNat m)).data = (Nat.repr m).data := rfl

theorem intToString_negSucc (m : Nat) :
    (toString (Int.negSucc m)).data = '-' :: (Nat.repr (m + 1)).data := rfl

theorem intToString_injective (a b : Int) (h : (toString a).data = (toString b).data) : a = b := by
  cases a with
  | ofNat m =>
    cases b with
    | ofNat n =>
      rw [intToString_ofNat, intToString_ofNat] at h
      rw [natRepr_injective m n (String.ext h)]
    | negSucc n =>
      rw [intToString_ofNat, intToString_negSucc] at h
      have hm := natRepr_data m
      rw [h] at hm
      exact absurd rfl (hm.2.2 '-' (by simp))
  | negSucc m =>
    cases b with
    | ofNat n =>
      rw [intToString_ofNat, intToString_negSucc] at h
      have hn := natRepr_data n
      rw [← h] at hn
      exact absurd rfl (hn.2.2 '-' (by simp))
    | negSucc n =>
      rw [intToString_negSucc, intToString_negSucc] at h
      simp only [List.cons.injEq, true_and] at h
      have := natRepr_injective (m + 1) (n + 1) (String.ext h)
      simp only [Nat.add_right_cancel_iff] at this
      rw [this]

theorem registryKey_data (a b : Int) :
    (registryKey a b).data = (toString a).data ++ '-' :: (toString b).data := by
  simp [registryKey, String.data_append]

/-- Splitting a key at the separator that ends the room number. -/
theorem registryKey_split (a b c d : Int) (h : registryKey a b = registryKey c d) :
    (toString a).data = (toString c).data ∧ (toString b).data = (toString d).data := by
  have hdata : (registryKey a b).data = (registryKey c d).data := by rw [h]
  rw [registryKey_data, registryKey_data] at hdata
  cases a with
  | ofNat m =>
    cases c with
    | ofNat n =>
      rw [intToString_ofNat, intToString_ofNat] at hdata ⊢
      exact split_at_minus _ _ _ _ (natRepr_data m).2.2 (natRepr_data n).2.2 hdata
    | negSucc n =>
      rw [intToString_ofNat, intToString_negSucc] at hdata
      obtain ⟨hne, hminus⟩ := (natRepr_data m).2
      cases hm : (Nat.repr m).data with
      | nil => exact absurd hm hne
      | cons x xs =>
        rw [hm] at hdata hminus
        simp only [List.cons_append, List.cons.injEq] at hdata
        exact absurd hdata.1 (hminus x (by simp))
  | negSucc m =>
    cases c with
    | ofNat n =>
      rw [intToString_ofNat, intToString_negSucc] at hdata
      obtain ⟨hne, hminus⟩ := (natRepr_data n).2
      cases hn : (Nat.repr n).data with
      | nil => exact absurd hn hne
      | cons x xs =>
        rw [hn] at hdata hminus
        simp only [List.cons_append, List.cons.injEq] at hdata
        exact absurd hdata.1.symm (hminus x (by simp))
    | negSucc n =>
      rw [intToString_negSucc, intToString_negSucc] at hdata ⊢
      simp only [List.cons_append, List.cons.injEq, true_and] at hdata ⊢
      exact split_at_minus _ _ _ _ (natRepr_data (m + 1)).2.2 (natRepr_data (n + 1)).2.2 hdata

theorem registryKey_injective (a b c d : Int) :
    registryKey a b = registryKey c d ↔ a = c ∧ b = d := by
  constructor
  · intro h
    obtain ⟨h1, h2⟩ := registryKey_split a b c d h
    exact ⟨intToString_injective a c h1, intToString_injective b d h2⟩
  · rintro ⟨rfl, rfl⟩; rfl

/-- C15: the key string "<a>-<b>" of a room number and a job-kind number equals
the key string of another pair exactly when both numbers agree, for all
integers (so for the 64-bit room numbers and 32-bit kind numbers, negative ones
included); and the key every path of the controller uses, `recorderId`, is this
string for the room of the request and the number of its kind, so two requests
collide exactly when their rooms and kind numbers agree. -/
theorem registry_key_injective (a b c d : Int) :
    (registryKey a b = registryKey c d ↔ a = c ∧ b = d) ∧
    (∀ (num : RecordingTasks → Int) (roomTableId : Int) (task : RecordingTasks),
      recorderId num roomTableId task = registryKey roomTableId (num task)) ∧
    (∀ (num : RecordingTasks → Int) (r1 r2 : Int) (t1 t2 : RecordingTasks),
      recorderId num r1 t1 = recorderId num r2 t2 ↔ r1 = r2 ∧ num t1 = num t2) :=
  ⟨registryKey_injective a b c d, fun _ _ _ => rfl,
    fun num r1 r2 t1 t2 => registryKey_injective r1 (num t1) r2 (num t2)⟩

/-! ## The Notification Channel -/

theorem notifyRequest_ok (env : NotifyEnv) (host apiKey apiSecret : String)
    (req : RecorderToWeMeet) (r : HttpRequest)
    (h : notifyRequest env host apiKey apiSecret req = .ok r) :
    ∃ body, env.marshal req = .ok body ∧
      env.newRequestErr "POST" (host ++ "/auth/recorder/notify") = none ∧
      r = { method := "POST", url := host ++ "/auth/recorder/notify", body := body,
            header := [("API-KEY", apiKey),
              ("HASH-SIGNATURE", hexEncodeToString (env.hmac.sum apiSecret.toUTF8.toList body)),
              ("content-type", "application/protobuf")] } := by
  unfold notifyRequest at h
  cases hm : env.marshal req with
  | error e => simp [hm] at h
  | ok body =>
    cases hn : env.newRequestErr "POST" (host ++ "/auth/recorder/notify") with
    | some e => simp [hm, hn] at h
    | none =>
      simp only [hm, hn, Except.ok.injEq] at h
      refine ⟨body, rfl, rfl, ?_⟩
      rw [← h]
      simp [HttpRequest.Set]

theorem hexEncodeToString_length (bytes : List UInt8) :
    (hexEncodeToString bytes).length = 2 * bytes.length := by
  unfold hexEncodeToString
  show (List.flatten _).length = _
  induction bytes with
  | nil => rfl
  | cons v vs ih => simp only [List.map_cons, List.flatten_cons, List.length_append, ih,
      List.length_cons, List.length_nil]; omega

theorem digitChar_hex (n : Nat) (h : n < 16) : Nat.digitChar n ∈ "0123456789abcdef".data := by
  interval_cases n <;> decide

theorem hexEncodeToString_chars (bytes : List UInt8) :
    ∀ c ∈ (hexEncodeToString bytes).data, c ∈ "0123456789abcdef".data := by
  unfold hexEncodeToString
  show ∀ c ∈ List.flatten _, _
  intro c hc
  obtain ⟨l, hl, hcl⟩ := List.mem_flatten.1 hc
  obtain ⟨v, _, rfl⟩ := List.mem_map.1 hl
  have hv : v.toNat < 256 := v.val.isLt
  simp only [List.mem_cons, List.mem_singleton, List.not_mem_nil, or_false] at hcl
  rcases hcl with rfl | rfl
  · exact digitChar_hex _ (by omega)
  · exact digitChar_hex _ (by omega)

/-- C17 as stated fails: with a serialization that fails and an HTTP client
that answers every request with status 200, `NotifyToWeMeet` returns status 0
and the serialization error: an error is returned without any transport-level
failure. -/
theorem NotifyToWeMeet_error_without_transport_failure :
    NotifyToWeMeet failingMarshalEnv "http://wemeet" "key" "secret"
      (closeResponse (sampleReq .START_RECORDING) none) none =
        (0, some "proto: cannot marshal") ∧
    ∀ (retryMax : Option Nat) (r : HttpRequest),
      failingMarshalEnv.clientDo retryMax r = .ok 200 :=
  ⟨rfl, fun _ _ => rfl⟩

/-- C17, amended: `NotifyToWeMeet` returns the status code and no error
whenever the HTTP client returns a response, whatever its status code; it
returns an error, with status 0, exactly when the serialization, the
construction of the request or the HTTP client fails, and the error is the one
of the failing step. -/
theorem NotifyToWeMeet_result (env : NotifyEnv) (host apiKey apiSecret : String)
    (req : RecorderToWeMeet) (retryMax : Option Nat) :
    (∀ r statusCode, notifyRequest env host apiKey apiSecret req = .ok r →
      env.clientDo retryMax r = .ok statusCode →
      NotifyToWeMeet env host apiKey apiSecret req retryMax = (statusCode, none)) ∧
    (∀ err, (NotifyToWeMeet env host apiKey apiSecret req retryMax).2 = some err ↔
      (NotifyToWeMeet env host apiKey apiSecret req retryMax).1 = 0 ∧
      (env.marshal req = .error err ∨
        ((∃ body, env.marshal req = .ok body) ∧
          env.newRequestErr "POST" (host ++ "/auth/recorder/notify") = some err) ∨
        ∃ r, notifyRequest env host apiKey apiSecret req = .ok r ∧
          env.clientDo retryMax r = .error err)) := by
  constructor
  · intro r statusCode hr hdo
    simp [NotifyToWeMeet, hr, hdo]
  · intro err
    unfold NotifyToWeMeet
    cases hm : env.marshal req with
    | error e => simp [notifyRequest, hm]
    | ok body =>
      cases hn : env.newRequestErr "POST" (host ++ "/auth/recorder/notify") with
      | some e => simp [notifyRequest, hm, hn]
      | none =>
        have hr : ∃ r, notifyRequest env host apiKey apiSecret req = .ok r := by
          simp [notifyRequest, hm, hn]
        obtain ⟨r, hr⟩ := hr
        rw [hr]
        cases hdo : env.clientDo retryMax r with
        | error e => simp [hm, hn, hdo]
        | ok statusCode => simp [hm, hn, hdo]

/-- C17, amended, with collaborators that do not fail: status 200 and no error. -/
theorem NotifyToWeMeet_result_witness :
    NotifyToWeMeet sampleNotifyEnv "http://wemeet" "key" "secret"
      (closeResponse (sampleReq .START_RECORDING) none) none = (200, none) :=
  (NotifyToWeMeet_result sampleNotifyEnv "http://wemeet" "key" "secret"
    (closeResponse (sampleReq .START_RECORDING) none) none).1 sampleRequest 200 rfl rfl

/-- C18: the request `NotifyToWeMeet` builds is a POST to the host followed by
"/auth/recorder/notify"; its API-KEY field is the key; its HASH-SIGNATURE field
is the lowercase hexadecimal encoding of HMAC-SHA256, keyed with the bytes of
the secret, of the bytes that are its body: 64 characters out of
"0123456789abcdef"; the signature is the same for every host and key (the retry
limit is no input of the request). -/
theorem notifyRequest_signed (env : NotifyEnv) (host apiKey apiSecret : String)
    (req : RecorderToWeMeet) (r : HttpRequest)
    (h : notifyRequest env host apiKey apiSecret req = .ok r) :
    r.method = "POST" ∧
    r.url = host ++ "/auth/recorder/notify" ∧
    r.Get "API-KEY" = some apiKey ∧
    r.Get "HASH-SIGNATURE" =
      some (hexEncodeToString (env.hmac.sum apiSecret.toUTF8.toList r.body)) ∧
    r.Get "content-type" = some "application/protobuf" ∧
    (hexEncodeToString (env.hmac.sum apiSecret.toUTF8.toList r.body)).length = 64 ∧
    (∀ c ∈ (hexEncodeToString (env.hmac.sum apiSecret.toUTF8.toList r.body)).data,
      c ∈ "0123456789abcdef".data) ∧
    ∀ host' apiKey' r', notifyRequest env host' apiKey' apiSecret req = .ok r' →
      r'.body = r.body ∧ r'.Get "HASH-SIGNATURE" = r.Get "HASH-SIGNATURE" := by
  obtain ⟨body, hm, -, rfl⟩ := notifyRequest_ok env host apiKey apiSecret req r h
  refine ⟨rfl, rfl, by simp [HttpRequest.Get], by simp [HttpRequest.Get],
    by simp [HttpRequest.Get], ?_, hexEncodeToString_chars _, ?_⟩
  · rw [hexEncodeToString_length, env.hmac.size]
  · intro host' apiKey' r' h'
    obtain ⟨body', hm', -, rfl⟩ := notifyRequest_ok env host' apiKey' apiSecret req r' h'
    rw [hm] at hm'
    cases hm'
    exact ⟨rfl, by simp [HttpRequest.Get]⟩

/-- C18, for host "http://wemeet", key "key" and secret "secret". -/
theorem notifyRequest_signed_witness :
    sampleRequest.method = "POST" ∧
    sampleRequest.url = "http://wemeet" ++ "/auth/recorder/notify" ∧
    sampleRequest.Get "API-KEY" = some "key" :=
  ⟨(notifyRequest_signed sampleNotifyEnv "http://wemeet" "key" "secret"
      (closeResponse (sampleReq .START_RECORDING) none) sampleRequest rfl).1,
    (notifyRequest_signed sampleNotifyEnv "http://wemeet" "key" "secret"
      (closeResponse (sampleReq .START_RECORDING) none) sampleRequest rfl).2.1,
    (notifyRequest_signed sampleNotifyEnv "http://wemeet" "key" "secret"
      (closeResponse (sampleReq .START_RECORDING) none) sampleRequest rfl).2.2.1⟩

/-! ## The reported file size -/

/-- C14 fails on the code: the computation is done in float32. A file of
39,999,999 bytes becomes 40,000,000 when converted to float32 (24 bits of
significand), so `int(size*100)` is 4000 and the reported size is 40.00, while
floor(39,999,999 / 10000) / 100 is 39.99; a file of 530,000 bytes gives
`int(size*100)` = 52 and is reported as the float32 of 0.52, not 0.53. For
1,500,000 bytes the reported size is 1.5. -/
theorem fileSize_float32_rounding :
    F32.ofInt 39999999 = ⟨false, 40000000, 1⟩ ∧
    F32.toInt (F32.mul (megabytes 39999999) (F32.ofInt 100)) = 4000 ∧
    twoDecimals (megabytes 39999999) = ⟨false, 40, 1⟩ ∧
    (39999999 : Int) / 10000 = 3999 ∧
    F32.toInt (F32.mul (megabytes 530000) (F32.ofInt 100)) = 52 ∧
    twoDecimals (megabytes 530000) = F32.div (F32.ofInt 52) (F32.ofInt 100) ∧
    (530000 : Int) / 10000 = 53 ∧
    twoDecimals (megabytes 1500000) = ⟨false, 3, 2⟩ := by
  refine ⟨by decide, by decide, by decide, by decide, by decide, by decide, by decide, by decide⟩

/-! ## The Post-Processing Pipeline -/

theorem commands_append (xs ys : List Call) :
    commands (xs ++ ys) = commands xs ++ commands ys := by
  induction xs with
  | nil => rfl
  | cons x xs ih => cases x <;> simp [commands, ih]

theorem withoutLogs_append (xs ys : List Call) :
    withoutLogs (xs ++ ys) = withoutLogs xs ++ withoutLogs ys := by
  induction xs with
  | nil => rfl
  | cons x xs ih => cases x <;> simp [withoutLogs, ih]

theorem dropLeading_append (pre rest : List Char) : dropLeading (pre ++ rest) pre = some rest := by
  induction pre with
  | nil => cases rest <;> rfl
  | cons p pre ih => simp [dropLeading, ih]

theorem TrimPrefix_append (root rest : String) : TrimPrefix (root ++ rest) root = rest := by
  unfold TrimPrefix
  rw [String.data_append, dropLeading_append]

theorem relativePath_snd (cnf : AppConfig) (env : PostEnv) (c : RecorderController)
    (outputFilePath : String) :
    (relativePath cnf env c outputFilePath).2 =
      match env.filepathAbs cnf.MainPath with
      | .error _ => TrimPrefix outputFilePath cnf.MainPath
      | .ok basePath =>
        match env.filepathRel basePath outputFilePath with
        | .error _ => TrimPrefix outputFilePath basePath
        | .ok rel => rel := by
  unfold relativePath
  cases env.filepathAbs cnf.MainPath with
  | error e => rfl
  | ok basePath =>
    simp only []
    cases env.filepathRel basePath outputFilePath <;> rfl

/-- C13 as stated fails: for storage root /data/recordings and output file
/data/recordings/room1/42.mp4, when the root does not resolve to an absolute
path the fallback reports /room1/42.mp4, with the separator, not room1/42.mp4. -/
theorem fallback_path_keeps_separator :
    (relativePath sampleConfig
      { samplePostEnv with filepathAbs := fun _ => .error "getwd: no such file or directory" }
      init.ctl "/data/recordings/room1/42.mp4").2 = "/room1/42.mp4" ∧
    TrimPrefix "/data/recordings/room1/42.mp4" "/data/recordings" = "/room1/42.mp4" := by
  refine ⟨by decide, by decide⟩

/-- C13, amended: when the root resolves to an absolute path the reported path is
what the relative-path computation returns for the resolved root and the output
file; when the root does not resolve, or the computation fails, it is the output
file without the literal leading root; and removing the root R as a literal from
R/p leaves /p, with the separator (p itself is left only when the separator is
written in the root). -/
theorem relativePath_reported (cnf : AppConfig) (env : PostEnv) (c : RecorderController)
    (outputFilePath : String) :
    (∀ basePath rel, env.filepathAbs cnf.MainPath = .ok basePath →
      env.filepathRel basePath outputFilePath = .ok rel →
      (relativePath cnf env c outputFilePath).2 = rel) ∧
    (∀ err, env.filepathAbs cnf.MainPath = .error err →
      (relativePath cnf env c outputFilePath).2 = TrimPrefix outputFilePath cnf.MainPath) ∧
    (∀ basePath err, env.filepathAbs cnf.MainPath = .ok basePath →
      env.filepathRel basePath outputFilePath = .error err →
      (relativePath cnf env c outputFilePath).2 = TrimPrefix outputFilePath basePath) ∧
    (∀ root p : String, TrimPrefix (root ++ "/" ++ p) root = "/" ++ p) ∧
    (∀ root p : String, TrimPrefix (root ++ "/" ++ p) (root ++ "/") = p) := by
  refine ⟨?_, ?_, ?_, ?_, ?_⟩
  · intro basePath rel habs hrel
    rw [relativePath_snd, habs]
    simp only [hrel]
  · intro err habs
    rw [relativePath_snd, habs]
  · intro basePath err habs hrel
    rw [relativePath_snd, habs]
    simp only [hrel]
  · intro root p
    rw [String.append_assoc, TrimPrefix_append]
  · intro root p
    rw [TrimPrefix_append]

/-- C13, amended, for storage root /data/recordings and output file
/data/recordings/room1/42.mp4 with the relative-path computation of the worked
examples: room1/42.mp4 is reported. -/
theorem relativePath_reported_witness :
    (relativePath sampleConfig samplePostEnv init.ctl "/data/recordings/room1/42.mp4").2 =
      "room1/42.mp4" :=
  (relativePath_reported sampleConfig samplePostEnv init.ctl
    "/data/recordings/room1/42.mp4").1 "/data/recordings" "room1/42.mp4" rfl rfl

theorem finalizeFile_encoder_failed (cnf : AppConfig) (env : PostEnv) (c : RecorderController)
    (fs : FileSystem) (req : WeMeetToRecorder) (filePath currentFileName err : String)
    (partialOutput : Option (List UInt8))
    (hconv : cnf.PostMp4Convert = true) (henc : env.encoder = .failed err partialOutput) :
    (finalizeFile cnf env c fs req filePath currentFileName).2.2 = currentFileName ∧
    (∀ p, (finalizeFile cnf env c fs req filePath currentFileName).2.1 p =
      if p = env.pathJoin filePath (req.RecordingId ++ ".mp4") then none else fs p) ∧
    (finalizeFile cnf env c fs req filePath currentFileName).1 =
      ((c.log (.execCommand "ffmpeg" (ffmpegArgs cnf env req filePath currentFileName))).log
        (.logError ("keeping the raw file: " ++ currentFileName ++
          " as output because of error from ffmpeg: " ++ err))).log
        (.osRemove (env.pathJoin filePath (req.RecordingId ++ ".mp4"))) := by
  unfold finalizeFile
  simp only [hconv, if_true, henc]
  cases partialOutput with
  | none =>
    simp only [EncoderResult.apply]
    refine ⟨by trivial, ?_, by trivial⟩
    intro p
    unfold osRemove
    cases hfs : fs (env.pathJoin filePath (req.RecordingId ++ ".mp4")) with
    | none =>
      by_cases hp : p = env.pathJoin filePath (req.RecordingId ++ ".mp4")
      · simp [hp, hfs]
      · simp [hp]
    | some content => rfl
  | some content =>
    simp only [EncoderResult.apply]
    refine ⟨by trivial, ?_, by trivial⟩
    intro p
    unfold osRemove
    by_cases hp : p = env.pathJoin filePath (req.RecordingId ++ ".mp4")
    · simp [hp]
    · simp [hp]

theorem finalizeFile_encoder_done (cnf : AppConfig) (env : PostEnv) (c : RecorderController)
    (fs : FileSystem) (req : WeMeetToRecorder) (filePath currentFileName : String)
    (output : List UInt8)
    (hconv : cnf.PostMp4Convert = true) (henc : env.encoder = .done output) :
    (finalizeFile cnf env c fs req filePath currentFileName).2.2 = req.RecordingId ++ ".mp4" ∧
    (∀ p, (finalizeFile cnf env c fs req filePath currentFileName).2.1 p =
      if p = env.pathJoin filePath currentFileName then none
      else if p = env.pathJoin filePath (req.RecordingId ++ ".mp4") then some output
      else fs p) ∧
    commands (finalizeFile cnf env c fs req filePath currentFileName).1.calls =
      commands c.calls ++ [("ffmpeg", ffmpegArgs cnf env req filePath currentFileName)] ∧
    notifications (finalizeFile cnf env c fs req filePath currentFileName).1.calls =
      notifications c.calls := by
  unfold finalizeFile
  simp only [hconv, if_true, henc, EncoderResult.apply]
  unfold osRemove
  by_cases hsame : env.pathJoin filePath currentFileName =
      env.pathJoin filePath (req.RecordingId ++ ".mp4")
  · simp only [hsame, if_true]
    refine ⟨by trivial, ?_, ?_, ?_⟩
    · intro p
      by_cases hp : p = env.pathJoin filePath (req.RecordingId ++ ".mp4") <;> simp [hp]
    · simp [RecorderController.log, commands_append, commands]
    · simp [RecorderController.log, notifications_append, notifications]
  · simp only [hsame, if_false]
    cases hfs : fs (env.pathJoin filePath currentFileName) with
    | none =>
      refine ⟨by trivial, ?_, ?_, ?_⟩
      · intro p
        by_cases hp : p = env.pathJoin filePath currentFileName
        · simp [hp, hsame, hfs]
        · simp [hp]
      · simp [RecorderController.log, commands_append, commands]
      · simp [RecorderController.log, notifications_append, notifications]
    | some content =>
      refine ⟨by trivial, ?_, ?_, ?_⟩
      · intro p
        by_cases hp : p = env.pathJoin filePath currentFileName <;> simp [hp]
      · simp [RecorderController.log, commands_append, commands]
      · simp [RecorderController.log, notifications_append, notifications]

theorem finalizeFile_renamed (cnf : AppConfig) (env : PostEnv) (c : RecorderController)
    (fs : FileSystem) (req : WeMeetToRecorder) (filePath currentFileName : String)
    (content : List UInt8)
    (hconv : cnf.PostMp4Convert = false)
    (hraw : fs (env.pathJoin filePath currentFileName) = some content) :
    (finalizeFile cnf env c fs req filePath currentFileName).2.2 = req.RecordingId ++ ".mp4" ∧
    (∀ p, (finalizeFile cnf env c fs req filePath currentFileName).2.1 p =
      if p = env.pathJoin filePath (req.RecordingId ++ ".mp4") then some content
      else if p = env.pathJoin filePath currentFileName then none
      else fs p) ∧
    commands (finalizeFile cnf env c fs req filePath currentFileName).1.calls =
      commands c.calls ∧
    notifications (finalizeFile cnf env c fs req filePath currentFileName).1.calls =
      notifications c.calls := by
  unfold finalizeFile
  simp only [hconv, Bool.false_eq_true, if_false]
  unfold osRename
  simp only [hraw]
  refine ⟨by trivial, fun p => by trivial, ?_, ?_⟩
  · simp [RecorderController.log, commands_append, commands]
  · simp [RecorderController.log, notifications_append, notifications]

theorem runScripts_commands (scriptErr : String → Option String) (marshal : String)
    (scripts : List String) (c : RecorderController) :
    commands (runScripts scriptErr marshal scripts c).calls =
      commands c.calls ++ scripts.map fun script => ("/bin/sh", [script, marshal]) := by
  induction scripts generalizing c with
  | nil => simp [runScripts]
  | cons script rest ih =>
    unfold runScripts
    cases scriptErr script <;>
      simp [ih, RecorderController.log, commands_append, commands]

theorem runScripts_notifications (scriptErr : String → Option String) (marshal : String)
    (scripts : List String) (c : RecorderController) :
    notifications (runScripts scriptErr marshal scripts c).calls = notifications c.calls := by
  induction scripts generalizing c with
  | nil => simp [runScripts]
  | cons script rest ih =>
    unfold runScripts
    cases scriptErr script <;>
      simp [ih, RecorderController.log, notifications_append, notifications]

theorem relativePath_commands (cnf : AppConfig) (env : PostEnv) (c : RecorderController)
    (outputFilePath : String) :
    commands (relativePath cnf env c outputFilePath).1.calls = commands c.calls ∧
    notifications (relativePath cnf env c outputFilePath).1.calls = notifications c.calls := by
  unfold relativePath
  cases env.filepathAbs cnf.MainPath with
  | error e => simp [RecorderController.log, commands_append, commands, notifications_append,
      notifications]
  | ok basePath =>
    simp only []
    cases env.filepathRel basePath outputFilePath <;>
      simp [RecorderController.log, commands_append, commands, notifications_append,
        notifications]

theorem relativePath_snd_eq (cnf : AppConfig) (env : PostEnv) (c c' : RecorderController)
    (outputFilePath : String) :
    (relativePath cnf env c outputFilePath).2 = (relativePath cnf env c' outputFilePath).2 := by
  rw [relativePath_snd, relativePath_snd]

theorem reportFile_present (cnf : AppConfig) (env : PostEnv) (c : RecorderController)
    (fs : FileSystem) (req : WeMeetToRecorder) (filePath finalFileName : String)
    (content : List UInt8)
    (h : fs (env.pathJoin filePath finalFileName) = some content) :
    notifications (reportFile cnf env c fs req filePath finalFileName).calls =
      notifications c.calls ++
        [proceededResponse req
          (relativePath cnf env c (env.pathJoin filePath finalFileName)).2
          (megabytes content.length)] ∧
    commands (reportFile cnf env c fs req filePath finalFileName).calls =
      commands c.calls ++
        match env.jsonMarshal
          (hookPayload env req filePath finalFileName (megabytes content.length)) with
        | .ok marshal => cnf.PostProcessingScripts.map fun script => ("/bin/sh", [script, marshal])
        | .error _ => [] := by
  have hrel := relativePath_commands cnf env
    (c.log (.osStat (env.pathJoin filePath finalFileName)))
    (env.pathJoin filePath finalFileName)
  have hsnd := relativePath_snd_eq cnf env
    (c.log (.osStat (env.pathJoin filePath finalFileName))) c
    (env.pathJoin filePath finalFileName)
  unfold reportFile osStat
  simp only [h]
  generalize relativePath cnf env (c.log (.osStat (env.pathJoin filePath finalFileName)))
    (env.pathJoin filePath finalFileName) = res at hrel hsnd
  obtain ⟨c1, rel⟩ := res
  simp only at hrel hsnd
  subst hsnd
  have hc1 : commands c1.calls = commands c.calls := by
    rw [hrel.1]; simp [RecorderController.log, commands_append, commands]
  have hn1 : notifications c1.calls = notifications c.calls := by
    rw [hrel.2]; simp [RecorderController.log, notifications_append, notifications]
  by_cases hscripts : cnf.PostProcessingScripts.length = 0
  · have hnil : cnf.PostProcessingScripts = [] := List.length_eq_zero.1 hscripts
    simp only [hscripts, if_true]
    cases env.notifyErr <;> cases env.jsonMarshal
        (hookPayload env req filePath finalFileName (megabytes content.length)) <;>
      simp [RecorderController.log, commands_append, commands, notifications_append,
        notifications, hc1, hn1, hnil]
  · simp only [hscripts, if_false]
    cases env.notifyErr <;> cases env.jsonMarshal
        (hookPayload env req filePath finalFileName (megabytes content.length)) <;>
      simp [RecorderController.log, commands_append, commands, notifications_append,
        notifications, hc1, hn1, runScripts_commands, runScripts_notifications]

theorem reportFile_absent (cnf : AppConfig) (env : PostEnv) (c : RecorderController)
    (fs : FileSystem) (req : WeMeetToRecorder) (filePath finalFileName : String)
    (h : fs (env.pathJoin filePath finalFileName) = none) :
    notifications (reportFile cnf env c fs req filePath finalFileName).calls =
      notifications c.calls ∧
    commands (reportFile cnf env c fs req filePath finalFileName).calls = commands c.calls := by
  unfold reportFile osStat
  simp [h, RecorderController.log, commands_append, commands, notifications_append,
    notifications]

theorem postProcess_encoder_failed (cnf : AppConfig) (env : PostEnv) (c : RecorderController)
    (fs : FileSystem) (req : WeMeetToRecorder) (filePath currentFileName err : String)
    (partialOutput : Option (List UInt8)) (content : List UInt8)
    (hconv : cnf.PostMp4Convert = true) (henc : env.encoder = .failed err partialOutput)
    (hpath : env.pathJoin filePath currentFileName ≠
      env.pathJoin filePath (req.RecordingId ++ ".mp4"))
    (hraw : fs (env.pathJoin filePath currentFileName) = some content) :
    (postProcessRecording cnf env c fs req filePath currentFileName).2
      (env.pathJoin filePath currentFileName) = some content ∧
    (postProcessRecording cnf env c fs req filePath currentFileName).2
      (env.pathJoin filePath (req.RecordingId ++ ".mp4")) = none ∧
    notifications (postProcessRecording cnf env c fs req filePath currentFileName).1.calls =
      notifications c.calls ++
        [proceededResponse req
          (relativePath cnf env c (env.pathJoin filePath currentFileName)).2
          (megabytes content.length)] := by
  obtain ⟨hname, hfs, hc⟩ := finalizeFile_encoder_failed cnf env c fs req filePath
    currentFileName err partialOutput hconv henc
  unfold postProcessRecording
  generalize finalizeFile cnf env c fs req filePath currentFileName = fin at hname hfs hc
  obtain ⟨c1, fs1, name⟩ := fin
  simp only at hname hfs hc ⊢
  subst hname
  have hraw1 : fs1 (env.pathJoin filePath name) = some content := by
    rw [hfs, if_neg hpath, hraw]
  refine ⟨hraw1, by rw [hfs, if_pos rfl], ?_⟩
  rw [(reportFile_present cnf env c1 fs1 req filePath name content hraw1).1,
    relativePath_snd_eq cnf env c1 c, hc]
  simp [RecorderController.log, notifications_append, notifications]

/-- The condition that the raw file is not at the path of the final file is
needed when the encoder fails: for a raw file named like the final file
(rec.mp4 for recording "rec") the removal of the partial output removes the raw
file, and no response is sent. `onAfterClose`, the only caller, passes the file
name of the recorder. -/
theorem conversion_failure_discards_raw_named_as_final :
    sampleFiles "/data/recordings/room1/rec.mp4" = some [1, 2, 3] ∧
    (postProcessRecording sampleConfig samplePostEnv init.ctl sampleFiles
      (sampleReq .START_RECORDING) "/data/recordings/room1" "rec.mp4").2
        "/data/recordings/room1/rec.mp4" = none ∧
    notifications (postProcessRecording sampleConfig samplePostEnv init.ctl sampleFiles
      (sampleReq .START_RECORDING) "/data/recordings/room1" "rec.mp4").1.calls = [] := by
  refine ⟨by decide, by decide, by decide⟩

/-- C11: with conversion enabled and a failing encoder, for a raw file whose path
is not the path of the final file <dir>/<recordingId>.mp4: after
`postProcessRecording` the raw file exists at its path with its content
unchanged, nothing remains at <dir>/<recordingId>.mp4 whatever partial output
the encoder left, and exactly one response is sent, RECORDING_PROCEEDED with
status true, the reported path of the raw file and the size of the raw file;
the file name handed to the hook scripts is the raw file's name. -/
theorem conversion_failure_keeps_raw_file (cnf : AppConfig) (env : PostEnv)
    (c : RecorderController) (fs : FileSystem) (req : WeMeetToRecorder)
    (filePath currentFileName err : String) (partialOutput : Option (List UInt8))
    (content : List UInt8)
    (hconv : cnf.PostMp4Convert = true) (henc : env.encoder = .failed err partialOutput)
    (hpath : env.pathJoin filePath currentFileName ≠
      env.pathJoin filePath (req.RecordingId ++ ".mp4"))
    (hraw : fs (env.pathJoin filePath currentFileName) = some content) :
    (postProcessRecording cnf env c fs req filePath currentFileName).2
      (env.pathJoin filePath currentFileName) = some content ∧
    (postProcessRecording cnf env c fs req filePath currentFileName).2
      (env.pathJoin filePath (req.RecordingId ++ ".mp4")) = none ∧
    (∃ response,
      notifications (postProcessRecording cnf env c fs req filePath currentFileName).1.calls =
        notifications c.calls ++ [response] ∧
      response = proceededResponse req
        (relativePath cnf env c (env.pathJoin filePath currentFileName)).2
        (megabytes content.length) ∧
      response.Status = true ∧
      response.Task = .RECORDING_PROCEEDED ∧
      response.FilePath = (relativePath cnf env c (env.pathJoin filePath currentFileName)).2 ∧
      response.FileSize = (twoDecimals (megabytes content.length)).toRat) ∧
    (hookPayload env req filePath currentFileName (megabytes content.length)).file_name =
      currentFileName ∧
    (hookPayload env req filePath currentFileName (megabytes content.length)).file_path =
      env.pathJoin filePath currentFileName := by
  obtain ⟨h1, h2, h3⟩ := postProcess_encoder_failed cnf env c fs req filePath currentFileName
    err partialOutput content hconv henc hpath hraw
  exact ⟨h1, h2, ⟨_, h3, rfl, rfl, rfl, rfl, rfl⟩, rfl, rfl⟩

/-- C11 for the raw file raw.mkv of recording "rec", three bytes, and an encoder
that exits with an error: raw.mkv is still there with its three bytes and there
is no rec.mp4. -/
theorem conversion_failure_keeps_raw_file_witness :
    sampleConfig.PostMp4Convert = true ∧
    samplePostEnv.encoder = .failed "exit status 1" none ∧
    "/data/recordings/room1/raw.mkv" ≠ "/data/recordings/room1/rec.mp4" ∧
    sampleRawFiles "/data/recordings/room1/raw.mkv" = some [1, 2, 3] ∧
    (postProcessRecording sampleConfig samplePostEnv init.ctl sampleRawFiles
      (sampleReq .START_RECORDING) "/data/recordings/room1" "raw.mkv").2
        "/data/recordings/room1/raw.mkv" = some [1, 2, 3] ∧
    (postProcessRecording sampleConfig samplePostEnv init.ctl sampleRawFiles
      (sampleReq .START_RECORDING) "/data/recordings/room1" "raw.mkv").2
        "/data/recordings/room1/rec.mp4" = none :=
  ⟨rfl, rfl, by decide, by decide,
    (conversion_failure_keeps_raw_file sampleConfig samplePostEnv init.ctl sampleRawFiles
      (sampleReq .START_RECORDING) "/data/recordings/room1" "raw.mkv" "exit status 1" none
      [1, 2, 3] rfl rfl (by decide) (by decide)).1,
    (conversion_failure_keeps_raw_file sampleConfig samplePostEnv init.ctl sampleRawFiles
      (sampleReq .START_RECORDING) "/data/recordings/room1" "raw.mkv" "exit status 1" none
      [1, 2, 3] rfl rfl (by decide) (by decide)).2.1⟩

/-- C12: when the raw file and the final file <dir>/<recordingId>.mp4 are
different paths and either conversion is enabled and the encoder succeeds, or
conversion is disabled and the rename succeeds, then after
`postProcessRecording` the final file exists, the raw file no longer exists at
its path, one response is sent whose file path is the reported path of
<dir>/<recordingId>.mp4, and the hook scripts get the payload whose file_name is
<recordingId>.mp4. -/
theorem postProcess_final_file (cnf : AppConfig) (env : PostEnv) (c : RecorderController)
    (fs : FileSystem) (req : WeMeetToRecorder) (filePath currentFileName : String)
    (hpath : env.pathJoin filePath currentFileName ≠
      env.pathJoin filePath (req.RecordingId ++ ".mp4"))
    (hcase : (cnf.PostMp4Convert = true ∧ ∃ output, env.encoder = .done output) ∨
      (cnf.PostMp4Convert = false ∧
        ∃ content, fs (env.pathJoin filePath currentFileName) = some content)) :
    ∃ content,
      (postProcessRecording cnf env c fs req filePath currentFileName).2
        (env.pathJoin filePath (req.RecordingId ++ ".mp4")) = some content ∧
      (postProcessRecording cnf env c fs req filePath currentFileName).2
        (env.pathJoin filePath currentFileName) = none ∧
      notifications (postProcessRecording cnf env c fs req filePath currentFileName).1.calls =
        notifications c.calls ++
          [proceededResponse req
            (relativePath cnf env c (env.pathJoin filePath (req.RecordingId ++ ".mp4"))).2
            (megabytes content.length)] ∧
      (hookPayload env req filePath (req.RecordingId ++ ".mp4")
        (megabytes content.length)).file_name = req.RecordingId ++ ".mp4" ∧
      ∀ marshal, env.jsonMarshal (hookPayload env req filePath (req.RecordingId ++ ".mp4")
          (megabytes content.length)) = .ok marshal →
        commands (postProcessRecording cnf env c fs req filePath currentFileName).1.calls =
          commands c.calls ++
            (if cnf.PostMp4Convert then
              [("ffmpeg", ffmpegArgs cnf env req filePath currentFileName)] else []) ++
            cnf.PostProcessingScripts.map fun script => ("/bin/sh", [script, marshal]) := by
  have hpath' : env.pathJoin filePath (req.RecordingId ++ ".mp4") ≠
      env.pathJoin filePath currentFileName := fun h => hpath h.symm
  rcases hcase with ⟨hconv, output, henc⟩ | ⟨hconv, content, hraw⟩
  · obtain ⟨hname, hfs, hcmd, hnot⟩ := finalizeFile_encoder_done cnf env c fs req filePath
      currentFileName output hconv henc
    unfold postProcessRecording
    generalize finalizeFile cnf env c fs req filePath currentFileName = fin
      at hname hfs hcmd hnot
    obtain ⟨c1, fs1, name⟩ := fin
    simp only at hname hfs hcmd hnot ⊢
    subst hname
    have hfinal : fs1 (env.pathJoin filePath (req.RecordingId ++ ".mp4")) = some output := by
      rw [hfs, if_neg hpath', if_pos rfl]
    obtain ⟨hn, hcm⟩ := reportFile_present cnf env c1 fs1 req filePath
      (req.RecordingId ++ ".mp4") output hfinal
    refine ⟨output, hfinal, by rw [hfs, if_pos rfl], ?_, rfl, ?_⟩
    · rw [hn, relativePath_snd_eq cnf env c1 c, hnot]
    · intro marshal hm
      rw [hcm, hm, hcmd, hconv]
      simp
  · obtain ⟨hname, hfs, hcmd, hnot⟩ := finalizeFile_renamed cnf env c fs req filePath
      currentFileName content hconv hraw
    unfold postProcessRecording
    generalize finalizeFile cnf env c fs req filePath currentFileName = fin
      at hname hfs hcmd hnot
    obtain ⟨c1, fs1, name⟩ := fin
    simp only at hname hfs hcmd hnot ⊢
    subst hname
    have hfinal : fs1 (env.pathJoin filePath (req.RecordingId ++ ".mp4")) = some content := by
      rw [hfs, if_pos rfl]
    obtain ⟨hn, hcm⟩ := reportFile_present cnf env c1 fs1 req filePath
      (req.RecordingId ++ ".mp4") content hfinal
    refine ⟨content, hfinal, by rw [hfs, if_neg hpath, if_pos rfl], ?_, rfl, ?_⟩
    · rw [hn, relativePath_snd_eq cnf env c1 c, hnot]
    · intro marshal hm
      rw [hcm, hm, hcmd, hconv]
      simp

/-- C12, for the raw file raw.mkv of recording "rec" with conversion disabled: the
final file rec.mp4 exists and raw.mkv is gone. -/
theorem postProcess_final_file_witness :
    ∃ content,
      (postProcessRecording { sampleConfig with PostMp4Convert := false } samplePostEnv init.ctl
        sampleRawFiles (sampleReq .START_RECORDING) "/data/recordings/room1" "raw.mkv").2
          "/data/recordings/room1/rec.mp4" = some content ∧
      (postProcessRecording { sampleConfig with PostMp4Convert := false } samplePostEnv init.ctl
        sampleRawFiles (sampleReq .START_RECORDING) "/data/recordings/room1" "raw.mkv").2
          "/data/recordings/room1/raw.mkv" = none :=
  Exists.elim
    (postProcess_final_file { sampleConfig with PostMp4Convert := false } samplePostEnv init.ctl
      sampleRawFiles (sampleReq .START_RECORDING) "/data/recordings/room1" "raw.mkv"
      (by decide) (Or.inr ⟨rfl, [1, 2, 3], by decide⟩))
    fun content h => ⟨content, h.1, h.2.1⟩

/-- C19 as stated fails: in a run that reaches the hook stage with the one script
hook.sh, the executed program is /bin/sh, not the script, and its argument list
has two entries, the script path and the JSON payload. -/
theorem hook_script_runs_through_shell :
    commands (postProcessRecording sampleConfig samplePostEnv init.ctl sampleRawFiles
      (sampleReq .START_RECORDING) "/data/recordings/room1" "raw.mkv").1.calls =
      [("ffmpeg", ["-y", "-i", "/data/recordings/room1/raw.mkv", "-c", "copy",
          "/data/recordings/room1/rec.mp4"]),
        ("/bin/sh", ["hook.sh", "\x7b\"file_name\":\"raw.mkv\"\x7d"])] := by
  decide

/-- C19, amended: in every run of `postProcessRecording` that reaches the hook
stage (the final file exists and the payload is serialized), each configured
script is invoked exactly once, in configuration order and whatever the other
scripts end with, as `/bin/sh <script-path> <json-payload>`: the executed
program is /bin/sh and its argument list is the script path followed by the one
JSON payload string. -/
theorem hook_scripts_in_order (cnf : AppConfig) (env : PostEnv) (c : RecorderController)
    (fs : FileSystem) (req : WeMeetToRecorder) (filePath currentFileName : String)
    (content : List UInt8) (marshal : String)
    (hfile : (finalizeFile cnf env c fs req filePath currentFileName).2.1
      (env.pathJoin filePath (finalizeFile cnf env c fs req filePath currentFileName).2.2) =
        some content)
    (hmarshal : env.jsonMarshal (hookPayload env req filePath
      (finalizeFile cnf env c fs req filePath currentFileName).2.2
      (megabytes content.length)) = .ok marshal) :
    ∀ scriptErr : String → Option String,
      commands (postProcessRecording cnf { env with scriptErr := scriptErr } c fs req filePath
        currentFileName).1.calls =
        commands (finalizeFile cnf env c fs req filePath currentFileName).1.calls ++
          cnf.PostProcessingScripts.map fun script => ("/bin/sh", [script, marshal]) := by
  intro scriptErr
  have hfin : finalizeFile cnf { env with scriptErr := scriptErr } c fs req filePath
      currentFileName = finalizeFile cnf env c fs req filePath currentFileName := rfl
  unfold postProcessRecording
  rw [hfin]
  generalize finalizeFile cnf env c fs req filePath currentFileName = fin at hfile hmarshal
  obtain ⟨c1, fs1, name⟩ := fin
  simp only at hfile hmarshal ⊢
  rw [(reportFile_present cnf { env with scriptErr := scriptErr } c1 fs1 req filePath name
    content hfile).2]
  have : hookPayload { env with scriptErr := scriptErr } req filePath name
      (megabytes content.length) = hookPayload env req filePath name
      (megabytes content.length) := rfl
  simp only [this, hmarshal]

/-- C19, amended, for the raw file raw.mkv with the one script hook.sh, which
fails: the script is run once through /bin/sh. -/
theorem hook_scripts_in_order_witness :
    commands (postProcessRecording sampleConfig
      { samplePostEnv with scriptErr := fun _ => some "exit status 2" } init.ctl sampleRawFiles
      (sampleReq .START_RECORDING) "/data/recordings/room1" "raw.mkv").1.calls =
      commands (finalizeFile sampleConfig samplePostEnv init.ctl sampleRawFiles
        (sampleReq .START_RECORDING) "/data/recordings/room1" "raw.mkv").1.calls ++
        sampleConfig.PostProcessingScripts.map fun script =>
          ("/bin/sh", [script, "\x7b\"file_name\":\"raw.mkv\"\x7d"]) :=
  hook_scripts_in_order sampleConfig samplePostEnv init.ctl sampleRawFiles
    (sampleReq .START_RECORDING) "/data/recordings/room1" "raw.mkv" [1, 2, 3]
    "\x7b\"file_name\":\"raw.mkv\"\x7d" (by decide) rfl (fun _ => some "exit status 2")

theorem SameEffects.refl (c : RecorderController) : SameEffects c c := ⟨rfl, rfl, rfl⟩

theorem SameEffects.log (c1 c2 : RecorderController) (x : Call) (h : SameEffects c1 c2) :
    SameEffects (c1.log x) (c2.log x) := by
  obtain ⟨h1, h2, h3⟩ := h
  exact ⟨h1, h2, by simp [RecorderController.log, withoutLogs_append, h3]⟩

theorem SameEffects.logLeft (c1 c2 : RecorderController) (e : String) (h : SameEffects c1 c2) :
    SameEffects (c1.log (.logError e)) c2 := by
  obtain ⟨h1, h2, h3⟩ := h
  exact ⟨h1, h2, by simp [RecorderController.log, withoutLogs_append, withoutLogs, h3]⟩

theorem SameEffects.logRight (c1 c2 : RecorderController) (e : String) (h : SameEffects c1 c2) :
    SameEffects c1 (c2.log (.logError e)) := by
  obtain ⟨h1, h2, h3⟩ := h
  exact ⟨h1, h2, by simp [RecorderController.log, withoutLogs_append, withoutLogs, h3]⟩

theorem SameEffects.notified (c : RecorderController) (e1 e2 : Option String) :
    SameEffects
      (match e1 with
        | some e => c.log (.logError e)
        | none => c)
      (match e2 with
        | some e => c.log (.logError e)
        | none => c) := by
  cases e1 <;> cases e2
  · exact SameEffects.refl c
  · exact SameEffects.logRight _ _ _ (SameEffects.refl c)
  · exact SameEffects.logLeft _ _ _ (SameEffects.refl c)
  · exact SameEffects.logLeft _ _ _ (SameEffects.logRight _ _ _ (SameEffects.refl c))

theorem SameEffects.runScripts (scriptErr : String → Option String) (marshal : String)
    (scripts : List String) (c1 c2 : RecorderController) (h : SameEffects c1 c2) :
    SameEffects (runScripts scriptErr marshal scripts c1)
      (runScripts scriptErr marshal scripts c2) := by
  induction scripts generalizing c1 c2 with
  | nil => exact h
  | cons script rest ih =>
    unfold WeMeetRecorder.runScripts
    cases scriptErr script with
    | none => exact ih _ _ (SameEffects.log _ _ _ h)
    | some e => exact ih _ _ (SameEffects.log _ _ _ (SameEffects.log _ _ _ h))

theorem onAfterStart_sameEffects (c : RecorderController) (req : WeMeetToRecorder)
    (e1 e2 : Option String) :
    SameEffects (onAfterStart e1 c req) (onAfterStart e2 c req) := by
  unfold onAfterStart
  exact SameEffects.notified _ e1 e2

theorem onAfterClose_sameEffects (num : RecordingTasks → Int) (env : CloseEnv)
    (c : RecorderController) (req : WeMeetToRecorder) (filePath fileName : String)
    (processErr e1 e2 : Option String) :
    SameEffects
      (onAfterClose num { env with notifyErr := e1 } c req filePath fileName processErr)
      (onAfterClose num { env with notifyErr := e2 } c req filePath fileName processErr) := by
  unfold onAfterClose
  simp only []
  generalize (UpdateCurrentProgress env.progressErr
    (c.Delete (recorderId num req.RoomTableId req.Task)) false) = upd
  obtain ⟨c0, err⟩ := upd
  simp only []
  have key := fun c' => SameEffects.notified c' e1 e2
  split
  · split <;> (try split) <;>
      first
      | exact SameEffects.log _ _ _ (SameEffects.log _ _ _ (key _))
      | exact SameEffects.log _ _ _ (key _)
  · exact key _

theorem reportFile_sameEffects (cnf : AppConfig) (env : PostEnv) (c : RecorderController)
    (fs : FileSystem) (req : WeMeetToRecorder) (filePath finalFileName : String)
    (e1 e2 : Option String) :
    SameEffects
      (reportFile cnf { env with notifyErr := e1 } c fs req filePath finalFileName)
      (reportFile cnf { env with notifyErr := e2 } c fs req filePath finalFileName) := by
  unfold reportFile
  simp only []
  cases hstat : osStat fs (env.pathJoin filePath finalFileName) with
  | notExist msg => exact SameEffects.refl _
  | failed msg => exact SameEffects.refl _
  | info bytes =>
    simp only []
    have hrel : relativePath cnf { env with notifyErr := e1 }
        (c.log (.osStat (env.pathJoin filePath finalFileName)))
        (env.pathJoin filePath finalFileName) =
        relativePath cnf { env with notifyErr := e2 }
        (c.log (.osStat (env.pathJoin filePath finalFileName)))
        (env.pathJoin filePath finalFileName) := rfl
    rw [hrel]
    generalize relativePath cnf { env with notifyErr := e2 }
      (c.log (.osStat (env.pathJoin filePath finalFileName)))
      (env.pathJoin filePath finalFileName) = res
    obtain ⟨c1, rel⟩ := res
    simp only []
    have key := SameEffects.notified
      (c1.log (.notifyToWeMeet (proceededResponse req rel (megabytes bytes)))) e1 e2
    split
    · exact key
    · have hpay : hookPayload { env with notifyErr := e1 } req filePath finalFileName
          (megabytes bytes) = hookPayload { env with notifyErr := e2 } req filePath
          finalFileName (megabytes bytes) := rfl
      rw [hpay]
      cases env.jsonMarshal (hookPayload { env with notifyErr := e2 } req filePath
          finalFileName (megabytes bytes)) with
      | error err => exact SameEffects.log _ _ _ key
      | ok marshal => exact SameEffects.runScripts _ _ _ _ _ key

theorem commands_withoutLogs (l : List Call) : commands (withoutLogs l) = commands l := by
  induction l with
  | nil => rfl
  | cons x xs ih => cases x <;> simp [withoutLogs, commands, ih]

theorem postProcessRuns_withoutLogs (l : List Call) :
    postProcessRuns (withoutLogs l) = postProcessRuns l := by
  induction l with
  | nil => rfl
  | cons x xs ih => cases x <;> simp [withoutLogs, postProcessRuns, ih]

/-- C16: two runs of `onAfterStart`, of `onAfterClose` or of
`postProcessRecording` that differ only in what the Notification Channel call
returns (an error or none, `e1` and `e2`) end with the same registry, the same
Progress Counter and the same calls other than error logs, in the same order:
the same counter updates, file operations, pipeline spawns and hook scripts;
`postProcessRecording` also leaves the same files. -/
theorem notification_failure_rolls_nothing_back (num : RecordingTasks → Int) (cnf : AppConfig)
    (cenv : CloseEnv) (env : PostEnv) (c : RecorderController) (fs : FileSystem)
    (req : WeMeetToRecorder) (filePath fileName : String) (processErr e1 e2 : Option String) :
    SameEffects (onAfterStart e1 c req) (onAfterStart e2 c req) ∧
    SameEffects
      (onAfterClose num { cenv with notifyErr := e1 } c req filePath fileName processErr)
      (onAfterClose num { cenv with notifyErr := e2 } c req filePath fileName processErr) ∧
    postProcessRuns
      (onAfterClose num { cenv with notifyErr := e1 } c req filePath fileName processErr).calls =
    postProcessRuns
      (onAfterClose num { cenv with notifyErr := e2 } c req filePath fileName processErr).calls ∧
    SameEffects
      (postProcessRecording cnf { env with notifyErr := e1 } c fs req filePath fileName).1
      (postProcessRecording cnf { env with notifyErr := e2 } c fs req filePath fileName).1 ∧
    (postProcessRecording cnf { env with notifyErr := e1 } c fs req filePath fileName).2 =
      (postProcessRecording cnf { env with notifyErr := e2 } c fs req filePath fileName).2 ∧
    commands
      (postProcessRecording cnf { env with notifyErr := e1 } c fs req filePath fileName).1.calls =
    commands
      (postProcessRecording cnf { env with notifyErr := e2 } c fs req filePath fileName).1.calls := by
  have hclose := onAfterClose_sameEffects num cenv c req filePath fileName processErr e1 e2
  have hfin : finalizeFile cnf { env with notifyErr := e1 } c fs req filePath fileName =
      finalizeFile cnf { env with notifyErr := e2 } c fs req filePath fileName := rfl
  have hpost : SameEffects
      (postProcessRecording cnf { env with notifyErr := e1 } c fs req filePath fileName).1
      (postProcessRecording cnf { env with notifyErr := e2 } c fs req filePath fileName).1 := by
    unfold postProcessRecording
    rw [hfin]
    exact reportFile_sameEffects cnf env _ _ req filePath _ e1 e2
  refine ⟨onAfterStart_sameEffects c req e1 e2, hclose, ?_, hpost, ?_, ?_⟩
  · rw [← postProcessRuns_withoutLogs, hclose.2.2, postProcessRuns_withoutLogs]
  · unfold postProcessRecording
    rw [hfin]
  · rw [← commands_withoutLogs, hpost.2.2, commands_withoutLogs]

/-! ## MultiIter -/

theorem getElem?_append_length {β : Type} (xs : List β) (y : β) (ys : List β) :
    (xs ++ y :: ys)[xs.length]? = some y := by
  induction xs with
  | nil => simp
  | cons x xs ih => simpa using ih

theorem set_append_length {β : Type} (xs : List β) (y z : β) (ys : List β) :
    (xs ++ y :: ys).set xs.length z = xs ++ z :: ys := by
  induction xs with
  | nil => rfl
  | cons x xs ih => simp [ih]

theorem eraseIdx_append_length {β : Type} (xs : List β) (y : β) (ys : List β) :
    (xs ++ y :: ys).eraseIdx xs.length = xs ++ ys := by
  induction xs with
  | nil => rfl
  | cons x xs ih => simpa using ih

/-- More rounds than there are sub-iterators change nothing: `Next` always
leaves its loop. -/
theorem nextLoop_fuel {α : Type} (fuel : Nat) (it : iters.multiIter α)
    (h : it.sub.length < fuel) :
    it.nextLoop fuel = it.Next := by
  induction fuel generalizing it with
  | zero => omega
  | succ fuel ih =>
    unfold iters.multiIter.Next
    unfold iters.multiIter.nextLoop
    by_cases h0 : it.sub.length = 0
    · simp only [h0, if_true]
    · simp only [h0, if_false]
      cases hs : it.sub[it.ind]? with
      | none => rfl
      | some s =>
        simp only []
        have hind : it.ind < it.sub.length := by
          rcases List.getElem?_eq_some_iff.1 hs with ⟨hlt, _⟩
          exact hlt
        have hlen : (it.sub.eraseIdx it.ind).length + 1 = it.sub.length := by
          rw [List.length_eraseIdx, if_pos hind]
          omega
        rcases hn : s.Next with ⟨r, s'⟩
        cases r with
        | ok cur => rfl
        | error err =>
          simp only []
          by_cases he : err ≠ .EOF
          · rw [if_pos he, if_pos he]
            cases hstrict : it.strict with
            | true => rfl
            | false =>
              simp only [Bool.false_eq_true, if_false]
              rw [ih _ (by simp only []; omega), ← hlen]
              rfl
          · rw [if_neg he, if_neg he]
            rw [ih _ (by simp only []; omega), ← hlen]
            rfl

theorem total_nil {α : Type} : iters.total ([] : List (List α)) = 0 := rfl

theorem total_cons {α : Type} (l : List α) (ls : List (List α)) :
    iters.total (l :: ls) = l.length + iters.total ls := by
  simp [iters.total]

theorem total_append {α : Type} (xs ys : List (List α)) :
    iters.total (xs ++ ys) = iters.total xs + iters.total ys := by
  simp [iters.total]

theorem Next_ofLists_nil {α : Type} (strict : Bool) (i : Nat) :
    (iters.multiIter.ofLists strict ([] : List (List α)) i).Next
      = (.error .EOF, iters.multiIter.ofLists strict [] i) := rfl

theorem Next_ofLists_ok {α : Type} (strict : Bool) (pre : List (List α)) (a : α)
    (l : List α) (post : List (List α)) :
    (iters.multiIter.ofLists strict (pre ++ (a :: l) :: post) pre.length).Next
      = (.ok a, iters.multiIter.ofLists strict (pre ++ l :: post)
          ((pre.length + 1) % (pre.length + (post.length + 1)))) := by
  unfold iters.multiIter.Next iters.multiIter.nextLoop
  have hs : (List.map (fun l => iters.Iter.slice (iters.Slice l)) pre
      ++ iters.Iter.slice (iters.Slice (a :: l))
        :: List.map (fun l => iters.Iter.slice (iters.Slice l)) post)[pre.length]?
      = some (iters.Iter.slice (iters.Slice (a :: l))) := by
    have := getElem?_append_length (List.map (fun l => iters.Iter.slice (iters.Slice l)) pre)
      (iters.Iter.slice (iters.Slice (a :: l)))
      (List.map (fun l => iters.Iter.slice (iters.Slice l)) post)
    simpa only [List.length_map] using this
  have hset : (List.map (fun l => iters.Iter.slice (iters.Slice l)) pre
      ++ iters.Iter.slice (iters.Slice (a :: l))
        :: List.map (fun l => iters.Iter.slice (iters.Slice l)) post).set pre.length
          (iters.Iter.slice (iters.Slice l))
      = List.map (fun l => iters.Iter.slice (iters.Slice l)) pre
        ++ iters.Iter.slice (iters.Slice l)
          :: List.map (fun l => iters.Iter.slice (iters.Slice l)) post := by
    have := set_append_length (List.map (fun l => iters.Iter.slice (iters.Slice l)) pre)
      (iters.Iter.slice (iters.Slice (a :: l))) (iters.Iter.slice (iters.Slice l))
      (List.map (fun l => iters.Iter.slice (iters.Slice l)) post)
    simpa only [List.length_map] using this
  simp only [iters.multiIter.ofLists, List.map_append, List.map_cons, List.length_append,
    List.length_cons, List.length_map, hs]
  rw [if_neg (by omega)]
  simp only [iters.Iter.Next, iters.sliceIter.Next, iters.Slice, iters.Slice] at hset ⊢
  rw [hset]

theorem Next_ofLists_skip {α : Type} (strict : Bool) (pre post : List (List α)) :
    (iters.multiIter.ofLists strict (pre ++ [] :: post) pre.length).Next
      = (iters.multiIter.ofLists strict (pre ++ post)
          (if (pre ++ post).length ≠ 0 then pre.length % (pre ++ post).length
            else pre.length)).Next := by
  have hs := getElem?_append_length (List.map (fun l => iters.Iter.slice (iters.Slice l)) pre)
    (iters.Iter.slice (iters.Slice ([] : List α)))
    (List.map (fun l => iters.Iter.slice (iters.Slice l)) post)
  have he := eraseIdx_append_length (List.map (fun l => iters.Iter.slice (iters.Slice l)) pre)
    (iters.Iter.slice (iters.Slice ([] : List α)))
    (List.map (fun l => iters.Iter.slice (iters.Slice l)) post)
  simp only [List.length_map] at hs he
  conv_lhs => unfold iters.multiIter.Next iters.multiIter.nextLoop
  simp only [iters.multiIter.ofLists, List.map_append, List.map_cons, List.length_append,
    List.length_cons, List.length_map, hs, he]
  rw [if_neg (by omega)]
  simp only [iters.Iter.Next, iters.sliceIter.Next, iters.Slice, ne_eq, not_true_eq_false,
    if_false]
  exact nextLoop_fuel _ _ (by simp only [List.length_append, List.length_map]; omega)

theorem drain_congr {α : Type} (fuel : Nat) (it it' : iters.multiIter α)
    (h : it.Next = it'.Next) : iters.drain fuel it = iters.drain fuel it' := by
  cases fuel with
  | zero => rfl
  | succ fuel => simp only [iters.drain, h]


theorem total_heads_tails {α : Type} (ls : List (List α)) :
    iters.total (iters.tails ls) + (iters.heads ls).length = iters.total ls := by
  induction ls with
  | nil => rfl
  | cons l ls ih =>
    cases l with
    | nil => simpa [iters.heads, iters.tails, total_cons] using ih
    | cons a l =>
      simp only [iters.heads, iters.tails, total_cons, List.length_cons]
      omega

theorem heads_of_total_zero {α : Type} (ls : List (List α)) (h : iters.total ls = 0) :
    iters.heads ls = [] ∧ iters.tails ls = [] := by
  induction ls with
  | nil => exact ⟨rfl, rfl⟩
  | cons l ls ih =>
    cases l with
    | nil =>
      rw [total_cons] at h
      exact ih (by simpa using h)
    | cons a l =>
      rw [total_cons] at h
      simp at h

theorem total_zero_of_heads {α : Type} (ls : List (List α)) (h : iters.heads ls = []) :
    iters.total ls = 0 := by
  induction ls with
  | nil => rfl
  | cons l ls ih =>
    cases l with
    | nil =>
      rw [total_cons]
      simpa using ih h
    | cons a l => simp [iters.heads] at h

theorem roundRobinRounds_nil {α : Type} (n : Nat) :
    iters.roundRobinRounds n ([] : List (List α)) = [] := by
  induction n with
  | zero => rfl
  | succ n ih => simpa [iters.roundRobinRounds, iters.heads, iters.tails] using ih

theorem total_tails_le {α : Type} (ls : List (List α)) (n : Nat)
    (h : iters.total ls ≤ n + 1) : iters.total (iters.tails ls) ≤ n := by
  have h1 := total_heads_tails ls
  by_cases h0 : iters.heads ls = []
  · have := total_zero_of_heads ls h0
    rw [(heads_of_total_zero ls this).2]
    simp [total_nil]
  · have : 0 < (iters.heads ls).length := List.length_pos.2 h0
    omega

/-- More rounds than the longest list has elements change nothing. -/
theorem roundRobinRounds_stable {α : Type} (n m : Nat) (ls : List (List α))
    (hn : iters.total ls ≤ n) (hm : iters.total ls ≤ m) :
    iters.roundRobinRounds n ls = iters.roundRobinRounds m ls := by
  induction n generalizing m ls with
  | zero =>
    have h0 : iters.total ls = 0 := by omega
    cases m with
    | zero => rfl
    | succ m =>
      simp only [iters.roundRobinRounds, (heads_of_total_zero ls h0).1,
        (heads_of_total_zero ls h0).2, roundRobinRounds_nil, List.append_nil]
  | succ n ih =>
    cases m with
    | zero =>
      have h0 : iters.total ls = 0 := by omega
      simp only [iters.roundRobinRounds, (heads_of_total_zero ls h0).1,
        (heads_of_total_zero ls h0).2, roundRobinRounds_nil, List.append_nil]
    | succ m =>
      simp only [iters.roundRobinRounds]
      rw [ih m (iters.tails ls) (total_tails_le ls n hn) (total_tails_le ls m hm)]

theorem roundRobin_unfold {α : Type} (ls : List (List α)) :
    iters.roundRobin ls = iters.heads ls ++ iters.roundRobin (iters.tails ls) := by
  unfold iters.roundRobin
  rw [roundRobinRounds_stable (iters.total ls) (iters.total ls + 1) ls (le_refl _)
    (Nat.le_succ _)]
  simp only [iters.roundRobinRounds]
  rw [roundRobinRounds_stable (iters.total ls) (iters.total (iters.tails ls)) (iters.tails ls)
    (total_tails_le ls _ (Nat.le_succ _)) (le_refl _)]

theorem roundRobin_nil {α : Type} : iters.roundRobin ([] : List (List α)) = [] := rfl


/-- Draining from any state of the round: the lists `pre` had their turn in
this round, the lists `post` are still to have it. -/
theorem drain_ofLists {α : Type} (strict : Bool) (m : Nat) :
    ∀ (fuel : Nat) (pre post : List (List α)),
      iters.total (pre ++ post) + (pre ++ post).length < m →
      (post ≠ [] ∨ pre = []) →
      iters.total (pre ++ post) < fuel →
      iters.drain fuel (iters.multiIter.ofLists strict (pre ++ post) pre.length)
        = (iters.heads post ++ iters.roundRobin (pre ++ iters.tails post), some .EOF) := by
  induction m with
  | zero => intro fuel pre post hm; omega
  | succ m ih =>
    intro fuel pre post hm hinv hfuel
    cases post with
    | nil =>
      have hpre : pre = [] := by
        rcases hinv with h | h
        · exact absurd rfl h
        · exact h
      subst hpre
      cases fuel with
      | zero => omega
      | succ fuel =>
        simp only [List.append_nil, List.length_nil, iters.drain, Next_ofLists_nil]
        rfl
    | cons l post =>
      cases l with
      | nil =>
        rw [drain_congr fuel _ _ (Next_ofLists_skip strict pre post)]
        simp only [total_append, total_cons, List.length_append, List.length_cons,
          List.length_nil] at hm hfuel
        cases post with
        | nil =>
          have hind : (if (pre ++ ([] : List (List α))).length ≠ 0
              then pre.length % (pre ++ ([] : List (List α))).length else pre.length) = 0 := by
            simp only [List.append_nil]
            by_cases h0 : pre.length = 0
            · simp [h0]
            · simp [h0]
          rw [hind]
          have := ih fuel [] pre
            (by simp only [List.nil_append, total_nil] at *; omega)
            (Or.inr rfl)
            (by simp only [List.nil_append, total_nil] at *; omega)
          simp only [List.nil_append, List.length_nil, List.append_nil] at this ⊢
          rw [this, ← roundRobin_unfold]
          simp only [iters.heads, iters.tails, List.nil_append, List.append_nil]
        | cons l2 post =>
          have hind : (if (pre ++ l2 :: post).length ≠ 0
              then pre.length % (pre ++ l2 :: post).length else pre.length) = pre.length := by
            have hlt : pre.length < (pre ++ l2 :: post).length := by
              simp only [List.length_append, List.length_cons]
              omega
            rw [if_pos (by omega), Nat.mod_eq_of_lt hlt]
          rw [hind]
          have := ih fuel pre (l2 :: post)
            (by simp only [total_append, total_cons, List.length_append, List.length_cons] at *
                omega)
            (Or.inl (by simp))
            (by simp only [total_append, total_cons] at *; omega)
          rw [this]
          simp only [iters.heads, iters.tails]
      | cons a t =>
        simp only [total_append, total_cons, List.length_append, List.length_cons] at hm hfuel
        cases fuel with
        | zero => omega
        | succ fuel =>
          simp only [iters.drain, Next_ofLists_ok]
          cases post with
          | nil =>
            have hind : (pre.length + 1) % (pre.length + (([] : List (List α)).length + 1))
                = 0 := by
              simp
            rw [hind]
            have := ih fuel [] (pre ++ [t])
              (by simp only [List.nil_append, total_append, total_cons, total_nil,
                    List.length_append, List.length_cons, List.length_nil] at *
                  omega)
              (Or.inr rfl)
              (by simp only [List.nil_append, total_append, total_cons, total_nil] at *
                  omega)
            simp only [List.nil_append, List.length_nil] at this
            rw [this, ← roundRobin_unfold]
            simp only [iters.heads, iters.tails, List.singleton_append]
          | cons l2 post =>
            have hind : (pre.length + 1) % (pre.length + ((l2 :: post).length + 1))
                = (pre ++ [t]).length := by
              simp only [List.length_append, List.length_cons, List.length_nil]
              exact Nat.mod_eq_of_lt (by omega)
            rw [hind]
            have := ih fuel (pre ++ [t]) (l2 :: post)
              (by simp only [total_append, total_cons, total_nil, List.length_append,
                    List.length_cons, List.length_nil] at *
                  omega)
              (Or.inl (by simp))
              (by simp only [total_append, total_cons, total_nil] at *; omega)
            simp only [List.append_assoc, List.singleton_append] at this
            rw [this]
            simp only [iters.heads, iters.tails, List.cons_append]


theorem heads_getElem? {α : Type} (ls : List (List α)) (h : ∀ l ∈ ls, l ≠ []) (i : Nat) :
    (iters.heads ls)[i]? = ls[i]?.bind fun l => l[0]? := by
  induction ls generalizing i with
  | nil => rfl
  | cons l ls ih =>
    cases l with
    | nil => exact absurd rfl (h [] (List.mem_cons_self _ _))
    | cons a l =>
      cases i with
      | zero => simp [iters.heads]
      | succ i =>
        simpa [iters.heads] using ih (fun l hl => h l (List.mem_cons_of_mem _ hl)) i

theorem heads_length {α : Type} (ls : List (List α)) (h : ∀ l ∈ ls, l ≠ []) :
    (iters.heads ls).length = ls.length := by
  induction ls with
  | nil => rfl
  | cons l ls ih =>
    cases l with
    | nil => exact absurd rfl (h [] (List.mem_cons_self _ _))
    | cons a l =>
      simpa [iters.heads] using ih (fun l hl => h l (List.mem_cons_of_mem _ hl))

theorem tails_eq_map {α : Type} (ls : List (List α)) (h : ∀ l ∈ ls, l ≠ []) :
    iters.tails ls = ls.map List.tail := by
  induction ls with
  | nil => rfl
  | cons l ls ih =>
    cases l with
    | nil => exact absurd rfl (h [] (List.mem_cons_self _ _))
    | cons a l =>
      simpa [iters.tails] using ih (fun l hl => h l (List.mem_cons_of_mem _ hl))

/-- Lists of one length: the result number `j * k + i` is `a_i[j]`. -/
theorem roundRobin_equal_length {α : Type} (n : Nat) (ls : List (List α))
    (h : ∀ l ∈ ls, l.length = n) (i j : Nat) (hi : i < ls.length) (hj : j < n) :
    (iters.roundRobin ls)[j * ls.length + i]? = ls[i]?.bind fun l => l[j]? := by
  induction n generalizing ls j with
  | zero => omega
  | succ n ih =>
    have hne : ∀ l ∈ ls, l ≠ [] := by
      intro l hl h0
      have := h l hl
      rw [h0] at this
      simp at this
    rw [roundRobin_unfold]
    cases j with
    | zero =>
      rw [Nat.zero_mul, Nat.zero_add,
        List.getElem?_append_left (by rw [heads_length ls hne]; exact hi)]
      exact heads_getElem? ls hne i
    | succ j =>
      have hidx : (j + 1) * ls.length + i = (iters.heads ls).length + (j * ls.length + i) := by
        rw [heads_length ls hne, Nat.succ_mul]
        omega
      rw [hidx, List.getElem?_append_right (Nat.le_add_right _ _), Nat.add_sub_cancel_left,
        tails_eq_map ls hne]
      have := ih (ls.map List.tail)
        (by
          intro l hl
          obtain ⟨l', hl', rfl⟩ := List.mem_map.1 hl
          rw [List.length_tail, h l' hl']
          rfl)
        j (by simpa using hi) (by omega)
      rw [List.length_map] at this
      rw [this, List.getElem?_map]
      cases ls[i]? with
      | none => rfl
      | some l =>
        cases l with
        | nil => simp
        | cons a l => simp

theorem heads_tails_perm {α : Type} (ls : List (List α)) :
    (iters.heads ls ++ (iters.tails ls).flatten).Perm ls.flatten := by
  induction ls with
  | nil => exact List.Perm.refl _
  | cons l ls ih =>
    cases l with
    | nil => simpa [iters.heads, iters.tails] using ih
    | cons a l =>
      simp only [iters.heads, iters.tails, List.flatten_cons, List.cons_append]
      exact List.Perm.cons a
        ((List.perm_append_comm_assoc _ _ _).trans (List.Perm.append_left l ih))

theorem roundRobinRounds_perm {α : Type} (n : Nat) (ls : List (List α))
    (h : iters.total ls ≤ n) : (iters.roundRobinRounds n ls).Perm ls.flatten := by
  induction n generalizing ls with
  | zero =>
    have h0 : iters.total ls = 0 := by omega
    have := heads_tails_perm ls
    rw [(heads_of_total_zero ls h0).1, (heads_of_total_zero ls h0).2] at this
    exact this
  | succ n ih =>
    simp only [iters.roundRobinRounds]
    exact (List.Perm.append_left _ (ih _ (total_tails_le ls n h))).trans (heads_tails_perm ls)

theorem mem_heads_tails {α : Type} (ls : List (List α)) (a : α) (t : List α)
    (h : a :: t ∈ ls) : a ∈ iters.heads ls ∧ t ∈ iters.tails ls := by
  induction ls with
  | nil => simp at h
  | cons l ls ih =>
    cases l with
    | nil =>
      simp only [List.mem_cons] at h
      rcases h with h | h
      · exact absurd h (by simp)
      · exact ih h
    | cons b l =>
      simp only [List.mem_cons, List.cons.injEq] at h
      simp only [iters.heads, iters.tails, List.mem_cons]
      rcases h with ⟨h1, h2⟩ | h
      · exact ⟨Or.inl h1, Or.inl h2⟩
      · exact ⟨Or.inr (ih h).1, Or.inr (ih h).2⟩

theorem roundRobinRounds_sublist {α : Type} (n : Nat) (ls : List (List α))
    (h : iters.total ls ≤ n) (l : List α) (hl : l ∈ ls) :
    l.Sublist (iters.roundRobinRounds n ls) := by
  induction n generalizing ls l with
  | zero =>
    cases l with
    | nil => exact List.nil_sublist _
    | cons a t =>
      have h0 : iters.total ls = 0 := by omega
      have := (mem_heads_tails ls a t hl).1
      rw [(heads_of_total_zero ls h0).1] at this
      simp at this
  | succ n ih =>
    cases l with
    | nil => exact List.nil_sublist _
    | cons a t =>
      obtain ⟨h1, h2⟩ := mem_heads_tails ls a t hl
      simp only [iters.roundRobinRounds]
      have hs : [a].Sublist (iters.heads ls) := List.singleton_sublist.2 h1
      exact hs.append (ih _ (total_tails_le ls n h) t h2)

theorem total_eq_length_flatten {α : Type} (ls : List (List α)) :
    ls.flatten.length = iters.total ls := by
  induction ls with
  | nil => rfl
  | cons l ls ih => simp [total_cons, ih]

/-- C20: for all lists, draining `MultiIter(strict, Slice(a_1), ..., Slice(a_k))`
with enough calls of `Next` ends with `io.EOF` after exactly the round robin of
the lists: a round takes one element from each list that still has one, in the
order of the lists. The result has every element of every list once (it is a
permutation of the concatenation, of length the sum of the lengths) and keeps
each list in its order (each list is a sublist of it); for `k` lists of one
length the result number `j * k + i` is `a_i[j]`. -/
theorem MultiIter_round_robin {α : Type} (strict : Bool) (lists : List (List α)) (fuel : Nat)
    (h : iters.total lists < fuel) :
    iters.drain fuel (iters.MultiIter strict (lists.map fun l => iters.Iter.slice (iters.Slice l)))
        = (iters.roundRobin lists, some .EOF)
      ∧ iters.roundRobin lists = iters.heads lists ++ iters.roundRobin (iters.tails lists)
      ∧ (iters.roundRobin lists).Perm lists.flatten
      ∧ (iters.roundRobin lists).length = iters.total lists
      ∧ (∀ l ∈ lists, l.Sublist (iters.roundRobin lists))
      ∧ ∀ n, (∀ l ∈ lists, l.length = n) → ∀ i j, i < lists.length → j < n →
          (iters.roundRobin lists)[j * lists.length + i]? = lists[i]?.bind fun l => l[j]? := by
  refine ⟨?_, roundRobin_unfold lists, roundRobinRounds_perm _ lists (le_refl _), ?_,
    fun l hl => roundRobinRounds_sublist _ lists (le_refl _) l hl,
    fun n hn i j hi hj => roundRobin_equal_length n lists hn i j hi hj⟩
  · have := drain_ofLists strict (iters.total lists + lists.length + 1) fuel [] lists
      (by simp only [List.nil_append]; omega)
      (Or.inr rfl) (by simpa only [List.nil_append] using h)
    simp only [List.nil_append, List.length_nil] at this
    rw [← roundRobin_unfold] at this
    exact this
  · rw [← total_eq_length_flatten]
    exact (roundRobinRounds_perm _ lists (le_refl _)).length_eq

/-- C20 for the lists [1, 2, 3], [4], [5, 6] and for three lists of two
elements: seven calls of `Next` give 1, 4, 5, 2, 6, 3 and 1, 3, 5, 2, 4, 6,
then `io.EOF`. -/
theorem MultiIter_round_robin_witness :
    iters.total [[1, 2, 3], [4], [5, 6]] < 7
      ∧ iters.drain 7 (iters.MultiIter false
          ([[1, 2, 3], [4], [5, 6]].map fun l => iters.Iter.slice (iters.Slice l)))
        = ([1, 4, 5, 2, 6, 3], some .EOF)
      ∧ iters.roundRobin [[1, 2, 3], [4], [5, 6]] = [1, 4, 5, 2, 6, 3]
      ∧ iters.drain 7 (iters.MultiIter true
          ([[1, 2], [3, 4], [5, 6]].map fun l => iters.Iter.slice (iters.Slice l)))
        = ([1, 3, 5, 2, 4, 6], some .EOF) :=
  ⟨by decide,
    (MultiIter_round_robin false [[1, 2, 3], [4], [5, 6]] 7 (by decide)).1.trans (by decide),
    by decide,
    (MultiIter_round_robin true [[1, 2], [3, 4], [5, 6]] 7 (by decide)).1.trans (by decide)⟩


/-! ## The encoder arguments -/

/-- C25, with conversion enabled and the pre-input setting left empty:
`strings.Split("", " ")` is the one-element list of the empty string, so the
encoder is started with an empty first argument before "-i"; with both settings
empty there is a second one before the output path, and a doubled space in a
setting gives one in the middle. -/
theorem encoder_arguments_empty_setting :
    ffmpegArgs { sampleConfig with PreInput := "" } samplePostEnv (sampleReq .START_RECORDING)
        "/data/recordings/room1" "raw.mkv"
      = ["", "-i", "/data/recordings/room1/raw.mkv", "-c", "copy",
          "/data/recordings/room1/rec.mp4"] ∧
    commands (finalizeFile { sampleConfig with PreInput := "" } samplePostEnv init.ctl
        sampleRawFiles (sampleReq .START_RECORDING) "/data/recordings/room1" "raw.mkv").1.calls
      = [("ffmpeg", ["", "-i", "/data/recordings/room1/raw.mkv", "-c", "copy",
          "/data/recordings/room1/rec.mp4"])] ∧
    ffmpegArgs { sampleConfig with PreInput := "", PostInput := "" } samplePostEnv
        (sampleReq .START_RECORDING) "/data/recordings/room1" "raw.mkv"
      = ["", "-i", "/data/recordings/room1/raw.mkv", "", "/data/recordings/room1/rec.mp4"] ∧
    ffmpegArgs { sampleConfig with PreInput := "-y  -nostdin" } samplePostEnv
        (sampleReq .START_RECORDING) "/data/recordings/room1" "raw.mkv"
      = ["-y", "", "-nostdin", "-i", "/data/recordings/room1/raw.mkv", "-c", "copy",
          "/data/recordings/room1/rec.mp4"] := by
  decide


/-! ## The frame of a stop -/

theorem stopOne_foldl_closeRequests (num : RecordingTasks → Int) (tableId : Int)
    (c0 : RecorderController) (tasks : List RecordingTasks) (st : Bool × RecorderController)
    (hreg : ∀ k, st.2.recordersInProgress k = none ∨
      st.2.recordersInProgress k = c0.recordersInProgress k) :
    ∃ closes, closeRequests (tasks.foldl (stopOne num tableId) st).2.calls =
        closeRequests st.2.calls ++ closes ∧
      ∀ x ∈ closes, ∃ t ∈ tasks,
        c0.recordersInProgress (recorderId num tableId t) = some (.recorder x.1) := by
  induction tasks generalizing st with
  | nil => exact ⟨[], by simp, by simp⟩
  | cons t ts ih =>
    have hreg2 : ∀ k, (stopOne num tableId st t).2.recordersInProgress k = none ∨
        (stopOne num tableId st t).2.recordersInProgress k = c0.recordersInProgress k := by
      intro k
      rw [stopOne_registry]
      by_cases hk : k = recorderId num tableId t
      · exact Or.inl (by simp [hk])
      · simpa [hk] using hreg k
    obtain ⟨closes, h1, h2⟩ := ih (stopOne num tableId st t) hreg2
    refine ⟨((Stored.handle (st.2.recordersInProgress (recorderId num tableId t))).map
      (fun r => (r, (none : Option String)))).toList ++ closes, ?_, ?_⟩
    · rw [List.foldl_cons, h1, stopOne_closeRequests, List.append_assoc]
    · intro x hx
      rcases List.mem_append.1 hx with hx | hx
      · refine ⟨t, by simp, ?_⟩
        rcases hreg (recorderId num tableId t) with h | h
        · simp [h, Stored.handle] at hx
        · rw [h] at hx
          cases hc : c0.recordersInProgress (recorderId num tableId t) with
          | none => simp [hc, Stored.handle] at hx
          | some v =>
            cases v with
            | recorder r =>
              simp only [hc, Stored.handle, Option.map_some', Option.toList_some,
                List.mem_singleton] at hx
              rw [hx]
            | nilRecorder => simp [hc, Stored.handle] at hx
            | foreign => simp [hc, Stored.handle] at hx
      · obtain ⟨t', ht', h⟩ := h2 x hx
        exact ⟨t', by simp [ht'], h⟩

/-- C26: a stop request for room `r` leaves every registry entry whose key is
not the key of `r` and a kind the request targets as it was: entries of other
rooms, the StartRTMP entry of the room under StopRecording and its
StartRecording entry under StopRTMP (for kinds with different wire numbers).
Every `Close` the call issues is on a handle it found under a targeted key, so
none is issued on the handle of another entry, unless that very handle is also
stored under a targeted key; in a registry that keeps each handle under the key
of its own request no handle is. -/
theorem handleStopTask_touches_only_targets (num : RecordingTasks → Int)
    (c : RecorderController) (req : WeMeetToRecorder) (k : String)
    (hk : ∀ t ∈ tasksToCheck req.Task, k ≠ recorderId num req.RoomTableId t) :
    (handleStopTask num c req).2.recordersInProgress k = c.recordersInProgress k ∧
    (∀ r t, r ≠ req.RoomTableId →
      (handleStopTask num c req).2.recordersInProgress (recorderId num r t) =
        c.recordersInProgress (recorderId num r t)) ∧
    (req.Task = .STOP_RECORDING → num .START_RTMP ≠ num .START_RECORDING →
      (handleStopTask num c req).2.recordersInProgress
          (recorderId num req.RoomTableId .START_RTMP) =
        c.recordersInProgress (recorderId num req.RoomTableId .START_RTMP)) ∧
    (req.Task = .STOP_RTMP → num .START_RECORDING ≠ num .START_RTMP →
      (handleStopTask num c req).2.recordersInProgress
          (recorderId num req.RoomTableId .START_RECORDING) =
        c.recordersInProgress (recorderId num req.RoomTableId .START_RECORDING)) ∧
    ∃ closes, closeRequests (handleStopTask num c req).2.calls =
        closeRequests c.calls ++ closes ∧
      (∀ x ∈ closes, ∃ t ∈ tasksToCheck req.Task,
        c.recordersInProgress (recorderId num req.RoomTableId t) = some (.recorder x.1)) ∧
      (∀ r, c.recordersInProgress k = some (.recorder r) →
        (∀ t ∈ tasksToCheck req.Task,
          c.recordersInProgress (recorderId num req.RoomTableId t) ≠ some (.recorder r)) →
        ∀ e, (r, e) ∉ closes) ∧
      ((∀ k1 r1, c.recordersInProgress k1 = some (.recorder r1) → r1.key num = k1) →
        ∀ r, c.recordersInProgress k = some (.recorder r) → ∀ e, (r, e) ∉ closes) := by
  have hframe : ∀ k1, (∀ t ∈ tasksToCheck req.Task, k1 ≠ recorderId num req.RoomTableId t) →
      (handleStopTask num c req).2.recordersInProgress k1 = c.recordersInProgress k1 := by
    intro k1 h1
    rw [handleStopTask_registry, if_neg]
    intro hmem
    obtain ⟨t, ht, hkt⟩ := List.mem_map.1 hmem
    exact h1 t ht hkt.symm
  obtain ⟨closes, h1, h2⟩ := stopOne_foldl_closeRequests num req.RoomTableId c
    (tasksToCheck req.Task) (false, c) (fun _ => Or.inr rfl)
  have hnot : ∀ r, (∀ t ∈ tasksToCheck req.Task,
      c.recordersInProgress (recorderId num req.RoomTableId t) ≠ some (.recorder r)) →
      ∀ e, (r, e) ∉ closes := by
    intro r hr e hmem
    obtain ⟨t, ht, h⟩ := h2 (r, e) hmem
    exact hr t ht h
  refine ⟨hframe k hk, ?_, ?_, ?_, closes, h1, h2, fun r _ hr => hnot r hr, ?_⟩
  · intro r t hr
    apply hframe
    intro t' _ heq
    exact hr ((registryKey_injective r (num t) req.RoomTableId (num t')).1 heq).1
  · intro hT hnum
    apply hframe
    intro t' ht' heq
    rw [hT] at ht'
    simp only [tasksToCheck, List.mem_singleton] at ht'
    subst ht'
    exact hnum ((registryKey_injective _ _ _ _).1 heq).2
  · intro hT hnum
    apply hframe
    intro t' ht' heq
    rw [hT] at ht'
    simp only [tasksToCheck, List.mem_singleton] at ht'
    subst ht'
    exact hnum ((registryKey_injective _ _ _ _).1 heq).2
  · intro hkeyed r hr
    apply hnot
    intro t ht h
    exact hk t ht ((hkeyed _ _ hr).symm.trans (hkeyed _ _ h))

/-- C26 at room 42 with both jobs active: StopRecording leaves the StartRTMP
entry "42-2" with its handle and closes only the recording job. -/
theorem handleStopTask_touches_only_targets_witness :
    (∀ t ∈ tasksToCheck (sampleReq .STOP_RECORDING).Task,
      "42-2" ≠ recorderId sampleNum (sampleReq .STOP_RECORDING).RoomTableId t) ∧
    (handleStopTask sampleNum bothActive (sampleReq .STOP_RECORDING)).2.recordersInProgress "42-2"
      = some (.recorder ⟨1, sampleReq .START_RTMP⟩) ∧
    closeRequests (handleStopTask sampleNum bothActive (sampleReq .STOP_RECORDING)).2.calls
      = closeRequests bothActive.calls ++ [(⟨0, sampleReq .START_RECORDING⟩, none)] :=
  ⟨by decide,
    (handleStopTask_touches_only_targets sampleNum bothActive (sampleReq .STOP_RECORDING) "42-2"
      (by decide)).1.trans (by decide),
    by decide⟩


/-! ## Limit -/

theorem drain_slice {α : Type} (s : List α) (fuel : Nat) (h : s.length < fuel) :
    iters.Iter.drain fuel (.slice (iters.Slice s)) = ((s, some .EOF), .slice (iters.Slice [])) := by
  induction s generalizing fuel with
  | nil =>
    cases fuel with
    | zero => simp at h
    | succ fuel => rfl
  | cons a s ih =>
    cases fuel with
    | zero => simp at h
    | succ fuel =>
      have := ih fuel (by simpa using h)
      simp only [iters.Slice] at this
      simp only [iters.Iter.drain, iters.Iter.Next, iters.sliceIter.Next, iters.Slice, this]

theorem drain_counted_slice {α : Type} (s : List α) (c fuel : Nat) (h : s.length < fuel) :
    iters.Iter.drain fuel (.counted c (.slice (iters.Slice s)))
      = ((s, some .EOF), .counted (c + s.length + 1) (.slice (iters.Slice []))) := by
  induction s generalizing fuel c with
  | nil =>
    cases fuel with
    | zero => simp at h
    | succ fuel => rfl
  | cons a s ih =>
    cases fuel with
    | zero => simp at h
    | succ fuel =>
      have := ih (c + 1) fuel (by simpa using h)
      simp only [iters.Slice] at this
      simp only [iters.Iter.drain, iters.Iter.Next, iters.sliceIter.Next, iters.Slice, this,
        List.length_cons]
      have e : c + 1 + s.length + 1 = c + (s.length + 1) + 1 := by omega
      rw [e]

theorem drain_limitIter_slice {α : Type} (s : List α) (k fuel : Nat) (h : s.length < fuel) :
    (iters.Iter.drain fuel (.limitIter (.slice (iters.Slice s)) (k : Int))).1
      = (s.take k, some .EOF) := by
  induction s generalizing fuel k with
  | nil =>
    cases fuel with
    | zero => simp at h
    | succ fuel =>
      cases k with
      | zero => rfl
      | succ k =>
        simp only [iters.Iter.drain, iters.Iter.Next, iters.sliceIter.Next, iters.Slice]
        rw [if_neg (by omega)]
        rfl
  | cons a s ih =>
    cases fuel with
    | zero => simp at h
    | succ fuel =>
      cases k with
      | zero => rfl
      | succ k =>
        have := ih k fuel (by simpa using h)
        simp only [iters.Slice] at this
        simp only [iters.Iter.drain, iters.Iter.Next, iters.sliceIter.Next, iters.Slice]
        rw [if_neg (by omega)]
        have e : ((k + 1 : Nat) : Int) - 1 = (k : Int) := by omega
        simp only [e, this, List.take_succ_cons]

theorem drain_limitIter_counted {α : Type} (s : List α) (k c fuel : Nat) (h : s.length < fuel) :
    (iters.Iter.drain fuel (.limitIter (.counted c (.slice (iters.Slice s))) (k : Int))).1
        = (s.take k, some .EOF) ∧
      (iters.Iter.drain fuel
          (.limitIter (.counted c (.slice (iters.Slice s))) (k : Int))).2.callsSeen
        = c + min k (s.length + 1) := by
  induction s generalizing fuel k c with
  | nil =>
    cases fuel with
    | zero => simp at h
    | succ fuel =>
      cases k with
      | zero => exact ⟨rfl, rfl⟩
      | succ k =>
        simp only [iters.Iter.drain, iters.Iter.Next, iters.sliceIter.Next, iters.Slice]
        rw [if_neg (by omega)]
        refine ⟨rfl, ?_⟩
        simp [iters.Iter.callsSeen]
  | cons a s ih =>
    cases fuel with
    | zero => simp at h
    | succ fuel =>
      cases k with
      | zero => exact ⟨rfl, rfl⟩
      | succ k =>
        have := ih k (c + 1) fuel (by simpa using h)
        simp only [iters.Slice] at this
        simp only [iters.Iter.drain, iters.Iter.Next, iters.sliceIter.Next, iters.Slice]
        rw [if_neg (by omega)]
        have e : ((k + 1 : Nat) : Int) - 1 = (k : Int) := by omega
        simp only [e, this, List.take_succ_cons, List.length_cons, true_and]
        omega

/-- Whatever the iterator below and however often `Next` is called, a `limitIter`
hands on no more calls than its limit. -/
theorem limitIter_calls {α : Type} (m : Nat) (u : iters.Iter α) (c : Nat) (l : Int)
    (hl : 0 ≤ l) :
    ((fun it => (iters.Iter.Next it).2)^[m] (.limitIter (.counted c u) l)).callsSeen
      ≤ c + l.toNat := by
  induction m generalizing u c l with
  | zero => simp [iters.Iter.callsSeen]
  | succ m ih =>
    rw [Function.iterate_succ_apply]
    by_cases h0 : l ≤ 0
    · have : (iters.Iter.Next (.limitIter (.counted c u) l)).2 = .limitIter (.counted c u) l := by
        simp only [iters.Iter.Next, if_pos h0]
      rw [this]
      exact ih u c l hl
    · have : (iters.Iter.Next (.limitIter (.counted c u) l)).2
          = .limitIter (.counted (c + 1) (iters.Iter.Next u).2) (l - 1) := by
        simp only [iters.Iter.Next, if_neg h0]
      rw [this]
      have := ih (iters.Iter.Next u).2 (c + 1) (l - 1) (by omega)
      omega

/-- C24: draining `Limit(Slice(s), n)` gives the first `n` elements of `s` in
order, all of them when `s` has fewer (that is `min n (len s)` elements), for
`n ≥ 0`, and all of `s` for `n < 0`, then `io.EOF`. With a counter on the
iterator below: the drain makes `min n (len s + 1)` calls of its `Next` for
`n ≥ 0`, none for `n = 0`; and whatever iterator is below and however often
`Next` of the limit iterator is called, the iterator below sees no more than
`n` calls. -/
theorem Limit_bounds_results {α : Type} (s : List α) (n : Int) (fuel : Nat)
    (h : s.length < fuel) :
    (iters.Iter.drain fuel (iters.Limit (.slice (iters.Slice s)) n)).1
        = (if n < 0 then s else s.take n.toNat, some .EOF) ∧
    (iters.Iter.drain fuel (iters.Limit (.counted 0 (.slice (iters.Slice s))) n)).1
        = (if n < 0 then s else s.take n.toNat, some .EOF) ∧
    (0 ≤ n → (s.take n.toNat).length = min n.toNat s.length) ∧
    (0 ≤ n →
      (iters.Iter.drain fuel
          (iters.Limit (.counted 0 (.slice (iters.Slice s))) n)).2.callsSeen
        = min n.toNat (s.length + 1)) ∧
    (n = 0 →
      (iters.Iter.drain fuel (iters.Limit (.counted 0 (.slice (iters.Slice s))) n))
        = (([], some .EOF), .limitIter (.counted 0 (.slice (iters.Slice s))) 0)) ∧
    (0 ≤ n → ∀ (u : iters.Iter α) (m : Nat),
      ((fun it => (iters.Iter.Next it).2)^[m] (iters.Limit (.counted 0 u) n)).callsSeen
        ≤ n.toNat) := by
  by_cases hn : n < 0
  · have h0 : ¬ 0 ≤ n := by omega
    have h1 : n ≠ 0 := by omega
    simp only [iters.Limit, hn, if_true, drain_slice s fuel h, drain_counted_slice s 0 fuel h,
      h0, h1, false_implies, and_self]
  · have hk : n = ((n.toNat : Nat) : Int) := by omega
    have hlim : ∀ u : iters.Iter α, iters.Limit u n = .limitIter u ((n.toNat : Nat) : Int) := by
      intro u
      simp only [iters.Limit, if_neg hn]
      rw [← hk]
    refine ⟨?_, ?_, ?_, ?_, ?_, ?_⟩
    · rw [hlim, if_neg hn]
      exact drain_limitIter_slice s n.toNat fuel h
    · rw [hlim, if_neg hn]
      exact (drain_limitIter_counted s n.toNat 0 fuel h).1
    · intro _
      exact List.length_take _ _
    · intro _
      rw [hlim, (drain_limitIter_counted s n.toNat 0 fuel h).2, Nat.zero_add]
    · intro h0
      subst h0
      cases fuel with
      | zero => omega
      | succ fuel => rfl
    · intro h0 u m
      rw [hlim]
      have := limitIter_calls m u 0 ((n.toNat : Nat) : Int) (by omega)
      rw [Int.toNat_ofNat, Nat.zero_add] at this
      exact this

/-- C24 for the list 1, 2, 3: limit 2 gives 1, 2 with two calls below, limit 7
gives all three with four calls, limit 0 gives nothing without a call, and
limit -1 gives all three. -/
theorem Limit_bounds_results_witness :
    [1, 2, 3].length < 5 ∧
    (iters.Iter.drain 5 (iters.Limit (.slice (iters.Slice [1, 2, 3])) 2)).1
      = ([1, 2], some .EOF) ∧
    (iters.Iter.drain 5 (iters.Limit (.counted 0 (.slice (iters.Slice [1, 2, 3]))) 2)).2.callsSeen
      = 2 ∧
    (iters.Iter.drain 5 (iters.Limit (.counted 0 (.slice (iters.Slice [1, 2, 3]))) 7)).1
      = ([1, 2, 3], some .EOF) ∧
    (iters.Iter.drain 5 (iters.Limit (.counted 0 (.slice (iters.Slice [1, 2, 3]))) 7)).2.callsSeen
      = 4 ∧
    (iters.Iter.drain 5 (iters.Limit (.counted 0 (.slice (iters.Slice [1, 2, 3]))) 0)).2.callsSeen
      = 0 ∧
    (iters.Iter.drain 5 (iters.Limit (.slice (iters.Slice [1, 2, 3])) (-1))).1
      = ([1, 2, 3], some .EOF) :=
  ⟨by decide,
    (Limit_bounds_results [1, 2, 3] 2 5 (by decide)).1.trans (by decide),
    by decide, by decide, by decide, by decide, by decide⟩


/-! ## Join -/

theorem joinIter_Next_nil {α : Type} :
    (iters.Join ([] : List (iters.Iter α))).Next = (.error .EOF, iters.Join []) := rfl

theorem joinIter_Next_slice_cons {α : Type} (a : α) (l : List α) (rest : List (iters.Iter α)) :
    (iters.Join (.slice (iters.Slice (a :: l)) :: rest)).Next
      = (.ok a, iters.Join (.slice (iters.Slice l) :: rest)) := rfl

theorem joinIter_Next_slice_nil {α : Type} (rest : List (iters.Iter α)) :
    (iters.Join (.slice (iters.Slice ([] : List α)) :: rest)).Next = (iters.Join rest).Next := rfl

theorem joinIter_Next_scripted_ok {α : Type} (a : α) (rs : List (Except iters.IterError α))
    (rest : List (iters.Iter α)) :
    (iters.Join (.scripted (.ok a :: rs) :: rest)).Next
      = (.ok a, iters.Join (.scripted rs :: rest)) := rfl

theorem joinIter_Next_scripted_error {α : Type} (e : iters.IterError) (he : e ≠ .EOF)
    (rs : List (Except iters.IterError α)) (rest : List (iters.Iter α)) :
    (iters.Join (.scripted (.error e :: rs) :: rest)).Next
      = (.error e, iters.Join (.scripted [] :: rest)) := by
  simp only [iters.joinIter.Next, iters.joinIter.nextLoop, iters.Join, iters.Iter.Next,
    if_pos he, iters.Iter.Close]

theorem joinIter_drain_congr {α : Type} (fuel : Nat) (it it' : iters.joinIter α)
    (h : it.Next = it'.Next) : iters.joinIter.drain fuel it = iters.joinIter.drain fuel it' := by
  cases fuel with
  | zero => rfl
  | succ fuel => simp only [iters.joinIter.drain, h]

theorem joinIter_drain_ok {α : Type} (fuel : Nat) (it it' : iters.joinIter α) (v : α)
    (h : it.Next = (.ok v, it')) :
    iters.joinIter.drain (fuel + 1) it
      = (v :: (iters.joinIter.drain fuel it').1, (iters.joinIter.drain fuel it').2) := by
  simp only [iters.joinIter.drain, h]

theorem joinIter_drain_slice {α : Type} (l : List α) (rest : List (iters.Iter α)) (fuel : Nat) :
    iters.joinIter.drain (l.length + fuel) (iters.Join (.slice (iters.Slice l) :: rest))
      = (l ++ (iters.joinIter.drain fuel (iters.Join rest)).1,
          (iters.joinIter.drain fuel (iters.Join rest)).2) := by
  induction l with
  | nil =>
    rw [joinIter_drain_congr _ _ _ (joinIter_Next_slice_nil rest)]
    simp
  | cons a l ih =>
    have e : (a :: l).length + fuel = (l.length + fuel) + 1 := by
      simp only [List.length_cons]; omega
    rw [e, joinIter_drain_ok _ _ _ _ (joinIter_Next_slice_cons a l rest), ih]
    rfl

theorem joinIter_drain_slices {α : Type} (lists : List (List α)) (rest : List (iters.Iter α))
    (fuel : Nat) :
    iters.joinIter.drain (iters.total lists + fuel)
        (iters.Join (lists.map (fun l => iters.Iter.slice (iters.Slice l)) ++ rest))
      = (lists.flatten ++ (iters.joinIter.drain fuel (iters.Join rest)).1,
          (iters.joinIter.drain fuel (iters.Join rest)).2) := by
  induction lists with
  | nil => simp [total_nil]
  | cons l lists ih =>
    have e : iters.total (l :: lists) + fuel = l.length + (iters.total lists + fuel) := by
      rw [total_cons]; omega
    rw [e, List.map_cons, List.cons_append, joinIter_drain_slice, ih]
    simp

theorem joinIter_drain_scripted {α : Type} (items : List α) (e : iters.IterError)
    (he : e ≠ .EOF) (more : List (Except iters.IterError α)) (rest : List (iters.Iter α))
    (fuel : Nat) :
    iters.joinIter.drain (items.length + (fuel + 1))
        (iters.Join (.scripted (items.map .ok ++ .error e :: more) :: rest))
      = (items, some e) := by
  induction items with
  | nil =>
    simp only [List.length_nil, Nat.zero_add, List.map_nil, List.nil_append, iters.joinIter.drain,
      joinIter_Next_scripted_error e he]
  | cons a items ih =>
    have h : (a :: items).length + (fuel + 1) = (items.length + (fuel + 1)) + 1 := by
      simp only [List.length_cons]; omega
    rw [h, List.map_cons, List.cons_append,
      joinIter_drain_ok _ _ _ _ (joinIter_Next_scripted_ok a _ rest), ih]

/-- C23: draining `Join(Slice(a_1), ..., Slice(a_k))` gives `a_1 ++ ... ++ a_k`
and then `io.EOF`; and when after these slices comes a sub-iterator that
returns the items `items` and then fails with an error other than `io.EOF`,
the drain gives `a_1 ++ ... ++ a_k ++ items` and then that error, whatever the
failing iterator would return later and whatever sub-iterators follow it. -/
theorem Join_lists_in_order {α : Type} (lists : List (List α)) (fuel : Nat)
    (h : iters.total lists < fuel) :
    iters.joinIter.drain fuel (iters.Join (lists.map fun l => iters.Iter.slice (iters.Slice l)))
        = (lists.flatten, some .EOF) ∧
    lists.flatten.length = iters.total lists ∧
    ∀ (items : List α) (e : iters.IterError) (more : List (Except iters.IterError α))
      (rest : List (iters.Iter α)) (fuel2 : Nat),
      e ≠ .EOF → iters.total lists + items.length < fuel2 →
      iters.joinIter.drain fuel2
          (iters.Join ((lists.map fun l => iters.Iter.slice (iters.Slice l)) ++
            .scripted (items.map .ok ++ .error e :: more) :: rest))
        = (lists.flatten ++ items, some e) := by
  refine ⟨?_, total_eq_length_flatten lists, ?_⟩
  · obtain ⟨f, rfl⟩ : ∃ f, fuel = iters.total lists + (f + 1) := ⟨fuel - iters.total lists - 1, by omega⟩
    have := joinIter_drain_slices lists [] (f + 1)
    rw [List.append_nil] at this
    rw [this]
    simp only [iters.joinIter.drain, joinIter_Next_nil, List.append_nil]
  · intro items e more rest fuel2 he hf
    obtain ⟨f, rfl⟩ : ∃ f, fuel2 = iters.total lists + (items.length + (f + 1)) :=
      ⟨fuel2 - iters.total lists - items.length - 1, by omega⟩
    rw [joinIter_drain_slices, joinIter_drain_scripted items e he more rest f]

/-- C23 for the lists [1, 2], [], [3], alone and followed by an iterator that
returns 4 and then fails: the drains give 1, 2, 3 with `io.EOF` and 1, 2, 3, 4
with the failure. -/
theorem Join_lists_in_order_witness :
    iters.total [[1, 2], [], [3]] < 9 ∧
    iters.joinIter.drain 9
        (iters.Join ([[1, 2], [], [3]].map fun l => iters.Iter.slice (iters.Slice l)))
      = ([1, 2, 3], some .EOF) ∧
    iters.joinIter.drain 9
        (iters.Join (([[1, 2], [], [3]].map fun l => iters.Iter.slice (iters.Slice l)) ++
          [.scripted [.ok 4, .error (.failure "boom"), .ok 5], .slice (iters.Slice [6])]))
      = ([1, 2, 3, 4], some (.failure "boom")) :=
  ⟨by decide,
    (Join_lists_in_order [[1, 2], [], [3]] 9 (by decide)).1.trans (by decide),
    by decide⟩


/-! ## IterWithPage -/

theorem fill_ofList {α : Type} (cap : Nat) (rest : List α) :
    ∀ (buf : List α) (k : Nat), buf.length ≤ cap → cap - buf.length < k → buf ++ rest ≠ [] →
      iters.pageIter.fill k (iters.pageIter.ofList cap rest buf none)
        = (.ok (buf ++ rest.take (cap - buf.length)),
            iters.pageIter.ofList cap (rest.drop (cap - buf.length))
              (buf ++ rest.take (cap - buf.length))
              (if rest.length < cap - buf.length then some .EOF else none)) := by
  induction rest with
  | nil =>
    intro buf k hle hk hne
    cases k with
    | zero => omega
    | succ k =>
      have hbuf : buf.length ≠ 0 := by
        intro h0
        exact hne (by simpa using List.length_eq_zero.1 h0)
      by_cases h : buf.length < cap
      · have h2 : 0 < cap - buf.length := by omega
        simp only [iters.pageIter.fill, iters.pageIter.ofList, h, if_true, iters.Iter.Next,
          iters.sliceIter.Next, iters.Slice, ne_eq, hbuf, not_false_eq_true, List.take_nil,
          List.append_nil, List.drop_nil, List.length_nil, h2]
      · have h2 : ¬ 0 < cap - buf.length := by omega
        simp only [iters.pageIter.fill, iters.pageIter.ofList, h, if_false, List.take_nil,
          List.append_nil, List.drop_nil, List.length_nil, h2]
  | cons a t ih =>
    intro buf k hle hk hne
    cases k with
    | zero => omega
    | succ k =>
      by_cases h : buf.length < cap
      · obtain ⟨m, hm⟩ : ∃ m, cap - buf.length = m + 1 := ⟨cap - buf.length - 1, by omega⟩
        have := ih (buf ++ [a]) k (by simp only [List.length_append, List.length_singleton]; omega)
          (by simp only [List.length_append, List.length_singleton]; omega) (by simp)
        have hm2 : cap - (buf ++ [a]).length = m := by
          simp only [List.length_append, List.length_singleton]; omega
        rw [hm2] at this
        simp only [iters.pageIter.ofList, iters.Slice] at this
        simp only [iters.pageIter.fill, iters.pageIter.ofList, h, if_true, iters.Iter.Next,
          iters.sliceIter.Next, iters.Slice, this, hm, List.take_succ_cons, List.drop_succ_cons,
          List.length_cons, List.append_assoc, List.singleton_append, Nat.add_lt_add_iff_right]
      · have h2 : cap - buf.length = 0 := by omega
        simp only [iters.pageIter.fill, iters.pageIter.ofList, h, if_false, h2, List.take_zero,
          List.append_nil, List.drop_zero, Nat.not_lt_zero]

theorem NextPage_ofList_cons {α : Type} (cap : Nat) (rest buf : List α)
    (hrest : rest ≠ []) :
    (iters.pageIter.ofList cap rest buf none).NextPage
      = (.ok (rest.take cap), iters.pageIter.ofList cap (rest.drop cap) (rest.take cap)
          (if rest.length < cap then some .EOF else none)) := by
  have := fill_ofList cap rest [] (cap + 1) (Nat.zero_le _) (by simp) (by simpa using hrest)
  simp only [List.length_nil, Nat.sub_zero, List.nil_append] at this
  simpa only [iters.pageIter.NextPage, iters.pageIter.ofList] using this

theorem NextPage_ofList_nil {α : Type} (cap : Nat) (hcap : 0 < cap) (buf : List α) :
    (iters.pageIter.ofList cap ([] : List α) buf none).NextPage
      = (.error .EOF, iters.pageIter.ofList cap [] [] none) := by
  simp only [iters.pageIter.NextPage, iters.pageIter.ofList, iters.pageIter.fill,
    List.length_nil, hcap, if_true, iters.Iter.Next, iters.sliceIter.Next, iters.Slice, ne_eq,
    not_true_eq_false, if_false]

theorem NextPage_ofList_err {α : Type} (cap : Nat) (rest buf : List α) (e : iters.IterError) :
    (iters.pageIter.ofList cap rest buf (some e)).NextPage
      = (.error e, iters.pageIter.ofList cap rest [] (some e)) := rfl

theorem chunksRounds_nil {α : Type} (k n : Nat) :
    iters.chunksRounds k n ([] : List α) = [] := by
  cases k <;> rfl

theorem chunksRounds_cons {α : Type} (k n : Nat) (s : List α) (hs : s ≠ []) :
    iters.chunksRounds (k + 1) n s = s.take n :: iters.chunksRounds k n (s.drop n) := by
  cases s with
  | nil => exact absurd rfl hs
  | cons a s => rfl

theorem chunksRounds_stable {α : Type} (n : Nat) (hn : 0 < n) (k k2 : Nat) :
    ∀ s : List α, s.length ≤ k → s.length ≤ k2 →
      iters.chunksRounds k n s = iters.chunksRounds k2 n s := by
  induction k generalizing k2 with
  | zero =>
    intro s h1 _
    have : s = [] := List.length_eq_zero.1 (by omega)
    subst this
    rw [chunksRounds_nil, chunksRounds_nil]
  | succ k ih =>
    intro s h1 h2
    cases s with
    | nil => rw [chunksRounds_nil, chunksRounds_nil]
    | cons a s =>
      cases k2 with
      | zero => simp at h2
      | succ k2 =>
        rw [chunksRounds_cons _ _ _ (by simp), chunksRounds_cons _ _ _ (by simp)]
        have hd : ((a :: s).drop n).length ≤ s.length := by
          rw [List.length_drop, List.length_cons]; omega
        rw [ih k2 _ (by simp only [List.length_cons] at h1; omega)
          (by simp only [List.length_cons] at h2; omega)]

theorem chunks_cons {α : Type} (n : Nat) (hn : 0 < n) (s : List α) (hs : s ≠ []) :
    iters.chunks n s = s.take n :: iters.chunks n (s.drop n) := by
  unfold iters.chunks
  have hpos : 0 < s.length := List.length_pos.2 hs
  obtain ⟨k, hk⟩ : ∃ k, s.length = k + 1 := ⟨s.length - 1, by omega⟩
  rw [hk, chunksRounds_cons _ _ _ hs]
  rw [chunksRounds_stable n hn k (s.drop n).length (s.drop n)
    (by rw [List.length_drop]; omega) (le_refl _)]

theorem chunksRounds_flatten {α : Type} (n : Nat) (hn : 0 < n) (k : Nat) :
    ∀ s : List α, s.length ≤ k → (iters.chunksRounds k n s).flatten = s := by
  induction k with
  | zero =>
    intro s h
    have : s = [] := List.length_eq_zero.1 (by omega)
    subst this
    rfl
  | succ k ih =>
    intro s h
    cases s with
    | nil => rfl
    | cons a s =>
      rw [chunksRounds_cons _ _ _ (by simp), List.flatten_cons,
        ih _ (by rw [List.length_drop, List.length_cons]; simp only [List.length_cons] at h; omega),
        List.take_append_drop]

theorem chunksRounds_mem {α : Type} (n : Nat) (hn : 0 < n) (k : Nat) :
    ∀ (s p : List α), p ∈ iters.chunksRounds k n s → p ≠ [] ∧ p.length ≤ n := by
  induction k with
  | zero => intro s p h; simp [iters.chunksRounds] at h
  | succ k ih =>
    intro s p h
    cases s with
    | nil => simp [iters.chunksRounds] at h
    | cons a s =>
      rw [chunksRounds_cons _ _ _ (by simp), List.mem_cons] at h
      rcases h with h | h
      · subst h
        obtain ⟨m, rfl⟩ : ∃ m, n = m + 1 := ⟨n - 1, by omega⟩
        refine ⟨by simp, ?_⟩
        rw [List.length_take]
        exact Nat.min_le_left _ _
      · exact ih _ p h

theorem chunksRounds_getElem? {α : Type} (n : Nat) (hn : 0 < n) (k : Nat) :
    ∀ (s : List α) (i : Nat), s.length ≤ k →
      (iters.chunksRounds k n s)[i]?
        = if i * n < s.length then some ((s.drop (i * n)).take n) else none := by
  induction k with
  | zero =>
    intro s i h
    have : s = [] := List.length_eq_zero.1 (by omega)
    subst this
    simp [iters.chunksRounds]
  | succ k ih =>
    intro s i h
    cases s with
    | nil => simp [iters.chunksRounds]
    | cons a s =>
      rw [chunksRounds_cons _ _ _ (by simp)]
      cases i with
      | zero => simp
      | succ i =>
        rw [List.getElem?_cons_succ,
          ih _ i (by rw [List.length_drop, List.length_cons]
                     simp only [List.length_cons] at h; omega),
          List.length_drop, List.drop_drop, Nat.succ_mul]
        have e : n + i * n = i * n + n := by omega
        rw [e]
        by_cases hlt : i * n < (a :: s).length - n
        · rw [if_pos hlt, if_pos (by omega)]
        · rw [if_neg hlt, if_neg (by omega)]


theorem PageIter_drain_ofList {α : Type} (cap : Nat) (hcap : 0 < cap) (fuel : Nat) :
    ∀ (rest buf : List α) (err : Option iters.IterError), rest.length < fuel →
      (err = none ∨ (err = some .EOF ∧ rest = [])) →
      iters.PageIter.drain fuel (.pageIter (iters.pageIter.ofList cap rest buf err))
        = (iters.chunks cap rest, some .EOF) := by
  induction fuel with
  | zero => intro rest buf err h; omega
  | succ fuel ih =>
    intro rest buf err h herr
    rcases herr with herr | ⟨herr, hnil⟩
    · subst herr
      cases rest with
      | nil =>
        simp only [iters.PageIter.drain, iters.PageIter.NextPage, NextPage_ofList_nil cap hcap]
        rfl
      | cons a t =>
        have hstep := NextPage_ofList_cons cap (a :: t) buf (by simp)
        have hlen : ((a :: t).drop cap).length < fuel := by
          rw [List.length_drop]
          simp only [List.length_cons] at h ⊢
          omega
        have hrec := ih ((a :: t).drop cap) ((a :: t).take cap)
          (if (a :: t).length < cap then some .EOF else none) hlen
          (by
            by_cases hlt : (a :: t).length < cap
            · exact Or.inr ⟨by rw [if_pos hlt], List.drop_eq_nil_of_le (by omega)⟩
            · exact Or.inl (by rw [if_neg hlt]))
        rw [chunks_cons cap hcap (a :: t) (by simp)]
        simp only [iters.PageIter.drain, iters.PageIter.NextPage, hstep, hrec]
    · subst herr
      subst hnil
      simp only [iters.PageIter.drain, iters.PageIter.NextPage, NextPage_ofList_err]
      rfl

theorem allPagesLoop_of_drain {α : Type} (fuel : Nat) :
    ∀ (it : iters.PageIter α) (out : List α) (pages : List (List α)),
      iters.PageIter.drain fuel it = (pages, some .EOF) →
      iters.allPagesLoop fuel it out = (out ++ pages.flatten, none) := by
  induction fuel with
  | zero => intro it out pages h; simp [iters.PageIter.drain] at h
  | succ fuel ih =>
    intro it out pages h
    rcases hn : it.NextPage with ⟨r, it'⟩
    cases r with
    | error e =>
      simp only [iters.PageIter.drain, hn, Prod.mk.injEq, Option.some.injEq] at h
      obtain ⟨h1, h2⟩ := h
      subst h1
      subst h2
      simp [iters.allPagesLoop, hn]
    | ok v =>
      simp only [iters.PageIter.drain, hn, Prod.mk.injEq] at h
      obtain ⟨h1, h2⟩ := h
      subst h1
      have := ih it' (out ++ v) (iters.PageIter.drain fuel it').1
        (by rw [← h2])
      simp only [iters.allPagesLoop, hn, this, List.flatten_cons, List.append_assoc]


/-- C22: for a page size `n > 0`, `IterWithPage(Slice(s), n)` is a page iterator
whose successive `NextPage` calls return the consecutive chunks of `s` and then
`io.EOF`: page number `i` is the `n` elements of `s` from position `i * n` on
(fewer when `s` ends), there is one as long as `i * n` is below the length of
`s`, no page is empty or longer than `n`, every page that has a successor has
exactly `n` elements, the concatenation of the pages is `s`, and `AllPages`
returns `s` without an error. For a page size `n ≤ 0` `IterWithPage` panics,
whatever the iterator. -/
theorem IterWithPage_pages {α : Type} (s : List α) (n : Int) (fuel : Nat) (hn : 0 < n)
    (h : s.length < fuel) :
    (∃ it, iters.IterWithPage (.slice (iters.Slice s)) n = .ok it ∧
      iters.PageIter.drain fuel it = (iters.chunks n.toNat s, some .EOF) ∧
      iters.AllPages fuel it = (s, none)) ∧
    (iters.chunks n.toNat s).flatten = s ∧
    (∀ p ∈ iters.chunks n.toNat s, p ≠ [] ∧ p.length ≤ n.toNat) ∧
    (∀ i, (iters.chunks n.toNat s)[i]?
      = if i * n.toNat < s.length then some ((s.drop (i * n.toNat)).take n.toNat) else none) ∧
    (∀ i p q, (iters.chunks n.toNat s)[i]? = some p →
      (iters.chunks n.toNat s)[i + 1]? = some q → p.length = n.toNat) ∧
    (∀ (u : iters.Iter α) (m : Int), m ≤ 0 →
      iters.IterWithPage u m = .error "page size must be set") := by
  have hcap : 0 < n.toNat := by omega
  have hdrain := PageIter_drain_ofList n.toNat hcap fuel s [] none h (Or.inl rfl)
  have hidx := fun i => chunksRounds_getElem? n.toNat hcap s.length s i (le_refl _)
  refine ⟨⟨.pageIter (iters.pageIter.ofList n.toNat s [] none), ?_, hdrain, ?_⟩,
    chunksRounds_flatten n.toNat hcap s.length s (le_refl _),
    fun p hp => chunksRounds_mem n.toNat hcap s.length s p hp, hidx, ?_, ?_⟩
  · simp only [iters.IterWithPage, if_neg (not_le.2 hn)]
    rfl
  · have := allPagesLoop_of_drain fuel _ [] _ hdrain
    have hflat : (iters.chunks n.toNat s).flatten = s :=
      chunksRounds_flatten n.toNat hcap s.length s (le_refl _)
    rw [hflat] at this
    simpa only [iters.AllPages, List.nil_append] using this
  · intro i p q hp hq
    have h1 := hidx i
    have h2 := hidx (i + 1)
    simp only [iters.chunks] at hp hq
    rw [hp] at h1
    rw [hq] at h2
    by_cases hlt : (i + 1) * n.toNat < s.length
    · have hlt0 : i * n.toNat < s.length := by
        rw [Nat.succ_mul] at hlt; omega
      rw [if_pos hlt0] at h1
      have hp2 : p = (s.drop (i * n.toNat)).take n.toNat := Option.some.inj h1
      rw [hp2, List.length_take, List.length_drop]
      rw [Nat.succ_mul] at hlt
      omega
    · rw [if_neg hlt] at h2
      exact absurd h2 (by simp)
  · intro u m hm
    simp only [iters.IterWithPage, if_pos hm]

/-- C22 for the list 1, 2, 3, 4, 5 and page size 2: the pages are [1, 2], [3, 4]
and [5], then `io.EOF`, and `AllPages` returns the list. -/
theorem IterWithPage_pages_witness :
    (0 : Int) < 2 ∧ [1, 2, 3, 4, 5].length < 9 ∧
    (iters.IterWithPage (.slice (iters.Slice [1, 2, 3, 4, 5])) 2).toOption.map
        (iters.PageIter.drain 9) = some ([[1, 2], [3, 4], [5]], some .EOF) ∧
    (iters.IterWithPage (.slice (iters.Slice [1, 2, 3, 4, 5])) 2).toOption.map
        (iters.AllPages 9) = some ([1, 2, 3, 4, 5], none) ∧
    (iters.chunks (2 : Int).toNat [1, 2, 3, 4, 5]).flatten = [1, 2, 3, 4, 5] :=
  ⟨by decide, by decide, by decide, by decide,
    (IterWithPage_pages [1, 2, 3, 4, 5] 2 9 (by decide) (by decide)).2.1⟩


/-! ## MultiIter with failing sub-iterators -/

theorem heads_append_nil_cons {α : Type} (xs ys : List (List α)) :
    iters.heads (xs ++ [] :: ys) = iters.heads (xs ++ ys) := by
  induction xs with
  | nil => rfl
  | cons x xs ih =>
    cases x with
    | nil => simpa [iters.heads] using ih
    | cons a x => simp [iters.heads, ih]

theorem tails_append_nil_cons {α : Type} (xs ys : List (List α)) :
    iters.tails (xs ++ [] :: ys) = iters.tails (xs ++ ys) := by
  induction xs with
  | nil => rfl
  | cons x xs ih =>
    cases x with
    | nil => simpa [iters.tails] using ih
    | cons a x => simp [iters.tails, ih]

theorem roundRobin_append_nil_cons {α : Type} (xs ys : List (List α)) :
    iters.roundRobin (xs ++ [] :: ys) = iters.roundRobin (xs ++ ys) := by
  rw [roundRobin_unfold, roundRobin_unfold (xs ++ ys), heads_append_nil_cons,
    tails_append_nil_cons]

theorem policy_false {α : Type} (rs : List (Except iters.IterError α)) :
    ∀ last, iters.policy false last rs
      = (iters.oks rs, ((iters.failures rs).getLast?).getD (last.getD .EOF)) := by
  induction rs with
  | nil => intro last; rfl
  | cons r rs ih =>
    intro last
    cases r with
    | ok a => simp [iters.policy, ih, iters.oks, iters.failures]
    | error e =>
      by_cases he : e = .EOF
      · simp [iters.policy, ih, iters.oks, iters.failures, he]
      · simp only [iters.policy, ne_eq, he, not_false_eq_true, if_true, Bool.false_eq_true,
          if_false, ih, iters.oks, iters.failures, List.filterMap_cons, Option.getD_some,
          List.getLast?_cons]

theorem policy_true {α : Type} (rs : List (Except iters.IterError α)) :
    ∀ last, iters.policy true last rs
      = (iters.oks (iters.beforeFailure rs), ((iters.failures rs).head?).getD (last.getD .EOF)) := by
  induction rs with
  | nil => intro last; rfl
  | cons r rs ih =>
    intro last
    cases r with
    | ok a => simp [iters.policy, ih, iters.oks, iters.failures, iters.beforeFailure]
    | error e =>
      by_cases he : e = .EOF
      · simp [iters.policy, ih, iters.oks, iters.failures, iters.beforeFailure, he]
      · simp [iters.policy, iters.oks, iters.failures, iters.beforeFailure, he]


theorem Next_ofScripts_nil {α : Type} (strict : Bool) (i : Nat) (last : Option iters.IterError) :
    (iters.multiIter.ofScripts strict ([] : List (List (Except iters.IterError α))) i last).Next
      = (.error (last.getD .EOF), iters.multiIter.ofScripts strict [] i last) := by
  cases last <;> rfl

theorem Next_ofScripts_ok {α : Type} (strict : Bool) (pre : List (List (Except iters.IterError α)))
    (a : α) (rs : List (Except iters.IterError α)) (post : List (List (Except iters.IterError α)))
    (last : Option iters.IterError) :
    (iters.multiIter.ofScripts strict (pre ++ (.ok a :: rs) :: post) pre.length last).Next
      = (.ok a, iters.multiIter.ofScripts strict (pre ++ rs :: post)
          ((pre.length + 1) % (pre.length + (post.length + 1))) last) := by
  have hs := getElem?_append_length (List.map iters.Iter.scripted pre)
    (iters.Iter.scripted (.ok a :: rs)) (List.map iters.Iter.scripted post)
  have hset := set_append_length (List.map iters.Iter.scripted pre)
    (iters.Iter.scripted (.ok a :: rs)) (iters.Iter.scripted rs)
    (List.map iters.Iter.scripted post)
  simp only [List.length_map] at hs hset
  unfold iters.multiIter.Next iters.multiIter.nextLoop
  simp only [iters.multiIter.ofScripts, List.map_append, List.map_cons, List.length_append,
    List.length_cons, List.length_map, hs]
  rw [if_neg (by omega)]
  simp only [iters.Iter.Next, hset]

/-- A sub-iterator whose next result is an error is removed and the loop goes
on, unless the error is not `io.EOF` and the iterator is strict. -/
theorem Next_ofScripts_removed {α : Type} (strict : Bool)
    (pre : List (List (Except iters.IterError α))) (s : List (Except iters.IterError α))
    (post : List (List (Except iters.IterError α))) (last : Option iters.IterError)
    (err : iters.IterError) (hs : iters.callResults s = [.error err])
    (hgo : err = .EOF ∨ strict = false) :
    (iters.multiIter.ofScripts strict (pre ++ s :: post) pre.length last).Next
      = (iters.multiIter.ofScripts strict (pre ++ post)
          (if (pre ++ post).length ≠ 0 then pre.length % (pre ++ post).length else pre.length)
          (if err ≠ .EOF then some err else last)).Next := by
  have hget := getElem?_append_length (List.map iters.Iter.scripted pre)
    (iters.Iter.scripted s) (List.map iters.Iter.scripted post)
  have hera := eraseIdx_append_length (List.map iters.Iter.scripted pre)
    (iters.Iter.scripted s) (List.map iters.Iter.scripted post)
  simp only [List.length_map] at hget hera
  have hnext : (iters.Iter.scripted s).Next.1 = .error err := by
    cases s with
    | nil =>
      simp only [iters.callResults, List.cons.injEq, Except.error.injEq, and_true] at hs
      rw [← hs]; rfl
    | cons r rs =>
      cases r with
      | ok a => simp [iters.callResults] at hs
      | error e =>
        simp only [iters.callResults, List.cons.injEq, Except.error.injEq, and_true] at hs
        rw [← hs]; rfl
  rcases hn : (iters.Iter.scripted s).Next with ⟨r, s'⟩
  rw [hn] at hnext
  simp only [] at hnext
  subst hnext
  conv_lhs => unfold iters.multiIter.Next iters.multiIter.nextLoop
  simp only [iters.multiIter.ofScripts, List.map_append, List.map_cons, List.length_append,
    List.length_cons, List.length_map, hget, hera, hn]
  rw [if_neg (by omega)]
  have hfuel : ∀ it : iters.multiIter α, it.sub.length = pre.length + post.length →
      it.nextLoop (pre.length + post.length + 1) = it.Next := by
    intro it hit
    exact nextLoop_fuel _ _ (by omega)
  by_cases he : err = .EOF
  · subst he
    simp only [ne_eq, not_true_eq_false, if_false]
    exact hfuel _ (by simp only [List.length_append, List.length_map])
  · rcases hgo with hgo | hgo
    · exact absurd hgo he
    · subst hgo
      simp only [ne_eq, he, not_false_eq_true, if_true, Bool.false_eq_true, if_false]
      exact hfuel _ (by simp only [List.length_append, List.length_map])

theorem Next_ofScripts_strict {α : Type} (pre : List (List (Except iters.IterError α)))
    (e : iters.IterError) (he : e ≠ .EOF) (rs : List (Except iters.IterError α))
    (post : List (List (Except iters.IterError α))) (last : Option iters.IterError) :
    ((iters.multiIter.ofScripts true (pre ++ (.error e :: rs) :: post) pre.length last).Next).1
      = .error e := by
  have hget := getElem?_append_length (List.map iters.Iter.scripted pre)
    (iters.Iter.scripted (.error e :: rs)) (List.map iters.Iter.scripted post)
  simp only [List.length_map] at hget
  unfold iters.multiIter.Next iters.multiIter.nextLoop
  simp only [iters.multiIter.ofScripts, List.map_append, List.map_cons, List.length_append,
    List.length_cons, List.length_map, hget]
  rw [if_neg (by omega)]
  simp only [iters.Iter.Next, ne_eq, he, not_false_eq_true, if_true]


theorem drain_ok {α : Type} (fuel : Nat) (it it' : iters.multiIter α) (v : α)
    (h : it.Next = (.ok v, it')) :
    iters.drain (fuel + 1) it = (v :: (iters.drain fuel it').1, (iters.drain fuel it').2) := by
  simp only [iters.drain, h]

theorem drain_error {α : Type} (fuel : Nat) (it : iters.multiIter α) (e : iters.IterError)
    (h : it.Next.1 = .error e) : iters.drain (fuel + 1) it = ([], some e) := by
  rcases hn : it.Next with ⟨r, it'⟩
  rw [hn] at h
  simp only [] at h
  subst h
  simp only [iters.drain, hn]

theorem policy_removed {α : Type} (strict : Bool) (last : Option iters.IterError)
    (err : iters.IterError) (rs : List (Except iters.IterError α))
    (hgo : err = .EOF ∨ strict = false) :
    iters.policy strict last (.error err :: rs)
      = iters.policy strict (if err ≠ .EOF then some err else last) rs := by
  by_cases he : err = .EOF
  · simp [iters.policy, he]
  · rcases hgo with hgo | hgo
    · exact absurd hgo he
    · subst hgo
      simp [iters.policy, he]

/-- Draining from any state of the round: the sub-iterators `pre` had their turn
in this round, the sub-iterators `post` are still to have it. -/
theorem drain_ofScripts {α : Type} (strict : Bool) (m : Nat) :
    ∀ (fuel : Nat) (pre post : List (List (Except iters.IterError α)))
      (last : Option iters.IterError),
      iters.total ((pre ++ post).map iters.produced) + (pre ++ post).length < m →
      (post ≠ [] ∨ pre = []) →
      iters.total ((pre ++ post).map iters.produced) < fuel →
      iters.drain fuel (iters.multiIter.ofScripts strict (pre ++ post) pre.length last)
        = ((iters.policy strict last
              (iters.heads (post.map iters.callResults) ++
                iters.roundRobin (pre.map iters.callResults ++
                  iters.tails (post.map iters.callResults)))).1,
            some (iters.policy strict last
              (iters.heads (post.map iters.callResults) ++
                iters.roundRobin (pre.map iters.callResults ++
                  iters.tails (post.map iters.callResults)))).2) := by
  induction m with
  | zero => intro fuel pre post last hm; omega
  | succ m ih =>
    intro fuel pre post last hm hinv hfuel
    cases post with
    | nil =>
      have hpre : pre = [] := by
        rcases hinv with h | h
        · exact absurd rfl h
        · exact h
      subst hpre
      cases fuel with
      | zero => omega
      | succ fuel =>
        rw [drain_error fuel _ (last.getD .EOF) (by
          simp only [List.append_nil, List.length_nil, Next_ofScripts_nil])]
        rfl
    | cons s post =>
      have key : ∀ err, iters.callResults s = [.error err] → (err = .EOF ∨ strict = false) →
          iters.produced s = [] →
          iters.drain fuel (iters.multiIter.ofScripts strict (pre ++ s :: post) pre.length last)
            = ((iters.policy strict last
                (iters.heads ((s :: post).map iters.callResults) ++
                  iters.roundRobin (pre.map iters.callResults ++
                    iters.tails ((s :: post).map iters.callResults)))).1,
              some (iters.policy strict last
                (iters.heads ((s :: post).map iters.callResults) ++
                  iters.roundRobin (pre.map iters.callResults ++
                    iters.tails ((s :: post).map iters.callResults)))).2) := by
        intro err hs hgo hprod
        rw [drain_congr fuel _ _ (Next_ofScripts_removed strict pre s post last err hs hgo)]
        simp only [List.map_append, List.map_cons, total_append, total_cons, hprod,
          List.length_append, List.length_cons, List.length_nil, List.length_map] at hm hfuel
        simp only [List.map_cons, hs, iters.heads, iters.tails, List.cons_append,
          policy_removed strict last err _ hgo, roundRobin_append_nil_cons]
        cases post with
        | nil =>
          have hind : (if (pre ++ ([] : List (List (Except iters.IterError α)))).length ≠ 0
              then pre.length % (pre ++ ([] : List (List (Except iters.IterError α)))).length
              else pre.length) = 0 := by
            simp only [List.append_nil]
            by_cases h0 : pre.length = 0
            · simp [h0]
            · simp [h0]
          rw [hind]
          have := ih fuel [] pre (if err ≠ .EOF then some err else last)
            (by simp only [List.nil_append, List.map_append, total_append, total_nil,
                  List.map_nil] at *; omega)
            (Or.inr rfl)
            (by simp only [List.nil_append, List.map_append, total_append, total_nil,
                  List.map_nil] at *; omega)
          simp only [List.nil_append, List.length_nil, List.append_nil, List.map_nil] at this ⊢
          rw [this, ← roundRobin_unfold]
          simp only [iters.heads, iters.tails, List.nil_append, List.append_nil]
        | cons s2 post =>
          have hind : (if (pre ++ s2 :: post).length ≠ 0
              then pre.length % (pre ++ s2 :: post).length else pre.length) = pre.length := by
            have hlt : pre.length < (pre ++ s2 :: post).length := by
              simp only [List.length_append, List.length_cons]
              omega
            rw [if_pos (by omega), Nat.mod_eq_of_lt hlt]
          rw [hind]
          have := ih fuel pre (s2 :: post) (if err ≠ .EOF then some err else last)
            (by simp only [List.map_append, List.map_cons, total_append, total_cons,
                  List.length_append, List.length_cons] at *
                omega)
            (Or.inl (by simp))
            (by simp only [List.map_append, List.map_cons, total_append, total_cons] at *
                omega)
          rw [this]
      cases s with
      | nil => exact key .EOF rfl (Or.inl rfl) rfl
      | cons r rs =>
        cases r with
        | error e =>
          by_cases he : e = .EOF
          · exact key e rfl (Or.inl he) rfl
          · cases strict with
            | false => exact key e rfl (Or.inr rfl) rfl
            | true =>
              cases fuel with
              | zero => omega
              | succ fuel =>
                rw [drain_error fuel _ e (Next_ofScripts_strict pre e he rs post last)]
                simp [iters.callResults, iters.heads, iters.policy, he]
        | ok a =>
          simp only [List.map_append, List.map_cons, total_append, total_cons, iters.produced,
            List.length_append, List.length_cons] at hm hfuel
          cases fuel with
          | zero => omega
          | succ fuel =>
            rw [drain_ok fuel _ _ a (Next_ofScripts_ok strict pre a rs post last)]
            simp only [List.map_cons, iters.callResults, iters.heads, iters.tails,
              List.cons_append, iters.policy]
            cases post with
            | nil =>
              have hind : (pre.length + 1) %
                  (pre.length + (([] : List (List (Except iters.IterError α))).length + 1))
                  = 0 := by
                simp
              rw [hind]
              have := ih fuel [] (pre ++ [rs]) last
                (by simp only [List.nil_append, List.map_append, List.map_cons, List.map_nil,
                      total_append, total_cons, total_nil, List.length_append, List.length_cons,
                      List.length_nil] at *
                    omega)
                (Or.inr rfl)
                (by simp only [List.nil_append, List.map_append, List.map_cons, List.map_nil,
                      total_append, total_cons, total_nil] at *
                    omega)
              simp only [List.nil_append, List.length_nil, List.map_nil] at this
              rw [this, ← roundRobin_unfold]
              simp only [iters.heads, iters.tails, List.map_nil, List.map_append, List.map_cons,
                List.nil_append]
              rfl
            | cons s2 post =>
              have hind : (pre.length + 1) % (pre.length + ((s2 :: post).length + 1))
                  = (pre ++ [rs]).length := by
                simp only [List.length_append, List.length_cons, List.length_nil]
                exact Nat.mod_eq_of_lt (by omega)
              rw [hind]
              have := ih fuel (pre ++ [rs]) (s2 :: post) last
                (by simp only [List.map_append, List.map_cons, List.map_nil, total_append,
                      total_cons, total_nil, List.length_append, List.length_cons,
                      List.length_nil] at *
                    omega)
                (Or.inl (by simp))
                (by simp only [List.map_append, List.map_cons, List.map_nil, total_append,
                      total_cons, total_nil] at *
                    omega)
              simp only [List.append_assoc, List.singleton_append] at this
              rw [this]
              simp only [List.map_append, List.map_cons, List.map_nil, List.append_assoc,
                List.singleton_append]
              rfl


theorem oks_callResults {α : Type} (s : List (Except iters.IterError α)) :
    iters.oks (iters.callResults s) = iters.produced s := by
  induction s with
  | nil => rfl
  | cons r rs ih =>
    cases r with
    | ok a =>
      simp only [iters.callResults, iters.produced]
      rw [← ih]
      rfl
    | error e => rfl

theorem oks_flatten {α : Type} (ls : List (List (Except iters.IterError α))) :
    iters.oks ls.flatten = (ls.map iters.oks).flatten := by
  induction ls with
  | nil => rfl
  | cons l ls ih =>
    simp only [List.flatten_cons, List.map_cons]
    rw [← ih]
    exact List.filterMap_append _ _ _

/-- Without `strict`, `Next` returns an error only when no sub-iterator is left. -/
theorem nextLoop_error_nonstrict {α : Type} (fuel : Nat) :
    ∀ (it : iters.multiIter α), it.sub.length < fuel → it.strict = false →
      (it.ind < it.sub.length ∨ it.sub = []) →
      ∀ e it', it.nextLoop fuel = (.error e, it') → it'.sub = [] := by
  induction fuel with
  | zero => intro it h; omega
  | succ fuel ih =>
    intro it hlen hstrict hind e it' hres
    unfold iters.multiIter.nextLoop at hres
    by_cases h0 : it.sub.length = 0
    · simp only [h0, if_true] at hres
      have hit : it' = it := by
        cases hl : it.last <;> rw [hl] at hres <;> simp only [Prod.mk.injEq] at hres <;>
          exact hres.2.symm
      rw [hit]
      exact List.length_eq_zero.1 h0
    · simp only [h0, if_false] at hres
      have hi : it.ind < it.sub.length := by
        rcases hind with hi | hi
        · exact hi
        · exact absurd (by rw [hi]; rfl) h0
      rw [List.getElem?_eq_getElem hi] at hres
      simp only [] at hres
      have hlen2 : (it.sub.eraseIdx it.ind).length + 1 = it.sub.length := by
        rw [List.length_eraseIdx, if_pos hi]
        omega
      have hind2 : (if (it.sub.eraseIdx it.ind).length ≠ 0
          then it.ind % (it.sub.eraseIdx it.ind).length else it.ind)
            < (it.sub.eraseIdx it.ind).length ∨ it.sub.eraseIdx it.ind = [] := by
        by_cases hz : (it.sub.eraseIdx it.ind).length = 0
        · exact Or.inr (List.length_eq_zero.1 hz)
        · left
          rw [if_pos hz]
          exact Nat.mod_lt _ (by omega)
      rcases hn : (it.sub[it.ind]).Next with ⟨r, s'⟩
      rw [hn] at hres
      cases r with
      | ok cur => simp at hres
      | error err =>
        simp only [hstrict, Bool.false_eq_true, if_false] at hres
        by_cases he : err ≠ .EOF
        · rw [if_pos he] at hres
          exact ih { it with
              sub := it.sub.eraseIdx it.ind
              ind := if (it.sub.eraseIdx it.ind).length ≠ 0
                then it.ind % (it.sub.eraseIdx it.ind).length else it.ind
              last := some err
              strict := false }
            (by simp only []; omega) rfl hind2 e it' hres
        · rw [if_neg he] at hres
          exact ih { it with
              sub := it.sub.eraseIdx it.ind
              ind := if (it.sub.eraseIdx it.ind).length ≠ 0
                then it.ind % (it.sub.eraseIdx it.ind).length else it.ind
              strict := false }
            (by simp only []; omega) rfl hind2 e it' hres


/-- C21: for sub-iterators given by the results they would return, the calls
`MultiIter` makes on them return the round robin of their results up to the
first error of each. Without `strict`, draining gives every item of that sequence,
that is every item each sub-iterator produces before failing or ending, each
once and in the order of its sub-iterator, and then the last error other than
`io.EOF` of the sequence, `io.EOF` when there is none; and `Next` returns an
error only when no sub-iterator is left. With `strict`, draining gives the
items before the first error other than `io.EOF` and then that error. -/
theorem MultiIter_error_policy {α : Type} (scripts : List (List (Except iters.IterError α)))
    (fuel : Nat) (h : iters.total (scripts.map iters.produced) < fuel) :
    iters.drain fuel (iters.MultiIter false (scripts.map iters.Iter.scripted))
      = (iters.oks (iters.roundRobin (scripts.map iters.callResults)),
          some (((iters.failures
            (iters.roundRobin (scripts.map iters.callResults))).getLast?).getD .EOF)) ∧
    iters.drain fuel (iters.MultiIter true (scripts.map iters.Iter.scripted))
      = (iters.oks (iters.beforeFailure (iters.roundRobin (scripts.map iters.callResults))),
          some (((iters.failures
            (iters.roundRobin (scripts.map iters.callResults))).head?).getD .EOF)) ∧
    (iters.roundRobin (scripts.map iters.callResults)).Perm
      (scripts.map iters.callResults).flatten ∧
    (iters.oks (iters.roundRobin (scripts.map iters.callResults))).Perm
      (scripts.map iters.produced).flatten ∧
    (∀ s ∈ scripts,
      (iters.produced s).Sublist (iters.oks (iters.roundRobin (scripts.map iters.callResults)))) ∧
    (iters.failures (iters.roundRobin (scripts.map iters.callResults))).Perm
      (iters.failures (scripts.map iters.callResults).flatten) ∧
    (∀ it : iters.multiIter α, it.strict = false → (it.ind < it.sub.length ∨ it.sub = []) →
      ∀ e it', it.Next = (.error e, it') → it'.sub = []) := by
  have hperm : (iters.roundRobin (scripts.map iters.callResults)).Perm
      (scripts.map iters.callResults).flatten :=
    roundRobinRounds_perm _ _ (le_refl _)
  have hdrain : ∀ strict, iters.drain fuel (iters.MultiIter strict (scripts.map iters.Iter.scripted))
      = ((iters.policy strict none (iters.roundRobin (scripts.map iters.callResults))).1,
          some (iters.policy strict none (iters.roundRobin (scripts.map iters.callResults))).2) := by
    intro strict
    have := drain_ofScripts strict
      (iters.total (scripts.map iters.produced) + scripts.length + 1) fuel [] scripts none
      (by simp only [List.nil_append]; omega) (Or.inr rfl)
      (by simpa only [List.nil_append] using h)
    simp only [List.nil_append, List.length_nil, List.map_nil] at this
    rw [← roundRobin_unfold] at this
    exact this
  refine ⟨?_, ?_, hperm, ?_, ?_, hperm.filterMap _, ?_⟩
  · rw [hdrain false, policy_false]
    rfl
  · rw [hdrain true, policy_true]
    rfl
  · have h1 := hperm.filterMap (fun r : Except iters.IterError α =>
      match r with
      | .ok a => some a
      | .error _ => none)
    have h2 : iters.oks (scripts.map iters.callResults).flatten
        = (scripts.map iters.produced).flatten := by
      rw [oks_flatten, List.map_map]
      congr 1
      apply List.map_congr_left
      intro s _
      exact oks_callResults s
    rw [← h2]
    exact h1
  · intro s hs
    have h1 : (iters.callResults s).Sublist (iters.roundRobin (scripts.map iters.callResults)) :=
      roundRobinRounds_sublist _ _ (le_refl _) _ (List.mem_map_of_mem _ hs)
    rw [← oks_callResults]
    exact h1.filterMap _
  · intro it hstrict hind e it' hres
    exact nextLoop_error_nonstrict _ it (Nat.lt_succ_self _) hstrict hind e it' hres

/-- C21 for three sub-iterators: one returns 1 and fails with "a", one fails
with "b" at once, one returns 2 and 3. Without `strict` the drain gives 1, 2, 3
and then "a", the later failure; with `strict` it gives 1 and then "b". -/
theorem MultiIter_error_policy_witness :
    iters.total (([[.ok 1, .error (.failure "a")], [.error (.failure "b")], [.ok 2, .ok 3]] :
      List (List (Except iters.IterError Nat))).map iters.produced) < 9 ∧
    iters.drain 9 (iters.MultiIter false
        ([[.ok 1, .error (.failure "a")], [.error (.failure "b")], [.ok 2, .ok 3]].map
          iters.Iter.scripted))
      = ([1, 2, 3], some (.failure "a")) ∧
    iters.drain 9 (iters.MultiIter true
        ([[.ok 1, .error (.failure "a")], [.error (.failure "b")], [.ok 2, .ok 3]].map
          iters.Iter.scripted))
      = ([1], some (.failure "b")) ∧
    iters.drain 9 (iters.MultiIter false
        ([[.ok 1, .ok 4], [], [.ok 2, .ok 3]].map iters.Iter.scripted))
      = ([1, 2, 4, 3], some .EOF) :=
  ⟨by decide,
    (MultiIter_error_policy
      [[.ok 1, .error (.failure "a")], [.error (.failure "b")], [.ok 2, .ok 3]] 9
      (by decide)).1.trans (by decide),
    by decide, by decide⟩

end WeMeetRecorder
